import Mathlib

/-!
# The database worker pool of `DatabaseWorkerPool.cpp`

A shallow embedding of `DatabaseWorkerPool<T>` (file
`src/server/database/Database/DatabaseWorkerPool.cpp`).

The connection class `T`, the transaction class and the MySQL client library are
external collaborators of the pool.  What they answer is supplied to each operation
as an argument (an answer function), and every call the pool makes on them is
recorded, in order, in the field `trace` of the pool state.  A connection is
identified by the number `id` it received when it was constructed.

Three smaller parts of the same repository follow the definitions of the pool: the method
`SpellDamageModifier::Load`, the method `DBUpdater<T>::ApplyFile` and the script
`npc_onyx_flamecaller`.
-/

set_option autoImplicit false

namespace Trinity

/-! ## Constants -/

/-- The `#define MIN_MYSQL_SERVER_VERSION 50700u`. -/
def MIN_MYSQL_SERVER_VERSION : Nat := 50700

/-- The `#define MIN_MARIADB_SERVER_VERSION 100209u`. -/
def MIN_MARIADB_SERVER_VERSION : Nat := 100209

/-- The bound `OpenConnections` compares the server version with: the `#ifndef LIBMARIADB`
branch uses the MySQL constant, the `#else` branch the MariaDB constant. -/
def MIN_SERVER_VERSION (LIBMARIADB : Bool) : Nat :=
  if LIBMARIADB then MIN_MARIADB_SERVER_VERSION else MIN_MYSQL_SERVER_VERSION

/-- The error number `ER_LOCK_DEADLOCK` of `<mysqld_error.h>`; the source names its value in the
comment "Handle MySQL Errno 1213 without extending deadlock to the core itself". -/
def ER_LOCK_DEADLOCK : Int := 1213

/-! ## Data model -/

/-- The two enumerators of `InternalIndex` that the source names; they index `_connections`.
With this type the `default: ABORT();` branch of the switch in `OpenConnections` has no input. -/
inductive InternalIndex where
  | IDX_ASYNC
  | IDX_SYNCH
  deriving DecidableEq, Repr

/-- A connection object held by the pool: `id` is the number of the construction that made it,
`locked` the state of its mutex (`LockIfReady` is a try-lock, `Unlock` releases). -/
structure Connection where
  id : Nat
  locked : Bool
  deriving DecidableEq, Repr

/-- Modelled from the spec: the method `LockIfReady()` of the connection class, which is not among
the sources; "non-blocking attempt to acquire exclusive use".  It answers whether the lock was
taken and leaves the connection locked in either case. -/
def Connection.LockIfReady (c : Connection) : Bool × Connection :=
  if c.locked then (false, c) else (true, { c with locked := true })

/-- Modelled from the spec: the method `Unlock()` of the connection class, which is not among the
sources; it releases the lock. -/
def Connection.Unlock (c : Connection) : Connection :=
  { c with locked := false }

/-- What a freshly constructed connection answers: `status` is the value of `connection->Open()`
(`uint32`, 0 on success), `serverVersion` the value of `connection->GetServerVersion()`. -/
structure OpenAnswer where
  status : Nat
  serverVersion : Nat
  deriving DecidableEq, Repr

/-- What `ResultSet` shows to `Query`: `GetRowCount()` and the value of the first `NextRow()`. -/
structure ResultSet where
  rowCount : Nat
  nextRow : Bool
  deriving DecidableEq, Repr

/-- Modelled from the spec: the class `PreparedStatement<T>` of `PreparedStatement.h`, which is not
among the sources; "a statement proxy bound to the pool's recorded parameter count for that index".
The two fields are the arguments of its constructor. -/
structure PreparedStatement where
  index : Nat
  parameterCount : Nat
  deriving DecidableEq, Repr

/-- What `PreparedResultSet` shows to `Query(PreparedStatement<T>*)`: `GetRowCount()`. -/
structure PreparedResultSet where
  rowCount : Nat
  deriving DecidableEq, Repr

/-- One statement of a transaction: raw text or a prepared statement. -/
inductive SQLElement where
  | raw (sql : String)
  | prepared (stmt : PreparedStatement)
  deriving DecidableEq, Repr

/-- Modelled from the spec: the class `Transaction<T>` of `Transaction.h`, which is not among the
sources; "an ordered, append-only sequence of statements (raw or prepared)". -/
structure Transaction where
  queries : List SQLElement
  deriving DecidableEq, Repr

/-- Modelled from the spec: the method `GetSize()` of the transaction, the number of statements it
holds. -/
def Transaction.GetSize (t : Transaction) : Nat :=
  t.queries.length

/-- Modelled from the spec: the methods `Append(char const* sql)` and `Append(stmt)` of the
transaction, which is not among the sources; the transaction is "an ordered, append-only sequence
of statements": the element goes to the end. -/
def Transaction.Append (t : Transaction) (element : SQLElement) : Transaction :=
  { queries := t.queries ++ [element] }

/-- The operations the pool pushes to its task queue in the methods modelled here:
`new TransactionTask(transaction)`, `new PingOperation`, `new BasicStatementTask(sql, async)`,
`new PreparedStatementTask(stmt, async)` and `new TransactionWithResultTask(transaction)`.
Modelled from the spec: the task classes are not among the sources; an operation carries "its
payload and an optional result channel".  `result` is the number of the promise created for the
task: `none` for a statement task made without `async` (the default `false`), and the
transaction task with a result always has one. -/
inductive SQLOperation where
  | TransactionTask (transaction : Transaction)
  | PingOperation
  | BasicStatementTask (sql : Option String) (result : Option Nat)
  | PreparedStatementTask (stmt : PreparedStatement) (result : Option Nat)
  | TransactionWithResultTask (transaction : Transaction) (result : Nat)
  deriving DecidableEq, Repr

/-- Modelled from the spec: the method `GetFuture()` of the task classes, which are not among the
sources; the future of the task's "result channel (future/promise pair)", identified by the number
of the promise.  `none` for a task without a result channel. -/
def SQLOperation.GetFuture : SQLOperation → Option Nat
  | SQLOperation.BasicStatementTask _ result => result
  | SQLOperation.PreparedStatementTask _ result => result
  | SQLOperation.TransactionWithResultTask _ result => some result
  | _ => none

/-- Modelled from the spec: the class `TransactionCallback`, which is not among the sources; a
"thin wrapper" around the future it was constructed from. -/
structure TransactionCallback where
  future : Option Nat
  deriving DecidableEq, Repr

/-- What `connection->PrepareStatements()` leaves: the value it returns and the vector `m_stmts`
of the connection, in which `none` is a null pointer and `some n` a prepared statement whose
`GetParameterCount()` is `n` (`uint32`). -/
structure PrepareAnswer where
  ok : Bool
  stmts : List (Option Nat)
  deriving DecidableEq, Repr

/-- A call of the pool on one of its collaborators. -/
inductive Event where
  | Create (type : InternalIndex) (id : Nat)
  | Open (id : Nat)
  | LockIfReady (id : Nat) (ok : Bool)
  | Unlock (id : Nat)
  | Query (id : Nat) (sql : Option String)
  | ExecuteTransaction (id : Nat) (errorCode : Int)
  | Cleanup
  | QueryPrepared (id : Nat) (stmt : PreparedStatement)
  | Execute (id : Nat) (sql : Option String)
  | ExecutePrepared (id : Nat) (stmt : PreparedStatement)
  | PrepareStatements (id : Nat) (ok : Bool)
  | Ping (id : Nat)
  | EscapeString (id : Nat) (source : String) (length : Nat)
  deriving DecidableEq, Repr

/-- The members of `DatabaseWorkerPool<T>` that the operations below read or write.
`connectionInfo` is the `unique_ptr` `_connectionInfo` (`none` is the null pointer), `async` and
`synch` are `_connections[IDX_ASYNC]` and `_connections[IDX_SYNCH]`.  `created` counts the
connections constructed so far and `trace` lists the calls made on collaborators.  `queue` is the
content of the task queue `_queue`, oldest operation first, and `preparedStatementSize` the vector
`_preparedStatementSize` of `uint8`; both are empty after construction.  `promises` counts the
promises (result channels) created so far for the tasks of this pool: a task that is constructed
with a result channel gets a new one, numbered `promises`. -/
structure DatabaseWorkerPool where
  connectionInfo : Option String
  async_threads : Nat
  synch_threads : Nat
  async : List Connection
  synch : List Connection
  created : Nat
  trace : List Event
  queue : List SQLOperation := []
  preparedStatementSize : List Nat := []
  promises : Nat := 0
  deriving DecidableEq, Repr

/-- How a call that can end in a fatal assertion ends: it returns a value and leaves a state, or
the process is terminated in the state given. -/
inductive Outcome (α : Type) where
  | returned (value : α) (s : DatabaseWorkerPool)
  | fatal (s : DatabaseWorkerPool)
  deriving DecidableEq, Repr

namespace DatabaseWorkerPool

/-- The constructor: `_async_threads(0), _synch_threads(0)`, no connection info, no connection. -/
def init : DatabaseWorkerPool :=
  { connectionInfo := none, async_threads := 0, synch_threads := 0,
    async := [], synch := [], created := 0, trace := [] }

/-- The vector `_connections[type]`. -/
def connections (s : DatabaseWorkerPool) : InternalIndex → List Connection
  | .IDX_ASYNC => s.async
  | .IDX_SYNCH => s.synch

/-- Assignment to `_connections[type]`. -/
def setConnections (s : DatabaseWorkerPool) (type : InternalIndex) (l : List Connection) :
    DatabaseWorkerPool :=
  match type with
  | .IDX_ASYNC => { s with async := l }
  | .IDX_SYNCH => { s with synch := l }

/-- Appends events to the trace. -/
def log (s : DatabaseWorkerPool) (es : List Event) : DatabaseWorkerPool :=
  { s with trace := s.trace ++ es }

/-- The number of live connections: `_connections[IDX_SYNCH].size() + _connections[IDX_ASYNC].size()`. -/
def liveConnections (s : DatabaseWorkerPool) : Nat :=
  s.synch.length + s.async.length

/-- The method `SetConnectionInfo(infoString, asyncThreads, synchThreads)`; the two counts are
`uint8` parameters, hence the reduction modulo 2^8. -/
def SetConnectionInfo (s : DatabaseWorkerPool) (infoString : String)
    (asyncThreads synchThreads : Nat) : DatabaseWorkerPool :=
  { s with connectionInfo := some infoString,
           async_threads := asyncThreads % 2 ^ 8,
           synch_threads := synchThreads % 2 ^ 8 }

/-- The method `OpenConnections(type, numConnections)`.  The first numeric argument is the number
of iterations of `for (uint8 i = 0; i < numConnections; ++i)` still to run (the body does not read
`i`, and `i` cannot overflow since `i < numConnections <= 255`).  One iteration constructs a
connection (it gets the number `s.created`), calls its `Open()`, and then
* on a nonzero status clears `_connections[type]` and returns the status;
* on a server version below the minimum returns 1 (the list is left as it is);
* otherwise pushes the connection to the back of `_connections[type]` and goes on.
After the last iteration it returns 0. -/
def OpenConnections (LIBMARIADB : Bool) (world : Nat → OpenAnswer) (type : InternalIndex) :
    Nat → DatabaseWorkerPool → Nat × DatabaseWorkerPool
  | 0, s => (0, s)
  | n + 1, s =>
    let id := s.created
    let s1 := { s with created := id + 1, trace := s.trace ++ [Event.Create type id, Event.Open id] }
    let error := (world id).status
    if error ≠ 0 then
      (error, s1.setConnections type [])
    else if (world id).serverVersion < MIN_SERVER_VERSION LIBMARIADB then
      (1, s1)
    else
      OpenConnections LIBMARIADB world type n
        (s1.setConnections type (s1.connections type ++ [{ id := id, locked := false }]))

/-- Modelled from the spec: the macro `WPFatal(cond, ...)` of `Errors.h`, which is not among the
sources.  It is a process-terminating assertion: when the condition does not hold the process ends
in the current state and the rest of the function does not run. -/
def WPFatal {α : Type} (cond : Bool) (s : DatabaseWorkerPool) (rest : Outcome α) : Outcome α :=
  if cond then rest else Outcome.fatal s

/-- The method `Open()`: the assertion on `_connectionInfo`, then the asynchronous batch, and, when
that returned 0, the synchronous batch, whose status is returned. -/
def Open (LIBMARIADB : Bool) (world : Nat → OpenAnswer) (s : DatabaseWorkerPool) : Outcome Nat :=
  WPFatal s.connectionInfo.isSome s <|
    let r := OpenConnections LIBMARIADB world .IDX_ASYNC s.async_threads s
    if r.1 ≠ 0 then
      Outcome.returned r.1 r.2
    else
      let r2 := OpenConnections LIBMARIADB world .IDX_SYNCH r.2.synch_threads r.2
      Outcome.returned r2.1 r2.2

/-! ### Locking and the blocking API -/

/-- A pointer `T*` to a connection owned by the pool: the list it is in and its position there. -/
structure ConnectionPtr where
  type : InternalIndex
  index : Nat
  deriving DecidableEq, Repr

/-- The connection a pointer points to, when there is one. -/
def deref (s : DatabaseWorkerPool) (p : ConnectionPtr) : Option Connection :=
  (s.connections p.type)[p.index]?

/-- The statement `connection->Unlock();` where `connection` is the pointer `p` and points to the
connection `c` of the pool. -/
def unlockAt (s : DatabaseWorkerPool) (p : ConnectionPtr) (c : Connection) : DatabaseWorkerPool :=
  (s.setConnections p.type ((s.connections p.type).set p.index c.Unlock)).log
    [Event.Unlock c.id]

/-- The loop `for (;;)` of `GetFreeConnection`.  The first numeric argument bounds the number of
iterations the evaluation follows (`none` when it is used up: the loop has not ended by then), the
second is the `uint8` cursor `i`.  One iteration increments the cursor modulo 2^8, takes the
connection at position `i % num_cons` and calls its `LockIfReady()`; the loop ends when that
succeeds. -/
def GetFreeConnectionLoop (num_cons : Nat) :
    Nat → Nat → DatabaseWorkerPool → Option (ConnectionPtr × DatabaseWorkerPool)
  | 0, _, _ => none
  | fuel + 1, i, s =>
    let i1 := (i + 1) % 2 ^ 8
    let index := i1 % num_cons
    match s.synch[index]? with
    | none => none
    | some connection =>
      let r := connection.LockIfReady
      let s1 := { s with synch := s.synch.set index r.2,
                         trace := s.trace ++ [Event.LockIfReady connection.id r.1] }
      if r.1 then some ({ type := .IDX_SYNCH, index := index }, s1)
      else GetFreeConnectionLoop num_cons fuel i1 s1

/-- The method `GetFreeConnection()`: `uint8 i = 0`, `num_cons = _connections[IDX_SYNCH].size()`,
then the loop.  With no synchronous connection `++i % num_cons` is a remainder by zero, which has
no defined result: `none`. -/
def GetFreeConnection (fuel : Nat) (s : DatabaseWorkerPool) :
    Option (ConnectionPtr × DatabaseWorkerPool) :=
  if s.synch.length = 0 then none
  else GetFreeConnectionLoop s.synch.length fuel 0 s

/-- The method `Query(char const* sql, T* connection = nullptr)`.  `answer id sql` is what
`connection->Query(sql)` returns on the connection `id` (`none` is the null pointer).  The result is
`none` when the pool never gets a connection or the pointer supplied points to no connection;
otherwise it is the `QueryResult` returned (`none` for `QueryResult(nullptr)`) and the state. -/
def Query (answer : Nat → Option String → Option ResultSet) (fuel : Nat) (s : DatabaseWorkerPool)
    (sql : Option String) (connection : Option ConnectionPtr) :
    Option (Option ResultSet × DatabaseWorkerPool) :=
  let picked : Option (ConnectionPtr × DatabaseWorkerPool) :=
    match connection with
    | none => GetFreeConnection fuel s
    | some p => some (p, s)
  match picked with
  | none => none
  | some (p, s1) =>
    match s1.deref p with
    | none => none
    | some c =>
      let result := answer c.id sql
      let s2 := (s1.log [Event.Query c.id sql]).unlockAt p c
      match result with
      | none => some (none, s2)
      | some r => if r.rowCount = 0 || !r.nextRow then some (none, s2) else some (some r, s2)

/-- The loop `for (uint8 i = 0; i < loopBreaker; ++i)` of `DirectCommitTransaction`.  The first
numeric argument is the number of iterations still allowed (`loopBreaker - i`), the second is `i`.
`exec k` is what the call number `k` of `connection->ExecuteTransaction(transaction)` made by this
`DirectCommitTransaction` returns (call 0 is the one before the loop, so iteration `i` makes call
`i + 1`).  The loop ends early when a call returns 0. -/
def DirectCommitRetry (exec : Nat → Int) (id : Nat) : Nat → Nat → List Event → List Event
  | 0, _, tr => tr
  | left + 1, i, tr =>
    let tr1 := tr ++ [Event.ExecuteTransaction id (exec (i + 1))]
    if exec (i + 1) = 0 then tr1 else DirectCommitRetry exec id left (i + 1) tr1

/-- The method `DirectCommitTransaction(transaction)`.  `none` when the pool never gets a
connection. -/
def DirectCommitTransaction (exec : Nat → Int) (fuel : Nat) (s : DatabaseWorkerPool) :
    Option DatabaseWorkerPool :=
  match GetFreeConnection fuel s with
  | none => none
  | some (p, s1) =>
    match s1.deref p with
    | none => none
    | some c =>
      let errorCode := exec 0
      let s2 := s1.log [Event.ExecuteTransaction c.id errorCode]
      if errorCode = 0 then
        some (s2.unlockAt p c)
      else
        let s3 :=
          if errorCode = ER_LOCK_DEADLOCK then
            { s2 with trace := DirectCommitRetry exec c.id 5 0 s2.trace }
          else s2
        some ((s3.log [Event.Cleanup]).unlockAt p c)

/-! ### The task queue, transactions and shutdown -/

/-- The method `Enqueue(op)`, `_queue->Push(op)`: the operation goes to the tail of the queue. -/
def Enqueue (s : DatabaseWorkerPool) (op : SQLOperation) : DatabaseWorkerPool :=
  { s with queue := s.queue ++ [op] }

/-- The method `QueueSize()`. -/
def QueueSize (s : DatabaseWorkerPool) : Nat :=
  s.queue.length

/-- The method `Close()`: it clears `_connections[IDX_ASYNC]`, then `_connections[IDX_SYNCH]`. -/
def Close (s : DatabaseWorkerPool) : DatabaseWorkerPool :=
  (s.setConnections .IDX_ASYNC []).setConnections .IDX_SYNCH []

/-- The method `BeginTransaction()`: `std::make_shared<Transaction<T>>()`, a transaction without
statements. -/
def BeginTransaction : Transaction :=
  { queries := [] }

/-- The method `CommitTransaction(transaction)`.  The `switch` on `transaction->GetSize()`, whose
case 0 returns, is compiled only under `#ifdef TRINITY_DEBUG`; after it the method enqueues
`new TransactionTask(transaction)`. -/
def CommitTransaction (TRINITY_DEBUG : Bool) (s : DatabaseWorkerPool) (transaction : Transaction) :
    DatabaseWorkerPool :=
  if TRINITY_DEBUG then
    match transaction.GetSize with
    | 0 => s
    | _ => s.Enqueue (SQLOperation.TransactionTask transaction)
  else
    s.Enqueue (SQLOperation.TransactionTask transaction)

/-! ### Prepared statements -/

/-- Modelled from the spec: the macro `ASSERT(cond)` of `Errors.h`, which is not among the sources;
"violation is a fatal assertion".  When the condition does not hold the process ends in the current
state and the rest of the function does not run. -/
def ASSERT {α : Type} (cond : Bool) (s : DatabaseWorkerPool) (rest : Outcome α) : Outcome α :=
  if cond then rest else Outcome.fatal s

/-- The loop `for (size_t i = 0; i < preparedSize; ++i)` of `PrepareStatements`.  The arguments are
the statements `m_stmts[i]`, `m_stmts[i + 1]`, ... still to visit, the position `i` and the table
`_preparedStatementSize`, which the caller has resized to hold every position visited.  A position
whose entry is above 0 is skipped, a null statement is skipped, and otherwise the parameter count
is stored as `uint8` after `ASSERT(paramCount < std::numeric_limits<uint8>::max())`.  The result is
the table, and whether every assertion held (if not, the table is as the failing assertion found
it). -/
def recordParameterCounts : List (Option Nat) → Nat → List Nat → List Nat × Bool
  | [], _, table => (table, true)
  | stmt :: rest, i, table =>
    if table.getD i 0 > 0 then
      recordParameterCounts rest (i + 1) table
    else
      match stmt with
      | none => recordParameterCounts rest (i + 1) table
      | some paramCount =>
        if paramCount < 2 ^ 8 - 1 then
          recordParameterCounts rest (i + 1) (table.set i (paramCount % 2 ^ 8))
        else (table, false)

/-- The statement `if (_preparedStatementSize.size() < preparedSize)
_preparedStatementSize.resize(preparedSize);`: new entries are 0. -/
def resizeTable (table : List Nat) (preparedSize : Nat) : List Nat :=
  if table.length < preparedSize then table ++ List.replicate (preparedSize - table.length) 0
  else table

/-- The loop `for (auto& connection : connections)` of `PrepareStatements` over the list
`_connections[type]`, which is `done ++ todo`: `done` are the connections already visited, `todo`
those still to visit.  `prepare id` is what `connection->PrepareStatements()` leaves on the
connection `id`.  The value of `connection->LockIfReady()` is not read.  The loop returns
`some false` when it executed `return false` (after `Unlock` and `Close()`), `none` when it reached
the end of the list, and ends in the fatal assertion when a parameter count is refused. -/
def PrepareStatementsIn (prepare : Nat → PrepareAnswer) (type : InternalIndex) :
    List Connection → List Connection → DatabaseWorkerPool → Outcome (Option Bool)
  | _, [], s => Outcome.returned none s
  | done, connection :: todo, s =>
    let r := connection.LockIfReady
    let answer := prepare connection.id
    let s1 := (s.setConnections type (done ++ r.2.Unlock :: todo)).log
      [Event.LockIfReady connection.id r.1, Event.PrepareStatements connection.id answer.ok,
        Event.Unlock connection.id]
    if !answer.ok then
      Outcome.returned (some false) s1.Close
    else
      let r2 := recordParameterCounts answer.stmts 0
        (resizeTable s1.preparedStatementSize answer.stmts.length)
      let s2 := { s1 with preparedStatementSize := r2.1 }
      ASSERT r2.2 s2 (PrepareStatementsIn prepare type (done ++ [r.2.Unlock]) todo s2)

/-- The method `PrepareStatements()`: the loop `for (auto& connections : _connections)` visits the
asynchronous list, then the synchronous list, and `return true` follows it. -/
def PrepareStatements (prepare : Nat → PrepareAnswer) (s : DatabaseWorkerPool) : Outcome Bool :=
  match PrepareStatementsIn prepare .IDX_ASYNC [] s.async s with
  | Outcome.fatal s1 => Outcome.fatal s1
  | Outcome.returned (some b) s1 => Outcome.returned b s1
  | Outcome.returned none s1 =>
    match PrepareStatementsIn prepare .IDX_SYNCH [] s1.synch s1 with
    | Outcome.fatal s2 => Outcome.fatal s2
    | Outcome.returned (some b) s2 => Outcome.returned b s2
    | Outcome.returned none s2 => Outcome.returned true s2

/-- The method `GetPreparedStatement(index)`:
`new PreparedStatement<T>(index, _preparedStatementSize[index])`.  `none` when `index` is not a
position of the table (the subscript has no defined result then). -/
def GetPreparedStatement (s : DatabaseWorkerPool) (index : Nat) : Option PreparedStatement :=
  match s.preparedStatementSize[index]? with
  | none => none
  | some size => some { index := index, parameterCount := size }

/-! ### Escaping, keep-alive and the other blocking calls -/

/-- The method `EscapeString(char* to, char const* from, unsigned long length)`.  A pointer is
`none` when it is null (`dest` is the parameter `to`, `source` the parameter `from`); the buffer
`dest` points to holds `none` while nothing has been written to it.  `escape id source length` is what `EscapeString` of the connection `id` returns and what it
writes to the buffer.  The result is the value returned, the buffer and the state; it is `none`
when `_connections[IDX_SYNCH].front()` is taken of an empty vector (no defined result). -/
def EscapeString (escape : Nat → String → Nat → Nat × String) (s : DatabaseWorkerPool)
    (dest : Option (Option String)) (source : Option String) (length : Nat) :
    Option (Nat × Option (Option String) × DatabaseWorkerPool) :=
  match dest, source with
  | some _, some text =>
    if length = 0 then some (0, dest, s)
    else
      match s.synch.head? with
      | none => none
      | some connection =>
        let r := escape connection.id text length
        some (r.1, some (some r.2), s.log [Event.EscapeString connection.id text length])
  | _, _ => some (0, dest, s)

/-- The method `EscapeString(std::string& str)`: nothing on an empty string; otherwise a fresh
buffer is passed to the method above with the length `uint32(str.size())`, and the buffer is
assigned to `str`.  `none` when the method above has no defined result or the buffer is read
without having been written. -/
def EscapeStringInPlace (escape : Nat → String → Nat → Nat × String) (s : DatabaseWorkerPool)
    (str : String) : Option (String × DatabaseWorkerPool) :=
  if str.isEmpty then some (str, s)
  else
    match EscapeString escape s (some none) (some str) (str.utf8ByteSize % 2 ^ 32) with
    | some (_, some (some buf), s1) => some (buf, s1)
    | _ => none

/-- The first loop of `KeepAlive` over the synchronous connections given: a connection whose
`LockIfReady()` succeeds is pinged and unlocked, the others are left alone.  The result is the
connections after the loop and the calls made. -/
def KeepAliveSynch : List Connection → List Connection × List Event
  | [] => ([], [])
  | connection :: rest =>
    let r := connection.LockIfReady
    let tail := KeepAliveSynch rest
    if r.1 then
      (r.2.Unlock :: tail.1,
        [Event.LockIfReady connection.id true, Event.Ping connection.id,
          Event.Unlock connection.id] ++ tail.2)
    else
      (r.2 :: tail.1, Event.LockIfReady connection.id false :: tail.2)

/-- The second loop of `KeepAlive`, `for (uint8 i = 0; i < count; ++i) Enqueue(new PingOperation);`
where `count` is a `size_t`.  The first numeric argument bounds the number of tests of the loop
condition the evaluation follows (`none` when it is used up), the second is the `uint8` counter. -/
def KeepAliveEnqueue (count : Nat) : Nat → Nat → DatabaseWorkerPool → Option DatabaseWorkerPool
  | 0, _, _ => none
  | fuel + 1, i, s =>
    if i < count then
      KeepAliveEnqueue count fuel ((i + 1) % 2 ^ 8) (s.Enqueue SQLOperation.PingOperation)
    else some s

/-- The method `KeepAlive()`. -/
def KeepAlive (fuel : Nat) (s : DatabaseWorkerPool) : Option DatabaseWorkerPool :=
  let r := KeepAliveSynch s.synch
  let s1 := { s with synch := r.1, trace := s.trace ++ r.2 }
  KeepAliveEnqueue s1.async.length fuel 0 s1

/-- The method `Query(PreparedStatement<T>* stmt)`.  `answer id stmt` is what
`connection->Query(stmt)` returns on the connection `id` (`none` is the null pointer).  `none` when
the pool never gets a connection. -/
def QueryPrepared (answer : Nat → PreparedStatement → Option PreparedResultSet) (fuel : Nat)
    (s : DatabaseWorkerPool) (stmt : PreparedStatement) :
    Option (Option PreparedResultSet × DatabaseWorkerPool) :=
  match GetFreeConnection fuel s with
  | none => none
  | some (p, s1) =>
    match s1.deref p with
    | none => none
    | some c =>
      let ret := answer c.id stmt
      let s2 := (s1.log [Event.QueryPrepared c.id stmt]).unlockAt p c
      match ret with
      | none => some (none, s2)
      | some r => if r.rowCount = 0 then some (none, s2) else some (some r, s2)

/-- Modelled from the spec: the function `Trinity::IsFormatEmptyOrNull` of `StringFormat.h`, which
is not among the sources; the statement text is "empty/null". -/
def IsFormatEmptyOrNull (sql : Option String) : Bool :=
  match sql with
  | none => true
  | some text => text.isEmpty

/-- The method `DirectExecute(char const* sql)`.  `none` when the pool never gets a connection. -/
def DirectExecute (fuel : Nat) (s : DatabaseWorkerPool) (sql : Option String) :
    Option DatabaseWorkerPool :=
  if IsFormatEmptyOrNull sql then some s
  else
    match GetFreeConnection fuel s with
    | none => none
    | some (p, s1) =>
      match s1.deref p with
      | none => none
      | some c => some ((s1.log [Event.Execute c.id sql]).unlockAt p c)

/-- The method `DirectExecute(PreparedStatement<T>* stmt)`.  `none` when the pool never gets a
connection. -/
def DirectExecutePrepared (fuel : Nat) (s : DatabaseWorkerPool) (stmt : PreparedStatement) :
    Option DatabaseWorkerPool :=
  match GetFreeConnection fuel s with
  | none => none
  | some (p, s1) =>
    match s1.deref p with
    | none => none
    | some c => some ((s1.log [Event.ExecutePrepared c.id stmt]).unlockAt p c)

/-! ### The non-blocking calls -/

/-- The method `Execute(char const* sql)`: nothing when `Trinity::IsFormatEmptyOrNull(sql)`;
otherwise `new BasicStatementTask(sql)`, a task without a result channel, is enqueued. -/
def Execute (s : DatabaseWorkerPool) (sql : Option String) : DatabaseWorkerPool :=
  if IsFormatEmptyOrNull sql then s
  else s.Enqueue (SQLOperation.BasicStatementTask sql none)

/-- The method `Execute(PreparedStatement<T>* stmt)`: `new PreparedStatementTask(stmt)`, a task
without a result channel, is enqueued. -/
def ExecutePrepared (s : DatabaseWorkerPool) (stmt : PreparedStatement) : DatabaseWorkerPool :=
  s.Enqueue (SQLOperation.PreparedStatementTask stmt none)

/-- The method `ExecuteOrAppend(SQLTransaction<T>& trans, char const* sql)`.  `trans` is the shared
pointer (`none` when it is null).  The result is the transaction `trans` points to afterwards and
the state; it is `none` for `trans->Append` of a null pointer, which is no statement text. -/
def ExecuteOrAppend (s : DatabaseWorkerPool) (trans : Option Transaction) (sql : Option String) :
    Option (Option Transaction × DatabaseWorkerPool) :=
  match trans with
  | none => some (none, s.Execute sql)
  | some transaction =>
    match sql with
    | none => none
    | some text => some (some (transaction.Append (SQLElement.raw text)), s)

/-- The method `ExecuteOrAppend(SQLTransaction<T>& trans, PreparedStatement<T>* stmt)`. -/
def ExecuteOrAppendPrepared (s : DatabaseWorkerPool) (trans : Option Transaction)
    (stmt : PreparedStatement) : Option Transaction × DatabaseWorkerPool :=
  match trans with
  | none => (none, s.ExecutePrepared stmt)
  | some transaction => (some (transaction.Append (SQLElement.prepared stmt)), s)

/-- The method `AsyncCommitTransaction(transaction)`.  The `switch` on `transaction->GetSize()` is
compiled only under `#ifdef TRINITY_DEBUG` and every case of it ends in `break` (the cases 0 and 1
write to the log); after it `new TransactionWithResultTask(transaction)` is created with its
promise, `task->GetFuture()` is stored, the task is enqueued, and the callback made of the stored
future is returned. -/
def AsyncCommitTransaction (TRINITY_DEBUG : Bool) (s : DatabaseWorkerPool)
    (transaction : Transaction) : TransactionCallback × DatabaseWorkerPool :=
  let task := SQLOperation.TransactionWithResultTask transaction s.promises
  let s1 := { s with promises := s.promises + 1 }
  let result := task.GetFuture
  let commit : TransactionCallback × DatabaseWorkerPool := ({ future := result }, s1.Enqueue task)
  if TRINITY_DEBUG then
    match transaction.GetSize with
    | 0 => commit
    | 1 => commit
    | _ => commit
  else commit

/-! ## Notions used to state the properties -/

/-- The pool accepts a connection when its `Open()` returned 0 and its server version is not
below the minimum of the build. -/
def accepted (LIBMARIADB : Bool) (a : OpenAnswer) : Prop :=
  a.status = 0 ∧ MIN_SERVER_VERSION LIBMARIADB ≤ a.serverVersion

instance (LIBMARIADB : Bool) (a : OpenAnswer) : Decidable (accepted LIBMARIADB a) := by
  unfold accepted; infer_instance

/-- The state after `k` iterations of `OpenConnections` on `type` that all accepted their
connection: the connections numbered `s.created`, ..., `s.created + k - 1` are at the back of
`_connections[type]`, unlocked. -/
def afterAccepted (s : DatabaseWorkerPool) (type : InternalIndex) (k : Nat) : DatabaseWorkerPool :=
  { s.setConnections type
      (s.connections type ++ (List.range' s.created k).map (fun id => { id := id, locked := false })) with
    created := s.created + k
    trace := s.trace ++ (List.range' s.created k).flatMap (fun id => [Event.Create type id, Event.Open id]) }

/-- The state after one more connection was constructed and its `Open()` called. -/
def attempted (s : DatabaseWorkerPool) (type : InternalIndex) : DatabaseWorkerPool :=
  { s with created := s.created + 1,
           trace := s.trace ++ [Event.Create type s.created, Event.Open s.created] }

/-- The calls of one `DirectCommitTransaction` on the connection `id`, after the lock was taken. -/
def directCommitCalls (exec : Nat → Int) (id : Nat) : List Event :=
  Event.ExecuteTransaction id (exec 0) ::
    (if exec 0 = 0 then [Event.Unlock id]
     else (if exec 0 = ER_LOCK_DEADLOCK then DirectCommitRetry exec id 5 0 [] else []) ++
       [Event.Cleanup, Event.Unlock id])

/-- The calls of `ExecuteTransaction` in a trace, in order: the connection and the code returned. -/
def executeCalls (tr : List Event) : List (Nat × Int) :=
  tr.filterMap fun e =>
    match e with
    | Event.ExecuteTransaction id errorCode => some (id, errorCode)
    | _ => none

/-- The number of calls of the transaction's `Cleanup` in a trace. -/
def cleanupCalls (tr : List Event) : Nat :=
  tr.count Event.Cleanup

/-- The calls of `Unlock` in a trace, in order: the connection unlocked. -/
def unlockCalls (tr : List Event) : List Nat :=
  tr.filterMap fun e =>
    match e with
    | Event.Unlock id => some id
    | _ => none

/-- The connections selected in a trace, in order: those whose `LockIfReady` succeeded. -/
def selected (tr : List Event) : List Nat :=
  tr.filterMap fun e =>
    match e with
    | Event.LockIfReady id true => some id
    | _ => none

/-- Sequential calls `Query(sql)` without a connection supplied, one per statement of the list:
each call starts in the state the call before it left (where it has unlocked its connection). -/
def QuerySequence (answer : Nat → Option String → Option ResultSet) (fuel : Nat) :
    List (Option String) → DatabaseWorkerPool → Option (List (Option ResultSet) × DatabaseWorkerPool)
  | [], s => some ([], s)
  | sql :: rest, s =>
    match Query answer fuel s sql none with
    | none => none
    | some (r, s1) =>
      match QuerySequence answer fuel rest s1 with
      | none => none
      | some (rs, s2) => some (r :: rs, s2)

/-! ### Notions for the prepared statements, the locks and the keep-alive -/

/-- The calls `KeepAlive` makes on one synchronous connection. -/
def keepAliveCalls (c : Connection) : List Event :=
  if c.locked then [Event.LockIfReady c.id false]
  else [Event.LockIfReady c.id true, Event.Ping c.id, Event.Unlock c.id]

/-- The `QueryResult` that `Query(sql)` makes of what the connection returned. -/
def queryResultOf (result : Option ResultSet) : Option ResultSet :=
  match result with
  | none => none
  | some r => if r.rowCount = 0 || !r.nextRow then none else some r

/-- The `PreparedQueryResult` that `Query(stmt)` makes of what the connection returned. -/
def preparedResultOf (ret : Option PreparedResultSet) : Option PreparedResultSet :=
  match ret with
  | none => none
  | some r => if r.rowCount = 0 then none else some r

/-- The state after a blocking call that used the connection `id`: the trace has grown by the
failed probes, the successful `LockIfReady`, the work and the `Unlock`. -/
def afterBlocking (s : DatabaseWorkerPool) (probes : List Event) (id : Nat) (work : List Event) :
    DatabaseWorkerPool :=
  { s with trace := s.trace ++ (probes ++ Event.LockIfReady id true :: (work ++ [Event.Unlock id])) }

/-- The connection a working call of the trace is made on; `none` for the other events. -/
def worksOn : Event → Option Nat
  | Event.Query id _ => some id
  | Event.QueryPrepared id _ => some id
  | Event.Execute id _ => some id
  | Event.ExecutePrepared id _ => some id
  | Event.ExecuteTransaction id _ => some id
  | Event.PrepareStatements id _ => some id
  | Event.Ping id => some id
  | Event.EscapeString id _ _ => some id
  | _ => none

/-- Whether every working call of a trace is made on a connection that is held at that moment.
A connection is held from a `LockIfReady` on it until the next `Unlock` of it; with
`needSuccess` only a `LockIfReady` that succeeded counts.  `held` are the connections held at the
start. -/
def guarded (needSuccess : Bool) : List Nat → List Event → Bool
  | _, [] => true
  | held, e :: rest =>
    match e with
    | Event.LockIfReady id ok =>
      guarded needSuccess (if ok || !needSuccess then id :: held else held) rest
    | Event.Unlock id => guarded needSuccess (held.erase id) rest
    | _ =>
      (match worksOn e with
        | some id => decide (id ∈ held)
        | none => true) && guarded needSuccess held rest

/-- Lock balance of a call that took the pool from `s` to `s1`: the calls it made select exactly
one synchronous connection of the pool, unlock that connection exactly once, make every working
call on it, and leave the synchronous connections, with their locks, as they were. -/
def lockBalanced (s s1 : DatabaseWorkerPool) : Prop :=
  ∃ c ∈ s.synch, ∃ new : List Event,
    s1.trace = s.trace ++ new ∧ selected new = [c.id] ∧ unlockCalls new = [c.id] ∧
    (∀ e ∈ new, ∀ id, worksOn e = some id → id = c.id) ∧ s1.synch = s.synch

/-- The parameter count a connection reports at index `i`: that of `m_stmts[i]`, and 0 when the
vector is shorter or holds a null pointer there. -/
def reported (stmts : List (Option Nat)) (i : Nat) : Nat :=
  match stmts[i]? with
  | some (some n) => n
  | _ => 0

/-- One connection's turn on the table: the resize and the loop over its statements. -/
def tableStep (table : List Nat) (a : PrepareAnswer) : List Nat × Bool :=
  recordParameterCounts a.stmts 0 (resizeTable table a.stmts.length)

/-- The turns of the connections whose answers are listed, in order, as long as no assertion
fails. -/
def tableRun : List PrepareAnswer → List Nat → List Nat × Bool
  | [], table => (table, true)
  | a :: rest, table =>
    if (tableStep table a).2 then tableRun rest (tableStep table a).1
    else ((tableStep table a).1, false)

/-- The first nonzero parameter count reported at index `i` by the answers, in order; 0 when
there is none. -/
def firstNonzero : List PrepareAnswer → Nat → Nat
  | [], _ => 0
  | a :: rest, i => if reported a.stmts i > 0 then reported a.stmts i else firstNonzero rest i

/-- The calls of one iteration of `PrepareStatements`, on the connection `c`. -/
def prepareCalls (prepare : Nat → PrepareAnswer) (c : Connection) : List Event :=
  [Event.LockIfReady c.id (!c.locked), Event.PrepareStatements c.id (prepare c.id).ok,
    Event.Unlock c.id]

/-- The connection `c` after `LockIfReady()` and `Unlock()`: the same connection, unlocked. -/
def released (c : Connection) : Connection :=
  { id := c.id, locked := false }

/-- The state an outcome ends in. -/
def finalState {α : Type} : Outcome α → DatabaseWorkerPool
  | Outcome.returned _ s => s
  | Outcome.fatal s => s

/-- The state after the connections `visited` of `_connections[type]`, which is then `all`, had
their turn in `PrepareStatements` without a failure. -/
def afterPrepared (prepare : Nat → PrepareAnswer) (s : DatabaseWorkerPool) (type : InternalIndex)
    (all visited : List Connection) : DatabaseWorkerPool :=
  { s.setConnections type all with
    trace := s.trace ++ visited.flatMap (prepareCalls prepare)
    preparedStatementSize :=
      (tableRun (visited.map (fun c => prepare c.id)) s.preparedStatementSize).1 }

/-- The calls of `Ping` in a trace, in order: the connection pinged. -/
def pingCalls (tr : List Event) : List Nat :=
  tr.filterMap fun e =>
    match e with
    | Event.Ping id => some id
    | _ => none

/-! ### Notions for the task queue and the probe order -/

/-- The failed calls of `LockIfReady` on the connections at the positions `j % size`, for the
cursor values `j` listed. -/
def failedProbes (s : DatabaseWorkerPool) (cursors : List Nat) : List Event :=
  cursors.filterMap fun j =>
    (s.synch[j % s.synch.length]?).map fun b => Event.LockIfReady b.id false

/-! ### Notions for the worker threads and the result channels -/

/-- The answers of the first connections constructed are those of the list; every later
connection opens with status 0 and reports the version 50700. -/
def worldFrom (l : List OpenAnswer) : Nat → OpenAnswer :=
  fun n => l.getD n { status := 0, serverVersion := 50700 }

/-- The pool after `SetConnectionInfo("world", 2, 1)` and an `Open` that accepted all three
connections. -/
def threeOpened : DatabaseWorkerPool :=
  { connectionInfo := some "world", async_threads := 2, synch_threads := 1,
    async := [{ id := 0, locked := false }, { id := 1, locked := false }],
    synch := [{ id := 2, locked := false }], created := 3,
    trace := [Event.Create .IDX_ASYNC 0, Event.Open 0, Event.Create .IDX_ASYNC 1,
      Event.Open 1, Event.Create .IDX_SYNCH 2, Event.Open 2] }

/-- A pool with two synchronous connections, both unlocked. -/
def twoIdle : DatabaseWorkerPool :=
  { init with synch := [{ id := 0, locked := false }, { id := 1, locked := false }] }

/-- A pool with one synchronous connection, unlocked. -/
def oneIdle : DatabaseWorkerPool :=
  { init with synch := [{ id := 0, locked := false }] }

/-- A pool with three synchronous connections, all unlocked. -/
def threeIdle : DatabaseWorkerPool :=
  { init with synch := [{ id := 0, locked := false }, { id := 1, locked := false },
      { id := 2, locked := false }] }

/-- A pool with two synchronous connections; the one at position 1 is locked. -/
def secondBusy : DatabaseWorkerPool :=
  { init with synch := [{ id := 0, locked := false }, { id := 1, locked := true }] }

/-- Every query returns a result set of one row. -/
def oneRow : Nat → Option String → Option ResultSet :=
  fun _ _ => some { rowCount := 1, nextRow := true }

/-- The first call returns the deadlock code 1213, the second the code 1205 (lock wait timeout),
every later call 0. -/
def deadlockThenTimeout : Nat → Int :=
  fun k => if k = 0 then 1213 else if k = 1 then 1205 else 0

/-- The connection 0 reports a statement without parameters at index 0, every other connection a
statement with 3 parameters. -/
def zeroThenThree : Nat → PrepareAnswer :=
  fun id => if id = 0 then { ok := true, stmts := [some 0] } else { ok := true, stmts := [some 3] }

/-- A pool with two asynchronous connections, both unlocked. -/
def twoAsync : DatabaseWorkerPool :=
  { init with async := [{ id := 0, locked := false }, { id := 1, locked := false }] }

/-- The pool `twoAsync` after `PrepareStatements` with the answers `zeroThenThree`. -/
def twoAsyncPrepared : DatabaseWorkerPool :=
  { twoAsync with
    trace := [Event.LockIfReady 0 true, Event.PrepareStatements 0 true, Event.Unlock 0,
      Event.LockIfReady 1 true, Event.PrepareStatements 1 true, Event.Unlock 1],
    preparedStatementSize := [3] }

/-- A pool with two synchronous connections; the one at position 0 is locked. -/
def firstBusy : DatabaseWorkerPool :=
  { init with synch := [{ id := 0, locked := true }, { id := 1, locked := false }] }

/-- A pool with one asynchronous and two synchronous connections, the last one locked. -/
def mixedPool : DatabaseWorkerPool :=
  { init with async := [{ id := 0, locked := false }],
              synch := [{ id := 1, locked := false }, { id := 2, locked := true }] }

/-- Every connection prepares successfully: no statement at index 0, a statement with 2 parameters
at index 1. -/
def twoParameters : Nat → PrepareAnswer :=
  fun _ => { ok := true, stmts := [none, some 2] }

/-- The pool `mixedPool` after `PrepareStatements` with the answers `twoParameters`. -/
def mixedPrepared : DatabaseWorkerPool :=
  { mixedPool with
    synch := [{ id := 1, locked := false }, { id := 2, locked := false }],
    trace := [Event.LockIfReady 0 true, Event.PrepareStatements 0 true, Event.Unlock 0,
      Event.LockIfReady 1 true, Event.PrepareStatements 1 true, Event.Unlock 1,
      Event.LockIfReady 2 false, Event.PrepareStatements 2 true, Event.Unlock 2],
    preparedStatementSize := [0, 2] }

/-- The connection 1 fails to prepare; the others prepare one statement with 1 parameter. -/
def secondFails : Nat → PrepareAnswer :=
  fun id => if id = 1 then { ok := false, stmts := [] } else { ok := true, stmts := [some 1] }

end DatabaseWorkerPool

/-! ## The spell damage modifiers of `SpellModifier.cpp`

The method `SpellDamageModifier::Load` of `src/server/scripts/Custom/SpellModifier/SpellModifier.cpp`.
The type `float` of the modifiers is a parameter `F`, and so is the one test the method makes on
them, `x < 0.0f`. -/

namespace SpellDamageModifier

/-- The class `ModSpellInfo`.  `F` stands for the type `float` of the three modifiers. -/
structure ModSpellInfo (F : Type) where
  PlayerModifier : F
  CreatureModifier : F
  HealingModifier : F
  Comment : String
  deriving DecidableEq, Repr

/-- One row of the result of `CUSTOM_SEL_SPELL_MODIFIER`, as `Load` reads it: `pField[0].GetUInt32()`,
`pField[1].GetFloat()`, `pField[2].GetFloat()`, `pField[3].GetFloat()` and `pField[4].GetString()`. -/
structure Row (F : Type) where
  SpellID : Nat
  PlayerModifier : F
  CreatureModifier : F
  HealingModifier : F
  Comment : String
  deriving DecidableEq, Repr

/-- The member `std::unordered_map<uint32, ModSpellInfo> ModifiedSpells`, as the list of its
elements, oldest first (the map itself has no order). -/
abbrev Table (F : Type) : Type := List (Nat × ModSpellInfo F)

/-- The expression `ModifiedSpells.find(spellId)`: the element with that key, `none` for `end()`. -/
def find {F : Type} : Table F → Nat → Option (ModSpellInfo F)
  | [], _ => none
  | (key, info) :: rest, spellId => if key = spellId then some info else find rest spellId

/-- The call `ModifiedSpells.emplace(SpellID, info)`: nothing is inserted when the key is there. -/
def emplace {F : Type} (table : Table F) (SpellID : Nat) (info : ModSpellInfo F) : Table F :=
  if (find table SpellID).isSome then table else table ++ [(SpellID, info)]

/-- The `ModSpellInfo info` that the body of the loop fills from a row. -/
def infoOf {F : Type} (row : Row F) : ModSpellInfo F :=
  { PlayerModifier := row.PlayerModifier, CreatureModifier := row.CreatureModifier,
    HealingModifier := row.HealingModifier, Comment := row.Comment }

/-- The loop `do { ... } while (res->NextRow());` of `Load` over the rows given, in order.
`negative x` is the test `x < 0.0f`.  A row whose spell is in the table already is skipped
(`continue`), then a row with a negative modifier is skipped, and any other row is emplaced. -/
def LoadRows {F : Type} (negative : F → Bool) : List (Row F) → Table F → Table F
  | [], table => table
  | row :: rest, table =>
    let info := infoOf row
    if (find table row.SpellID).isSome then
      LoadRows negative rest table
    else if negative info.CreatureModifier || negative info.PlayerModifier ||
        negative info.HealingModifier then
      LoadRows negative rest table
    else
      LoadRows negative rest (emplace table row.SpellID info)

/-- The method `Load()`.  `res` lists the rows of the `PreparedQueryResult` that
`CustomDatabase.Query(stmt)` returned, in order; `[]` is the null result, which is what `Query`
returns for a result without rows.  The table is cleared first; the counter `nCounter` and the
time are only written to the log. -/
def Load {F : Type} (negative : F → Bool) (res : List (Row F)) (_ModifiedSpells : Table F) :
    Table F :=
  let cleared : Table F := []
  match res with
  | [] => cleared
  | row :: rest => LoadRows negative (row :: rest) cleared

/-- A row none of whose modifiers is negative. -/
def acceptable {F : Type} (negative : F → Bool) (row : Row F) : Bool :=
  !(negative row.CreatureModifier || negative row.PlayerModifier || negative row.HealingModifier)

/-- The first row, in result order, with the spell `spellId` and no negative modifier. -/
def firstAcceptable {F : Type} (negative : F → Bool) (rows : List (Row F)) (spellId : Nat) :
    Option (Row F) :=
  rows.find? (fun row => decide (row.SpellID = spellId) && acceptable negative row)

/-- Three rows: the spell 7 with a negative modifier, then the spell 7 twice without. -/
def threeRows : List (Row Int) :=
  [{ SpellID := 7, PlayerModifier := -1, CreatureModifier := 100, HealingModifier := 100, Comment := "a" },
   { SpellID := 7, PlayerModifier := 50, CreatureModifier := 100, HealingModifier := 100, Comment := "b" },
   { SpellID := 7, PlayerModifier := 60, CreatureModifier := 100, HealingModifier := 100, Comment := "c" }]

end SpellDamageModifier

/-! ## The arguments of the `mysql` client in `DBUpdater.cpp`

The method `DBUpdater<T>::ApplyFile` of `src/server/database/Updater/DBUpdater.cpp`. -/

namespace DBUpdater

/-- The macro `EXIT_SUCCESS` of `<cstdlib>`. -/
def EXIT_SUCCESS : Int := 0

/-- The expression `std::isdigit(port_or_socket[0])`: `port_or_socket[0]` is the first character,
and the terminating `'\0'`, which is no digit, when the string is empty. -/
def isdigitFirst (port_or_socket : String) : Bool :=
  match port_or_socket.data with
  | [] => false
  | c :: _ => c.isDigit

/-- The vector `args` that `ApplyFile` builds, one `emplace_back` after the other.  `WIN32` is
`#ifdef _WIN32`; the flag for SSL depends on
`#if !defined(MARIADB_VERSION_ID) && MYSQL_VERSION_ID >= 80000` (`MARIADB_VERSION_ID` is `none`
when the macro is not defined).  `path` is `path.generic_string()`. -/
def ApplyFileArgs (WIN32 : Bool) (MARIADB_VERSION_ID : Option Nat) (MYSQL_VERSION_ID : Nat)
    (host user password port_or_socket database ssl path : String) : List String :=
  let args : List String := []
  let args := args ++ ["-h" ++ host]
  let args := args ++ ["-u" ++ user]
  let args := if !password.isEmpty then args ++ ["-p" ++ password] else args
  let args :=
    if WIN32 then
      if host = "." then args ++ ["--protocol=PIPE"] else args ++ ["-P" ++ port_or_socket]
    else
      if !isdigitFirst port_or_socket then
        ((args ++ ["-P0"]) ++ ["--protocol=SOCKET"]) ++ ["-S" ++ port_or_socket]
      else args ++ ["-P" ++ port_or_socket]
  let args := args ++ ["--default-character-set=utf8mb4"]
  let args := args ++ ["--max-allowed-packet=1GB"]
  let args :=
    if MARIADB_VERSION_ID.isNone && decide (MYSQL_VERSION_ID ≥ 80000) then
      if ssl = "ssl" then args ++ ["--ssl-mode=REQUIRED"] else args
    else
      if ssl = "ssl" then args ++ ["--ssl"] else args
  let args := args ++ ["-e"]
  let args := args ++ ["BEGIN; SOURCE " ++ path ++ "; COMMIT;"]
  let args := if !database.isEmpty then args ++ [database] else args
  args

/-- The method `ApplyFile(pool, host, user, password, port_or_socket, database, ssl, path)`.
`executable` is `DBUpdaterUtil::GetCorrectedMySQLExecutable()` and `StartProcess executable args`
the exit code that `Trinity::StartProcess` returns for them.  The result is the call of
`StartProcess` made, and `Except.error` with the message of the `UpdateException` when one is
thrown. -/
def ApplyFile (WIN32 : Bool) (MARIADB_VERSION_ID : Option Nat) (MYSQL_VERSION_ID : Nat)
    (executable : String) (StartProcess : String → List String → Int)
    (host user password port_or_socket database ssl path : String) :
    (String × List String) × Except String Unit :=
  let args := ApplyFileArgs WIN32 MARIADB_VERSION_ID MYSQL_VERSION_ID host user password
    port_or_socket database ssl path
  let ret := StartProcess executable args
  if ret ≠ EXIT_SUCCESS then ((executable, args), Except.error "update failed")
  else ((executable, args), Except.ok ())

/-- The flag that asks for SSL in this build. -/
def sslFlag (MARIADB_VERSION_ID : Option Nat) (MYSQL_VERSION_ID : Nat) : String :=
  if MARIADB_VERSION_ID.isNone && decide (MYSQL_VERSION_ID ≥ 80000) then "--ssl-mode=REQUIRED"
  else "--ssl"

end DBUpdater

/-! ## The Onyx Flamecaller of `boss_general_zarithrian.cpp`

The script `npc_onyx_flamecaller` of
`src/server/scripts/Northrend/ChamberOfAspects/RubySanctum/boss_general_zarithrian.cpp`. -/

namespace npc_onyx_flamecaller

/-- The enumerator `EVENT_BLAST_NOVA` of `ZarithrianEvents` (`EVENT_CLEAVE = 1` and the
enumerators after it count on). -/
def EVENT_BLAST_NOVA : Nat := 5

/-- The enumerator `EVENT_LAVA_GOUT` of `ZarithrianEvents`. -/
def EVENT_LAVA_GOUT : Nat := 6

/-- The enumerator `SPELL_BLAST_NOVA` of `ZarithrianSpells`. -/
def SPELL_BLAST_NOVA : Nat := 74392

/-- The enumerator `SPELL_LAVA_GOUT` of `ZarithrianSpells`. -/
def SPELL_LAVA_GOUT : Nat := 74394

/-- A call the script makes on the creature, its event map or the base class; times are in
milliseconds. -/
inductive Call where
  | EventsReset
  | SetReactState
  | MoveToGeneral
  | ScheduleEvent (eventId : Nat) (time : Nat)
  | DoCastAOE (spell : Nat)
  | DoCastVictim (spell : Nat)
  | Repeat (time : Nat)
  | RepeatBetween (minTime maxTime : Nat)
  | DoMeleeAttackIfReady
  deriving DecidableEq, Repr

/-- The script object: the member `_lavaGoutCount` (`uint8`) and the calls made so far. -/
structure State where
  lavaGoutCount : Nat
  calls : List Call
  deriving DecidableEq, Repr

/-- The constructor: `_lavaGoutCount(0)`. -/
def init : State :=
  { lavaGoutCount := 0, calls := [] }

/-- The method `Reset()`. -/
def Reset (st : State) : State :=
  { lavaGoutCount := 0,
    calls := st.calls ++ [Call.EventsReset, Call.SetReactState, Call.MoveToGeneral] }

/-- The method `JustEngagedWith(who)`. -/
def JustEngagedWith (st : State) : State :=
  { st with calls := st.calls ++
      [Call.ScheduleEvent EVENT_BLAST_NOVA 17000, Call.ScheduleEvent EVENT_LAVA_GOUT 3000] }

/-- The `switch (eventId)` in the loop of `UpdateAI`. -/
def handleEvent (eventId : Nat) (st : State) : State :=
  if eventId = EVENT_BLAST_NOVA then
    { st with calls := st.calls ++ [Call.DoCastAOE SPELL_BLAST_NOVA, Call.RepeatBetween 15000 20000] }
  else if eventId = EVENT_LAVA_GOUT then
    if st.lavaGoutCount ≥ 3 then
      { lavaGoutCount := 0, calls := st.calls ++ [Call.Repeat 8000] }
    else
      { lavaGoutCount := (st.lavaGoutCount + 1) % 2 ^ 8,
        calls := st.calls ++ [Call.DoCastVictim SPELL_LAVA_GOUT, Call.Repeat 1000] }
  else st

/-- The loop `while (uint32 eventId = _events.ExecuteEvent())` of `UpdateAI`: the list holds the
values that `ExecuteEvent()` returns, in order; the loop ends at the first 0. -/
def executeEvents : List Nat → State → State
  | [], st => st
  | eventId :: rest, st =>
    if eventId = 0 then st else executeEvents rest (handleEvent eventId st)

/-- The method `UpdateAI(diff)`.  `updateVictim` is what `UpdateVictim()` returns, `casting` what
`me->HasUnitState(UNIT_STATE_CASTING)` returns, and `due` what the calls of `ExecuteEvent()`
return. -/
def UpdateAI (updateVictim casting : Bool) (due : List Nat) (st : State) : State :=
  if !updateVictim then st
  else if casting then st
  else
    let st1 := executeEvents due st
    { st1 with calls := st1.calls ++ [Call.DoMeleeAttackIfReady] }

/-- A call of one of the methods of the script that write a member or make a call. -/
inductive Action where
  | Reset
  | JustEngagedWith
  | UpdateAI (updateVictim casting : Bool) (due : List Nat)
  deriving DecidableEq, Repr

/-- The state after the method calls listed, in order. -/
def run : List Action → State → State
  | [], st => st
  | Action.Reset :: rest, st => run rest (Reset st)
  | Action.JustEngagedWith :: rest, st => run rest (JustEngagedWith st)
  | Action.UpdateAI updateVictim casting due :: rest, st =>
    run rest (UpdateAI updateVictim casting due st)

/-- The state after `k` calls of `UpdateAI` in each of which the creature has a victim, is not
casting and `EVENT_LAVA_GOUT` is the one event that is due. -/
def updated : Nat → State → State
  | 0, st => st
  | k + 1, st => UpdateAI true false [EVENT_LAVA_GOUT] (updated k st)

end npc_onyx_flamecaller

namespace DatabaseWorkerPool

/-! ## Lemmas -/

/-! ### Runs of `OpenConnections` -/

theorem afterAccepted_zero (s : DatabaseWorkerPool) (type : InternalIndex) :
    afterAccepted s type 0 = s := by
  cases type <;> simp [afterAccepted, setConnections, connections]

theorem afterAccepted_succ (s : DatabaseWorkerPool) (type : InternalIndex) (k : Nat) :
    afterAccepted (afterAccepted s type 1) type k = afterAccepted s type (k + 1) := by
  cases type <;>
    simp [afterAccepted, setConnections, connections, List.range'_succ, Nat.add_comm, Nat.add_left_comm]

theorem OpenConnections_step_accepted (lib : Bool) (world : Nat → OpenAnswer) (type : InternalIndex)
    (n : Nat) (s : DatabaseWorkerPool) (h : accepted lib (world s.created)) :
    OpenConnections lib world type (n + 1) s = OpenConnections lib world type n (afterAccepted s type 1) := by
  obtain ⟨h1, h2⟩ := h
  have h3 : ¬ (world s.created).serverVersion < MIN_SERVER_VERSION lib := Nat.not_lt.mpr h2
  cases type <;>
    simp [OpenConnections, h1, h3, afterAccepted, setConnections, connections]

theorem OpenConnections_accepted_run (lib : Bool) (world : Nat → OpenAnswer) (type : InternalIndex)
    (k : Nat) : ∀ (n : Nat) (s : DatabaseWorkerPool), 
    (∀ j, j < k → accepted lib (world (s.created + j))) →
    OpenConnections lib world type (k + n) s = OpenConnections lib world type n (afterAccepted s type k) := by
  induction k with
  | zero => intro n s _; simp [afterAccepted_zero]
  | succ k ih =>
    intro n s h
    have h0 : accepted lib (world s.created) := by simpa using h 0 (Nat.succ_pos k)
    have e : k + 1 + n = (k + n) + 1 := by omega
    rw [e, OpenConnections_step_accepted lib world type _ s h0, ih, afterAccepted_succ]
    intro j hj
    have : (afterAccepted s type 1).created = s.created + 1 := by
      cases type <;> simp [afterAccepted, setConnections]
    rw [this]
    have := h (j + 1) (by omega)
    rwa [Nat.add_assoc, Nat.add_comm 1 j]

theorem OpenConnections_step_rejected (lib : Bool) (world : Nat → OpenAnswer) (type : InternalIndex)
    (n : Nat) (s : DatabaseWorkerPool) (h : ¬ accepted lib (world s.created)) :
    OpenConnections lib world type (n + 1) s =
      if (world s.created).status ≠ 0 then
        ((world s.created).status, (attempted s type).setConnections type [])
      else (1, attempted s type) := by
  by_cases h1 : (world s.created).status = 0
  · have h2 : (world s.created).serverVersion < MIN_SERVER_VERSION lib := by
      by_contra hc
      exact h ⟨h1, Nat.not_lt.mp hc⟩
    simp [OpenConnections, h1, h2, attempted]
  · simp [OpenConnections, h1, attempted]

theorem OpenConnections_first_rejected (lib : Bool) (world : Nat → OpenAnswer) (type : InternalIndex)
    (n k : Nat) (s : DatabaseWorkerPool) (hk : k < n)
    (hacc : ∀ j, j < k → accepted lib (world (s.created + j)))
    (hrej : ¬ accepted lib (world (s.created + k))) :
    OpenConnections lib world type n s =
      if (world (s.created + k)).status ≠ 0 then
        ((world (s.created + k)).status,
          (attempted (afterAccepted s type k) type).setConnections type [])
      else (1, attempted (afterAccepted s type k) type) := by
  obtain ⟨m, rfl⟩ : ∃ m, n = k + (m + 1) := ⟨n - k - 1, by omega⟩
  have hc : (afterAccepted s type k).created = s.created + k := by
    cases type <;> simp [afterAccepted, setConnections]
  rw [OpenConnections_accepted_run lib world type k (m + 1) s hacc,
    OpenConnections_step_rejected lib world type m _ (by rw [hc]; exact hrej), hc]

theorem OpenConnections_all_accepted (lib : Bool) (world : Nat → OpenAnswer) (type : InternalIndex)
    (n : Nat) (s : DatabaseWorkerPool)
    (hacc : ∀ j, j < n → accepted lib (world (s.created + j))) :
    OpenConnections lib world type n s = (0, afterAccepted s type n) := by
  have := OpenConnections_accepted_run lib world type n 0 s hacc
  simpa [OpenConnections] using this

theorem OpenConnections_eq_zero_iff (lib : Bool) (world : Nat → OpenAnswer) (type : InternalIndex)
    (n : Nat) (s : DatabaseWorkerPool) :
    (OpenConnections lib world type n s).1 = 0 ↔
      ∀ j, j < n → accepted lib (world (s.created + j)) := by
  constructor
  · intro h
    by_contra hc
    have hex : ∃ k, k < n ∧ ¬ accepted lib (world (s.created + k)) := by
      push_neg at hc; exact hc
    classical
    let k := Nat.find hex
    have hk : k < n ∧ ¬ accepted lib (world (s.created + k)) := Nat.find_spec hex
    have hmin : ∀ j, j < k → accepted lib (world (s.created + j)) := by
      intro j hj
      by_contra hj2
      exact Nat.find_min hex hj ⟨lt_trans hj hk.1, hj2⟩
    rw [OpenConnections_first_rejected lib world type n k s hk.1 hmin hk.2] at h
    by_cases h1 : (world (s.created + k)).status = 0
    · simp [h1] at h
    · simp [h1] at h
  · intro h
    rw [OpenConnections_all_accepted lib world type n s h]

theorem afterAccepted_async (s : DatabaseWorkerPool) (k : Nat) :
    (afterAccepted s .IDX_ASYNC k).async =
        s.async ++ (List.range' s.created k).map (fun id => { id := id, locked := false }) ∧
      (afterAccepted s .IDX_ASYNC k).synch = s.synch ∧
      (afterAccepted s .IDX_ASYNC k).synch_threads = s.synch_threads ∧
      (afterAccepted s .IDX_ASYNC k).created = s.created + k := by
  simp [afterAccepted, setConnections, connections]

theorem afterAccepted_synch (s : DatabaseWorkerPool) (k : Nat) :
    (afterAccepted s .IDX_SYNCH k).synch =
        s.synch ++ (List.range' s.created k).map (fun id => { id := id, locked := false }) ∧
      (afterAccepted s .IDX_SYNCH k).async = s.async ∧
      (afterAccepted s .IDX_SYNCH k).created = s.created + k := by
  simp [afterAccepted, setConnections, connections]

/-! ### `GetFreeConnection` returns when a connection is unlocked -/

theorem list_set_same {α : Type} (l : List α) (i : Nat) (a : α) (h : l[i]? = some a) :
    l.set i a = l := by
  apply List.ext_getElem?
  intro k
  rw [List.getElem?_set']
  split
  · next hk => subst hk; rw [h]; rfl
  · rfl

theorem GetFreeConnectionLoop_result (n : Nat) :
    ∀ (fuel i : Nat) (s : DatabaseWorkerPool) (p : ConnectionPtr) (s1 : DatabaseWorkerPool),
      GetFreeConnectionLoop n fuel i s = some (p, s1) →
      ∃ (c : Connection) (probes : List Event),
        p.type = InternalIndex.IDX_SYNCH ∧ s.synch[p.index]? = some c ∧ c.locked = false ∧
        (∀ e ∈ probes, ∃ id, e = Event.LockIfReady id false) ∧
        s1 = { s with synch := s.synch.set p.index { c with locked := true },
                      trace := s.trace ++ probes ++ [Event.LockIfReady c.id true] } := by
  intro fuel
  induction fuel with
  | zero => intro i s p s1 h; simp [GetFreeConnectionLoop] at h
  | succ fuel ih =>
    intro i s p s1 h
    rw [GetFreeConnectionLoop] at h
    simp only at h
    cases hc : s.synch[(i + 1) % 256 % n]? with
    | none => simp [hc] at h
    | some c =>
      rw [show (2:Nat) ^ 8 = 256 by norm_num, hc] at h
      simp only at h
      cases hl : c.locked with
      | false =>
        simp only [Connection.LockIfReady, hl, Bool.false_eq_true, if_false, if_true, Option.some.injEq,
          Prod.mk.injEq] at h
        obtain ⟨hp, hs⟩ := h
        subst hp
        refine ⟨c, [], rfl, hc, hl, by simp, ?_⟩
        simp [← hs]
      | true =>
        simp only [Connection.LockIfReady, hl, if_true, Bool.false_eq_true, if_false] at h
        rw [list_set_same _ _ _ hc] at h
        obtain ⟨c2, probes, h1, h2, h3, h4, h5⟩ := ih _ _ p s1 h
        refine ⟨c2, Event.LockIfReady c.id false :: probes, h1, h2, h3, ?_, ?_⟩
        · intro e he
          rcases List.mem_cons.mp he with rfl | he
          · exact ⟨c.id, rfl⟩
          · exact h4 e he
        · rw [h5]; simp

theorem GetFreeConnectionLoop_isSome (n : Nat) :
    ∀ (fuel i : Nat) (s : DatabaseWorkerPool),
      s.synch.length = n →
      (∃ j c, i < j ∧ j ≤ i + fuel ∧ j < 2 ^ 8 ∧ s.synch[j % n]? = some c ∧ c.locked = false) →
      (GetFreeConnectionLoop n fuel i s).isSome = true := by
  intro fuel
  induction fuel with
  | zero => intro i s _ ⟨j, c, h1, h2, _⟩; omega
  | succ fuel ih =>
    intro i s hn ⟨j, c, h1, h2, h3, h4, h5⟩
    have hi : (i + 1) % 256 = i + 1 := Nat.mod_eq_of_lt (by norm_num at h3; omega)
    have hnpos : 0 < n := by
      rcases Nat.eq_zero_or_pos n with h0 | h0
      · subst h0
        have hl : s.synch = [] := List.length_eq_zero.mp hn
        simp [hl] at h4
      · exact h0
    have hlt : (i + 1) % n < s.synch.length := by rw [hn]; exact Nat.mod_lt _ hnpos
    rw [GetFreeConnectionLoop]
    simp only
    rw [show (2:Nat) ^ 8 = 256 by norm_num, hi, List.getElem?_eq_getElem hlt]
    simp only
    cases hl : (s.synch[(i + 1) % n]).locked with
    | false => simp [Connection.LockIfReady, hl]
    | true =>
      simp only [Connection.LockIfReady, hl, if_true, Bool.false_eq_true, if_false]
      rw [list_set_same _ _ _ (List.getElem?_eq_getElem hlt)]
      apply ih
      · exact hn
      · refine ⟨j, c, ?_, by omega, h3, h4, h5⟩
        rcases Nat.lt_or_ge (i + 1) j with hlt2 | hge
        · exact hlt2
        · have hj : j = i + 1 := by omega
          subst hj
          rw [List.getElem?_eq_getElem hlt] at h4
          injection h4 with h4
          rw [h4, h5] at hl
          cases hl

/-! ### The calls made by `DirectCommitTransaction` and `Query` -/

theorem DirectCommitRetry_append (exec : Nat → Int) (id : Nat) :
    ∀ (left i : Nat) (tr : List Event),
      DirectCommitRetry exec id left i tr = tr ++ DirectCommitRetry exec id left i [] := by
  intro left
  induction left with
  | zero => intro i tr; simp [DirectCommitRetry]
  | succ left ih =>
    intro i tr
    simp only [DirectCommitRetry]
    split
    · simp
    · rw [ih, ih (i + 1) ([] ++ _)]; simp

theorem GetFreeConnection_idle (fuel : Nat) (s : DatabaseWorkerPool)
    (hlen : s.synch.length < 2 ^ 8) (hidle : ∃ c ∈ s.synch, c.locked = false)
    (hfuel : s.synch.length ≤ fuel) :
    ∃ (p : ConnectionPtr) (c : Connection) (probes : List Event),
      p.type = InternalIndex.IDX_SYNCH ∧ s.synch[p.index]? = some c ∧ c.locked = false ∧
      (∀ e ∈ probes, ∃ id, e = Event.LockIfReady id false) ∧
      GetFreeConnection fuel s =
        some (p, { s with synch := s.synch.set p.index { c with locked := true },
                          trace := s.trace ++ probes ++ [Event.LockIfReady c.id true] }) := by
  obtain ⟨c0, hc0, hl0⟩ := hidle
  obtain ⟨k, hk, hk2⟩ := List.getElem_of_mem hc0
  have hpos : 0 < s.synch.length := by omega
  have hne : ¬ s.synch.length = 0 := by omega
  have hsome : (GetFreeConnectionLoop s.synch.length fuel 0 s).isSome = true := by
    apply GetFreeConnectionLoop_isSome _ _ _ _ rfl
    rcases Nat.eq_zero_or_pos k with h0 | h0
    · refine ⟨s.synch.length, c0, hpos, by omega, hlen, ?_, hl0⟩
      subst h0
      rw [Nat.mod_self, List.getElem?_eq_getElem hk, hk2]
    · refine ⟨k, c0, h0, by omega, by omega, ?_, hl0⟩
      rw [Nat.mod_eq_of_lt hk, List.getElem?_eq_getElem hk, hk2]
  obtain ⟨⟨p, s1⟩, hres⟩ := Option.isSome_iff_exists.mp hsome
  obtain ⟨c, probes, h1, h2, h3, h4, h5⟩ := GetFreeConnectionLoop_result _ _ _ _ _ _ hres
  refine ⟨p, c, probes, h1, h2, h3, h4, ?_⟩
  simp only [GetFreeConnection, hne, if_false]
  rw [hres, h5]

theorem DirectCommitTransaction_idle (exec : Nat → Int) (fuel : Nat) (s : DatabaseWorkerPool)
    (hlen : s.synch.length < 2 ^ 8) (hidle : ∃ c ∈ s.synch, c.locked = false)
    (hfuel : s.synch.length ≤ fuel) :
    ∃ (p : ConnectionPtr) (c : Connection) (probes : List Event),
      p.type = InternalIndex.IDX_SYNCH ∧ s.synch[p.index]? = some c ∧ c.locked = false ∧
      (∀ e ∈ probes, ∃ id, e = Event.LockIfReady id false) ∧
      DirectCommitTransaction exec fuel s =
        some { s with trace := s.trace ++ (probes ++ Event.LockIfReady c.id true ::
                        directCommitCalls exec c.id) } := by
  obtain ⟨p, c, probes, h1, h2, h3, h4, h5⟩ := GetFreeConnection_idle fuel s hlen hidle hfuel
  refine ⟨p, c, probes, h1, h2, h3, h4, ?_⟩
  have hlt : p.index < s.synch.length := by
    by_contra hcon
    rw [List.getElem?_eq_none (Nat.not_lt.mp hcon)] at h2
    cases h2
  obtain ⟨pt, pi⟩ := p
  simp only at h1 h2 hlt
  subst h1
  have hunl : ({ id := c.id, locked := false } : Connection) = c := by
    cases c; simp_all
  simp only [DirectCommitTransaction, h5, deref, connections, List.getElem?_set_self hlt, unlockAt,
    log, setConnections, Connection.Unlock, List.set_set, directCommitCalls]
  have hset : s.synch.set pi c = s.synch := list_set_same _ _ _ h2
  have hd : ¬ ER_LOCK_DEADLOCK = 0 := by decide
  by_cases e0 : exec 0 = 0
  · simp [e0, hunl, hset]
  · by_cases e1 : exec 0 = ER_LOCK_DEADLOCK
    · simp only [e0, e1, if_true, if_false]
      rw [DirectCommitRetry_append]
      simp [hunl, hset, hd]
    · simp [e0, e1, hunl, hset]

theorem probes_executeCalls (probes : List Event)
    (h : ∀ e ∈ probes, ∃ id, e = Event.LockIfReady id false) :
    executeCalls probes = [] ∧ cleanupCalls probes = 0 ∧ unlockCalls probes = [] ∧
      selected probes = [] := by
  induction probes with
  | nil => simp [executeCalls, cleanupCalls, unlockCalls, selected]
  | cons e rest ih =>
    obtain ⟨id, rfl⟩ := h e (List.mem_cons_self _ _)
    have ih2 := ih (fun e he => h e (List.mem_cons_of_mem _ he))
    simp only [executeCalls, cleanupCalls, unlockCalls, selected] at ih2 ⊢
    simp [ih2]

theorem drop_trace (tr new : List Event) : (tr ++ new).drop tr.length = new := by
  simp

theorem DirectCommitRetry_deadlock (exec : Nat → Int) (id : Nat)
    (hexec : ∀ k, exec k = ER_LOCK_DEADLOCK) :
    DirectCommitRetry exec id 5 0 [] =
      List.replicate 5 (Event.ExecuteTransaction id ER_LOCK_DEADLOCK) := by
  have hd : ¬ ER_LOCK_DEADLOCK = 0 := by decide
  simp [DirectCommitRetry, hexec, hd, List.replicate]

theorem executeCalls_append (a b : List Event) :
    executeCalls (a ++ b) = executeCalls a ++ executeCalls b := by
  simp [executeCalls, List.filterMap_append]

theorem executeCalls_retry_range (exec : Nat → Int) (id i m : Nat) :
    executeCalls ((List.range m).map (fun t => Event.ExecuteTransaction id (exec (i + 1 + t)))) =
      (List.range m).map (fun t => (id, exec (i + 1 + t))) := by
  induction m with
  | zero => simp [executeCalls]
  | succ m ih =>
    rw [List.range_succ, List.map_append, List.map_append, executeCalls_append, ih]
    simp [executeCalls]

theorem DirectCommitRetry_range (exec : Nat → Int) (id : Nat) :
    ∀ (left i : Nat), ∃ m,
      DirectCommitRetry exec id left i [] =
        (List.range m).map (fun t => Event.ExecuteTransaction id (exec (i + 1 + t))) ∧
      m ≤ left ∧ (0 < left → 0 < m) ∧
      ∀ t, t < m → (t + 1 < m ↔ exec (i + 1 + t) ≠ 0 ∧ t + 1 < left) := by
  intro left
  induction left with
  | zero => intro i; exact ⟨0, by simp [DirectCommitRetry]⟩
  | succ left ih =>
    intro i
    by_cases h0 : exec (i + 1) = 0
    · refine ⟨1, by simp [DirectCommitRetry, h0, List.range_succ], by omega, by omega, ?_⟩
      intro t ht
      have : t = 0 := by omega
      subst this
      simp [h0]
    · obtain ⟨m, hm1, hm2, hm3, hm4⟩ := ih (i + 1)
      refine ⟨m + 1, ?_, by omega, by omega, ?_⟩
      · simp only [DirectCommitRetry, h0, if_false]
        rw [DirectCommitRetry_append, hm1, List.range_succ_eq_map]
        simp only [List.map_cons, List.map_map, List.nil_append, Nat.add_zero, List.singleton_append,
          List.cons.injEq, true_and]
        apply List.map_congr_left
        intro a _
        simp only [Function.comp_def]
        congr 2
        omega
      · intro t ht
        rcases Nat.eq_zero_or_pos t with ht0 | ht0
        · subst ht0
          constructor
          · intro h; exact ⟨h0, by omega⟩
          · intro h; have := hm3 (by omega); omega
        · obtain ⟨u, rfl⟩ : ∃ u, t = u + 1 := ⟨t - 1, by omega⟩
          have hu := hm4 u (by omega)
          have e : i + 1 + (u + 1) = i + 1 + 1 + u := by omega
          rw [e]
          constructor
          · intro h; have := hu.mp (by omega); exact ⟨this.1, by omega⟩
          · intro h; have := hu.mpr ⟨h.1, by omega⟩; omega

theorem Query_idle (answer : Nat → Option String → Option ResultSet) (fuel : Nat)
    (s : DatabaseWorkerPool) (sql : Option String) (c : Connection)
    (hc : s.synch[1 % s.synch.length]? = some c) (hl : c.locked = false) :
    ∃ r, Query answer (fuel + 1) s sql none =
      some (r, { s with trace := s.trace ++
        [Event.LockIfReady c.id true, Event.Query c.id sql, Event.Unlock c.id] }) := by
  have hne : ¬ s.synch.length = 0 := by
    intro h0
    rw [List.length_eq_zero.mp h0] at hc
    simp at hc
  have hlt : 1 % s.synch.length < s.synch.length := Nat.mod_lt _ (by omega)
  have hunl : ({ id := c.id, locked := false } : Connection) = c := by
    cases c; simp_all
  have hset : s.synch.set (1 % s.synch.length) c = s.synch := list_set_same _ _ _ hc
  simp only [Query, GetFreeConnection, hne, if_false, GetFreeConnectionLoop, Nat.zero_add,
    show (1 : Nat) % 2 ^ 8 = 1 by norm_num, hc, Connection.LockIfReady, hl, Bool.false_eq_true, if_true,
    deref, connections, List.getElem?_set_self hlt, unlockAt, log, setConnections,
    Connection.Unlock,
    List.set_set, hunl, hset, List.append_assoc, List.singleton_append, List.cons_append,
    List.nil_append]
  cases answer c.id sql with
  | none => exact ⟨none, rfl⟩
  | some r0 =>
    by_cases hb : (decide (r0.rowCount = 0) || !r0.nextRow) = true
    · exact ⟨none, by simp only [hb, if_true]⟩
    · exact ⟨some r0, by simp only [hb, if_false]; simp⟩

theorem selected_queries (id : Nat) (sqls : List (Option String)) :
    selected (sqls.flatMap (fun sql =>
      [Event.LockIfReady id true, Event.Query id sql, Event.Unlock id])) =
      List.replicate sqls.length id := by
  induction sqls with
  | nil => simp [selected]
  | cons sql rest ih =>
    simp only [selected] at ih
    simp [selected, List.filterMap_append, ih, List.replicate_succ]

/-! ### The state `Open` leaves -/

theorem Open_of_info (lib : Bool) (world : Nat → OpenAnswer) (s : DatabaseWorkerPool)
    (hinfo : s.connectionInfo.isSome = true) :
    Open lib world s =
      if (OpenConnections lib world .IDX_ASYNC s.async_threads s).1 ≠ 0 then
        Outcome.returned (OpenConnections lib world .IDX_ASYNC s.async_threads s).1
          (OpenConnections lib world .IDX_ASYNC s.async_threads s).2
      else
        Outcome.returned
          (OpenConnections lib world .IDX_SYNCH
            (OpenConnections lib world .IDX_ASYNC s.async_threads s).2.synch_threads
            (OpenConnections lib world .IDX_ASYNC s.async_threads s).2).1
          (OpenConnections lib world .IDX_SYNCH
            (OpenConnections lib world .IDX_ASYNC s.async_threads s).2.synch_threads
            (OpenConnections lib world .IDX_ASYNC s.async_threads s).2).2 := by
  simp only [Open, WPFatal, hinfo, if_true]

theorem rejected_status_ne_zero (a : OpenAnswer) :
    (if a.status ≠ 0 then a.status else 1) ≠ 0 := by
  by_cases h : a.status = 0 <;> simp [h]

theorem openTrace_async (c a : Nat) (l : List Nat) (h : ∀ id ∈ l, id < c + a) :
    l.flatMap (fun id =>
        [Event.Create (if id < c + a then InternalIndex.IDX_ASYNC else InternalIndex.IDX_SYNCH) id,
          Event.Open id]) =
      l.flatMap (fun id => [Event.Create InternalIndex.IDX_ASYNC id, Event.Open id]) := by
  induction l with
  | nil => rfl
  | cons x rest ih =>
    have hx : x < c + a := h x (List.mem_cons_self _ _)
    simp only [List.flatMap_cons, hx, if_true]
    rw [ih (fun id hid => h id (List.mem_cons_of_mem _ hid))]

theorem openTrace_synch (c a : Nat) (l : List Nat) (h : ∀ id ∈ l, c + a ≤ id) :
    l.flatMap (fun id =>
        [Event.Create (if id < c + a then InternalIndex.IDX_ASYNC else InternalIndex.IDX_SYNCH) id,
          Event.Open id]) =
      l.flatMap (fun id => [Event.Create InternalIndex.IDX_SYNCH id, Event.Open id]) := by
  induction l with
  | nil => rfl
  | cons x rest ih =>
    have hx : ¬ x < c + a := Nat.not_lt.mpr (h x (List.mem_cons_self _ _))
    simp only [List.flatMap_cons, hx, if_false]
    rw [ih (fun id hid => h id (List.mem_cons_of_mem _ hid))]

theorem rangeFrom_flatMap_succ (type : InternalIndex) (c k : Nat) :
    (List.range' c (k + 1)).flatMap (fun id => [Event.Create type id, Event.Open id]) =
      (List.range' c k).flatMap (fun id => [Event.Create type id, Event.Open id]) ++
        [Event.Create type (c + k), Event.Open (c + k)] := by
  rw [List.range'_concat]
  simp [List.flatMap_append]

theorem attempted_trace (s : DatabaseWorkerPool) (type : InternalIndex) (k : Nat) :
    (attempted (afterAccepted s type k) type).trace =
        s.trace ++ (List.range' s.created (k + 1)).flatMap
          (fun id => [Event.Create type id, Event.Open id]) ∧
      (attempted (afterAccepted s type k) type).created = s.created + (k + 1) := by
  rw [rangeFrom_flatMap_succ]
  cases type <;> simp [attempted, afterAccepted, setConnections, Nat.add_assoc]

theorem setConnections_fields (s : DatabaseWorkerPool) (type : InternalIndex)
    (l : List Connection) :
    (s.setConnections type l).trace = s.trace ∧ (s.setConnections type l).created = s.created ∧
      (s.setConnections type l).connections type = l := by
  cases type <;> simp [setConnections, connections]

/-- The state `OpenConnections` leaves when the connection number `k` of the batch is the first
one rejected. -/
theorem OpenConnections_first_rejected_fields (lib : Bool) (world : Nat → OpenAnswer)
    (type : InternalIndex) (n k : Nat) (s : DatabaseWorkerPool) (hk : k < n)
    (hacc : ∀ j, j < k → accepted lib (world (s.created + j)))
    (hrej : ¬ accepted lib (world (s.created + k))) :
    (OpenConnections lib world type n s).1 =
        (if (world (s.created + k)).status ≠ 0 then (world (s.created + k)).status else 1) ∧
      (OpenConnections lib world type n s).2.trace =
        s.trace ++ (List.range' s.created (k + 1)).flatMap
          (fun id => [Event.Create type id, Event.Open id]) ∧
      (OpenConnections lib world type n s).2.created = s.created + (k + 1) ∧
      (type = InternalIndex.IDX_ASYNC → (OpenConnections lib world type n s).2.synch = s.synch) := by
  rw [OpenConnections_first_rejected lib world type n k s hk hacc hrej]
  obtain ⟨t1, t2⟩ := attempted_trace s type k
  by_cases h : (world (s.created + k)).status = 0
  · simp only [h, ne_eq, not_true_eq_false, if_false, t1, t2, true_and]
    intro ht; subst ht
    simp [attempted, afterAccepted, setConnections]
  · simp only [h, ne_eq, not_false_eq_true, if_true, true_and]
    obtain ⟨u1, u2, _⟩ := setConnections_fields (attempted (afterAccepted s type k) type) type []
    rw [u1, u2, t1, t2]
    refine ⟨rfl, rfl, ?_⟩
    intro ht; subst ht
    simp [attempted, afterAccepted, setConnections]

/-! ### The blocking calls, the keep-alive and the prepared statements -/

theorem KeepAliveSynch_eq (l : List Connection) :
    KeepAliveSynch l = (l, l.flatMap keepAliveCalls) := by
  induction l with
  | nil => rfl
  | cons c rest ih =>
    cases c with
    | mk id locked =>
      cases locked <;>
        simp [KeepAliveSynch, ih, Connection.LockIfReady, Connection.Unlock, keepAliveCalls]

theorem KeepAliveEnqueue_eq (count : Nat) (hcount : count < 2 ^ 8) :
    ∀ (fuel i : Nat) (s : DatabaseWorkerPool), i ≤ count → count - i < fuel →
      KeepAliveEnqueue count fuel i s =
        some { s with queue := s.queue ++ List.replicate (count - i) SQLOperation.PingOperation } := by
  intro fuel
  induction fuel with
  | zero => intro i s _ h; omega
  | succ fuel ih =>
    intro i s hi hf
    rcases Nat.lt_or_ge i count with hlt | hge
    · have hmod : (i + 1) % 2 ^ 8 = i + 1 := Nat.mod_eq_of_lt (by omega)
      simp only [KeepAliveEnqueue, hlt, if_true, hmod]
      rw [ih (i + 1) _ (by omega) (by omega)]
      have e : count - i = (count - (i + 1)) + 1 := by omega
      rw [e, List.replicate_succ]
      simp [Enqueue]
    · have e : count - i = 0 := by omega
      have hn : ¬ i < count := by omega
      simp [KeepAliveEnqueue, hn, e]

theorem blocking_calls_idle (fuel : Nat) (s : DatabaseWorkerPool)
    (hlen : s.synch.length < 2 ^ 8) (hidle : ∃ c ∈ s.synch, c.locked = false)
    (hfuel : s.synch.length ≤ fuel) :
    ∃ (c : Connection) (probes : List Event),
      c ∈ s.synch ∧ c.locked = false ∧
      (∀ e ∈ probes, ∃ id, e = Event.LockIfReady id false) ∧
      (∀ (answer : Nat → Option String → Option ResultSet) (sql : Option String),
        Query answer fuel s sql none =
          some (queryResultOf (answer c.id sql),
            afterBlocking s probes c.id [Event.Query c.id sql])) ∧
      (∀ (answer : Nat → PreparedStatement → Option PreparedResultSet) (stmt : PreparedStatement),
        QueryPrepared answer fuel s stmt =
          some (preparedResultOf (answer c.id stmt),
            afterBlocking s probes c.id [Event.QueryPrepared c.id stmt])) ∧
      (∀ (sql : Option String), IsFormatEmptyOrNull sql = false →
        DirectExecute fuel s sql = some (afterBlocking s probes c.id [Event.Execute c.id sql])) ∧
      (∀ (stmt : PreparedStatement),
        DirectExecutePrepared fuel s stmt =
          some (afterBlocking s probes c.id [Event.ExecutePrepared c.id stmt])) := by
  obtain ⟨p, c, probes, h1, h2, h3, h4, h5⟩ := GetFreeConnection_idle fuel s hlen hidle hfuel
  refine ⟨c, probes, List.getElem?_mem h2, h3, h4, ?_⟩
  have hlt : p.index < s.synch.length := by
    by_contra hcon
    rw [List.getElem?_eq_none (Nat.not_lt.mp hcon)] at h2
    cases h2
  obtain ⟨pt, pi⟩ := p
  simp only at h1 h2 hlt
  subst h1
  have hunl : ({ id := c.id, locked := false } : Connection) = c := by
    cases c; simp_all
  have hset : s.synch.set pi c = s.synch := list_set_same _ _ _ h2
  refine ⟨?_, ?_, ?_, ?_⟩
  · intro answer sql
    simp only [Query, h5, deref, connections, List.getElem?_set_self hlt, unlockAt, log,
      setConnections, Connection.Unlock, List.set_set, hunl, hset, afterBlocking, queryResultOf]
    cases answer c.id sql with
    | none => simp
    | some r0 =>
      by_cases hb : (decide (r0.rowCount = 0) || !r0.nextRow) = true
      · simp only [hb, if_true]; simp
      · simp only [hb, if_false]; simp
  · intro answer stmt
    simp only [QueryPrepared, h5, deref, connections, List.getElem?_set_self hlt, unlockAt, log,
      setConnections, Connection.Unlock, List.set_set, hunl, hset, afterBlocking,
      preparedResultOf]
    cases answer c.id stmt with
    | none => simp
    | some r0 =>
      by_cases hb : r0.rowCount = 0
      · simp only [hb, if_true]; simp
      · simp only [hb, if_false]; simp
  · intro sql hsql
    simp [DirectExecute, hsql, h5, deref, connections, List.getElem?_set_self hlt, unlockAt, log,
      setConnections, Connection.Unlock, List.set_set, hunl, hset, afterBlocking]
  · intro stmt
    simp [DirectExecutePrepared, h5, deref, connections, List.getElem?_set_self hlt, unlockAt, log,
      setConnections, Connection.Unlock, List.set_set, hunl, hset, afterBlocking]

theorem queryResultOf_eq_none (result : Option ResultSet) :
    queryResultOf result = none ↔
      (result = none ∨ ∃ rs, result = some rs ∧ (rs.rowCount = 0 ∨ rs.nextRow = false)) := by
  cases result with
  | none => simp [queryResultOf]
  | some r =>
    cases hn : r.nextRow <;> by_cases h0 : r.rowCount = 0 <;> simp [queryResultOf, hn, h0]

theorem queryResultOf_ne_none (result : Option ResultSet) (h : queryResultOf result ≠ none) :
    queryResultOf result = result := by
  cases result with
  | none => rfl
  | some r =>
    by_cases hb : (decide (r.rowCount = 0) || !r.nextRow) = true
    · simp [queryResultOf, hb] at h
    · simp only [queryResultOf, hb, if_false]; simp

theorem Query_supplied (answer : Nat → Option String → Option ResultSet) (fuel : Nat)
    (s : DatabaseWorkerPool) (sql : Option String) (p : ConnectionPtr) (c : Connection)
    (hp : s.deref p = some c) :
    Query answer fuel s sql (some p) =
      some (queryResultOf (answer c.id sql), (s.log [Event.Query c.id sql]).unlockAt p c) := by
  simp only [Query, hp, queryResultOf]
  cases answer c.id sql with
  | none => rfl
  | some r0 =>
    by_cases hb : (decide (r0.rowCount = 0) || !r0.nextRow) = true
    · simp only [hb, if_true]
    · simp only [hb, if_false]; simp

theorem guarded_probes (probes rest : List Event) (held : List Nat)
    (h : ∀ e ∈ probes, ∃ id, e = Event.LockIfReady id false) :
    guarded true held (probes ++ rest) = guarded true held rest := by
  induction probes with
  | nil => rfl
  | cons e tail ih =>
    obtain ⟨id, rfl⟩ := h e (List.mem_cons_self _ _)
    simp only [List.cons_append, guarded]
    simpa using ih (fun e he => h e (List.mem_cons_of_mem _ he))

theorem work_observed (id : Nat) (work rest : List Event)
    (h : ∀ e ∈ work, worksOn e = some id ∨ e = Event.Cleanup) :
    guarded true [id] (work ++ rest) = guarded true [id] rest ∧
      selected (work ++ rest) = selected rest ∧
      unlockCalls (work ++ rest) = unlockCalls rest := by
  induction work with
  | nil => exact ⟨rfl, rfl, rfl⟩
  | cons e tail ih =>
    obtain ⟨i1, i2, i3⟩ := ih (fun e he => h e (List.mem_cons_of_mem _ he))
    have he := h e (List.mem_cons_self _ _)
    simp only [selected, unlockCalls] at i2 i3 ⊢
    cases e <;> simp_all [guarded, worksOn]

theorem afterBlocking_balanced (s : DatabaseWorkerPool) (probes work : List Event)
    (c : Connection) (hc : c ∈ s.synch)
    (hp : ∀ e ∈ probes, ∃ id, e = Event.LockIfReady id false)
    (hw : ∀ e ∈ work, worksOn e = some c.id ∨ e = Event.Cleanup) :
    lockBalanced s (afterBlocking s probes c.id work) ∧
      guarded true [] ((afterBlocking s probes c.id work).trace.drop s.trace.length) = true := by
  obtain ⟨w1, w2, w3⟩ := work_observed c.id work [Event.Unlock c.id] hw
  obtain ⟨_, _, p3, p4⟩ := probes_executeCalls probes hp
  constructor
  · refine ⟨c, hc, probes ++ Event.LockIfReady c.id true :: (work ++ [Event.Unlock c.id]), rfl,
      ?_, ?_, ?_, rfl⟩
    · simp only [selected] at p4 w2 ⊢
      simp [List.filterMap_append, p4, w2]
    · simp only [unlockCalls] at p3 w3 ⊢
      simp [List.filterMap_append, p3, w3]
    · intro e he id hid
      rcases List.mem_append.mp he with he | he
      · obtain ⟨j, rfl⟩ := hp e he
        simp [worksOn] at hid
      · rcases List.mem_cons.mp he with rfl | he
        · simp [worksOn] at hid
        · rcases List.mem_append.mp he with he | he
          · rcases hw e he with h1 | h1
            · rw [h1] at hid; injection hid with hid; exact hid.symm
            · subst h1; simp [worksOn] at hid
          · rw [List.mem_singleton.mp he] at hid
            simp [worksOn] at hid
  · simp only [afterBlocking, drop_trace]
    rw [guarded_probes probes _ [] hp]
    simp only [guarded, Bool.true_or, if_true]
    rw [w1]
    simp [guarded]

theorem getD_set_eq {l : List Nat} {i : Nat} (v j : Nat) (hi : i < l.length) :
    (l.set i v).getD j 0 = if j = i then v else l.getD j 0 := by
  simp only [List.getD_eq_getElem?_getD, List.getElem?_set]
  by_cases h : i = j
  · subst h; simp [hi]
  · have h2 : ¬ j = i := fun e => h e.symm
    simp [h, h2]

theorem recordParameterCounts_spec :
    ∀ (stmts : List (Option Nat)) (i : Nat) (table : List Nat),
      i + stmts.length ≤ table.length →
      (recordParameterCounts stmts i table).2 = true →
      (recordParameterCounts stmts i table).1.length = table.length ∧
      ∀ j, (recordParameterCounts stmts i table).1.getD j 0 =
        if j < i then table.getD j 0
        else if table.getD j 0 > 0 then table.getD j 0
        else reported stmts (j - i) := by
  intro stmts
  induction stmts with
  | nil =>
    intro i table _ _
    refine ⟨rfl, ?_⟩
    intro j
    simp only [recordParameterCounts, reported, List.getElem?_nil]
    split
    · rfl
    · split
      · rfl
      · omega
  | cons stmt rest ih =>
    intro i table hlen hflag
    simp only [List.length_cons] at hlen
    have hrep : ∀ j, i < j → reported (stmt :: rest) (j - i) = reported rest (j - (i + 1)) := by
      intro j hj
      obtain ⟨d, rfl⟩ : ∃ d, j = i + 1 + d := ⟨j - (i + 1), by omega⟩
      have e1 : i + 1 + d - i = d + 1 := by omega
      have e2 : i + 1 + d - (i + 1) = d := by omega
      rw [e1, e2]
      simp [reported]
    by_cases hset : table.getD i 0 > 0
    · simp only [recordParameterCounts, hset, if_true] at hflag ⊢
      obtain ⟨h1, h2⟩ := ih (i + 1) table (by omega) hflag
      refine ⟨h1, ?_⟩
      intro j
      rw [h2 j]
      rcases Nat.lt_trichotomy j i with hj | hj | hj
      · rw [if_pos (Nat.lt_succ_of_lt hj), if_pos hj]
      · subst hj
        rw [if_pos (Nat.lt_succ_self j), if_neg (Nat.lt_irrefl j), if_pos hset]
      · have a1 : ¬ j < i + 1 := by omega
        have a2 : ¬ j < i := by omega
        rw [if_neg a1, if_neg a2, hrep j hj]
    · cases stmt with
      | none =>
        simp only [recordParameterCounts, hset, if_false] at hflag ⊢
        obtain ⟨h1, h2⟩ := ih (i + 1) table (by omega) hflag
        refine ⟨h1, ?_⟩
        intro j
        rw [h2 j]
        rcases Nat.lt_trichotomy j i with hj | hj | hj
        · rw [if_pos (Nat.lt_succ_of_lt hj), if_pos hj]
        · subst hj
          have h0 : table.getD j 0 = 0 := by omega
          rw [if_pos (Nat.lt_succ_self j), if_neg (Nat.lt_irrefl j), if_neg hset, h0,
            Nat.sub_self]
          simp [reported]
        · have a1 : ¬ j < i + 1 := by omega
          have a2 : ¬ j < i := by omega
          rw [if_neg a1, if_neg a2, hrep j hj]
      | some n =>
        by_cases hn : n < 2 ^ 8 - 1
        · simp only [recordParameterCounts, hset, if_false, hn, if_true] at hflag ⊢
          have hmod : n % 2 ^ 8 = n := Nat.mod_eq_of_lt (by omega)
          rw [hmod] at hflag ⊢
          obtain ⟨h1, h2⟩ := ih (i + 1) (table.set i n) (by rw [List.length_set]; omega) hflag
          refine ⟨by rw [h1, List.length_set], ?_⟩
          intro j
          rw [h2 j]
          have hi : i < table.length := by omega
          rcases Nat.lt_trichotomy j i with hj | hj | hj
          · have a1 : ¬ j = i := by omega
            rw [if_pos (Nat.lt_succ_of_lt hj), if_pos hj, getD_set_eq n j hi, if_neg a1]
          · subst hj
            rw [if_pos (Nat.lt_succ_self j), if_neg (Nat.lt_irrefl j), if_neg hset,
              getD_set_eq n j hi, if_pos rfl, Nat.sub_self]
            simp [reported]
          · have a1 : ¬ j < i + 1 := by omega
            have a2 : ¬ j < i := by omega
            have a3 : ¬ j = i := by omega
            rw [if_neg a1, if_neg a2, hrep j hj, getD_set_eq n j hi, if_neg a3]
        · simp only [recordParameterCounts, hset, if_false, hn] at hflag
          cases hflag

theorem resizeTable_spec (table : List Nat) (n : Nat) :
    (resizeTable table n).length = max table.length n ∧
      ∀ j, (resizeTable table n).getD j 0 = table.getD j 0 := by
  unfold resizeTable
  split
  · next h =>
    refine ⟨by simp; omega, ?_⟩
    intro j
    simp only [List.getD_eq_getElem?_getD]
    rcases Nat.lt_or_ge j table.length with hj | hj
    · rw [List.getElem?_append_left hj]
    · rw [List.getElem?_append_right hj, List.getElem?_eq_none hj]
      by_cases h2 : j - table.length < n - table.length
      · simp [List.getElem?_replicate, h2]
      · simp [List.getElem?_replicate, h2]
  · next h => exact ⟨by omega, fun _ => rfl⟩

theorem tableStep_spec (table : List Nat) (a : PrepareAnswer) (h : (tableStep table a).2 = true) :
    (tableStep table a).1.length = max table.length a.stmts.length ∧
      ∀ j, (tableStep table a).1.getD j 0 =
        if table.getD j 0 > 0 then table.getD j 0 else reported a.stmts j := by
  obtain ⟨r1, r2⟩ := resizeTable_spec table a.stmts.length
  obtain ⟨h1, h2⟩ := recordParameterCounts_spec a.stmts 0 (resizeTable table a.stmts.length)
    (by rw [r1]; omega) h
  refine ⟨by rw [tableStep, h1, r1], ?_⟩
  intro j
  rw [tableStep, h2 j, r2 j]
  simp

theorem tableRun_spec :
    ∀ (answers : List PrepareAnswer) (table : List Nat), (tableRun answers table).2 = true →
      table.length ≤ (tableRun answers table).1.length ∧
      (∀ a ∈ answers, a.stmts.length ≤ (tableRun answers table).1.length) ∧
      ∀ j, (tableRun answers table).1.getD j 0 =
        if table.getD j 0 > 0 then table.getD j 0 else firstNonzero answers j := by
  intro answers
  induction answers with
  | nil =>
    intro table _
    refine ⟨Nat.le_refl _, by simp, ?_⟩
    intro j
    simp only [tableRun, firstNonzero]
    split <;> omega
  | cons a rest ih =>
    intro table h
    by_cases hs : (tableStep table a).2 = true
    · simp only [tableRun, hs, if_true] at h ⊢
      obtain ⟨s1, s2⟩ := tableStep_spec table a hs
      obtain ⟨i1, i2, i3⟩ := ih _ h
      refine ⟨by omega, ?_, ?_⟩
      · intro b hb
        rcases List.mem_cons.mp hb with rfl | hb
        · omega
        · exact i2 b hb
      · intro j
        rw [i3 j, s2 j]
        simp only [firstNonzero]
        generalize table.getD j 0 = v
        generalize reported a.stmts j = r
        generalize firstNonzero rest j = f
        split_ifs <;> omega
    · simp [tableRun, hs] at h

theorem tableRun_append (xs ys : List PrepareAnswer) (table : List Nat)
    (h : (tableRun xs table).2 = true) :
    tableRun (xs ++ ys) table = tableRun ys (tableRun xs table).1 := by
  induction xs generalizing table with
  | nil => rfl
  | cons a rest ih =>
    by_cases hs : (tableStep table a).2 = true
    · simp only [tableRun, hs, if_true, List.cons_append] at h ⊢
      exact ih _ h
    · simp [tableRun, hs] at h

theorem recordParameterCounts_flag :
    ∀ (stmts : List (Option Nat)) (i : Nat) (table : List Nat),
      (∀ n, some n ∈ stmts → n < 2 ^ 8 - 1) → (recordParameterCounts stmts i table).2 = true := by
  intro stmts
  induction stmts with
  | nil => intro i table _; rfl
  | cons stmt rest ih =>
    intro i table h
    have hrest : ∀ n, some n ∈ rest → n < 2 ^ 8 - 1 :=
      fun n hn => h n (List.mem_cons_of_mem _ hn)
    simp only [recordParameterCounts]
    split
    · exact ih _ _ hrest
    · cases stmt with
      | none => exact ih _ _ hrest
      | some n =>
        have hn : n < 2 ^ 8 - 1 := h n (List.mem_cons_self _ _)
        simp only [hn, if_true]
        exact ih _ _ hrest

theorem tableRun_flag (answers : List PrepareAnswer) (table : List Nat)
    (h : ∀ a ∈ answers, ∀ n, some n ∈ a.stmts → n < 2 ^ 8 - 1) :
    (tableRun answers table).2 = true := by
  induction answers generalizing table with
  | nil => rfl
  | cons a rest ih =>
    have hs : (tableStep table a).2 = true :=
      recordParameterCounts_flag _ _ _ (h a (List.mem_cons_self _ _))
    simp only [tableRun, hs, if_true]
    exact ih _ (fun b hb => h b (List.mem_cons_of_mem _ hb))

theorem firstNonzero_first (pre post : List PrepareAnswer) (a : PrepareAnswer) (i : Nat)
    (hpre : ∀ b ∈ pre, reported b.stmts i = 0) (ha : 0 < reported a.stmts i) :
    firstNonzero (pre ++ a :: post) i = reported a.stmts i := by
  induction pre with
  | nil => simp [firstNonzero, ha]
  | cons b rest ih =>
    have hb : reported b.stmts i = 0 := hpre b (List.mem_cons_self _ _)
    simp only [List.cons_append, firstNonzero, hb, Nat.lt_irrefl, if_false]
    exact ih (fun c hc => hpre c (List.mem_cons_of_mem _ hc))

theorem firstNonzero_zero (answers : List PrepareAnswer) (i : Nat)
    (h : ∀ b ∈ answers, reported b.stmts i = 0) : firstNonzero answers i = 0 := by
  induction answers with
  | nil => rfl
  | cons b rest ih =>
    have hb : reported b.stmts i = 0 := h b (List.mem_cons_self _ _)
    simp only [firstNonzero, hb, Nat.lt_irrefl, if_false]
    exact ih (fun c hc => h c (List.mem_cons_of_mem _ hc))

theorem lock_release (c : Connection) :
    c.LockIfReady.1 = (!c.locked) ∧ c.LockIfReady.2.Unlock = released c := by
  cases c with
  | mk id locked => cases locked <;> simp [Connection.LockIfReady, Connection.Unlock, released]

theorem setConnections_self (s : DatabaseWorkerPool) (type : InternalIndex) :
    s.setConnections type (s.connections type) = s := by
  cases type <;> rfl

theorem tableRun_cons_flag (a : PrepareAnswer) (rest : List PrepareAnswer) (table : List Nat)
    (h : (tableRun (a :: rest) table).2 = true) :
    (tableStep table a).2 = true ∧ (tableRun rest (tableStep table a).1).2 = true ∧
      tableRun (a :: rest) table = tableRun rest (tableStep table a).1 := by
  by_cases hs : (tableStep table a).2 = true
  · simp only [tableRun, hs, if_true] at h ⊢
    exact ⟨trivial, h, trivial⟩
  · simp [tableRun, hs] at h

theorem PrepareStatementsIn_step (prepare : Nat → PrepareAnswer) (type : InternalIndex)
    (done todo : List Connection) (c : Connection) (s : DatabaseWorkerPool) :
    PrepareStatementsIn prepare type done (c :: todo) s =
      if (prepare c.id).ok = false then
        Outcome.returned (some false)
          ((s.setConnections type (done ++ released c :: todo)).log (prepareCalls prepare c)).Close
      else
        ASSERT (tableStep s.preparedStatementSize (prepare c.id)).2
          { (s.setConnections type (done ++ released c :: todo)).log (prepareCalls prepare c) with
            preparedStatementSize := (tableStep s.preparedStatementSize (prepare c.id)).1 }
          (PrepareStatementsIn prepare type (done ++ [released c]) todo
            { (s.setConnections type (done ++ released c :: todo)).log (prepareCalls prepare c) with
              preparedStatementSize := (tableStep s.preparedStatementSize (prepare c.id)).1 }) := by
  obtain ⟨l1, l2⟩ := lock_release c
  cases type <;> cases hok : (prepare c.id).ok <;>
    simp [PrepareStatementsIn, l1, l2, prepareCalls, tableStep, setConnections, log, hok]

theorem PrepareStatementsIn_prefix (prepare : Nat → PrepareAnswer) (type : InternalIndex) :
    ∀ (pre done rest : List Connection) (s : DatabaseWorkerPool),
      (∀ c ∈ pre, (prepare c.id).ok = true) →
      (tableRun (pre.map (fun c => prepare c.id)) s.preparedStatementSize).2 = true →
      s.connections type = done ++ (pre ++ rest) →
      PrepareStatementsIn prepare type done (pre ++ rest) s =
        PrepareStatementsIn prepare type (done ++ pre.map released) rest
          (afterPrepared prepare s type (done ++ pre.map released ++ rest) pre) := by
  intro pre
  induction pre with
  | nil =>
    intro done rest s _ _ hc
    have : afterPrepared prepare s type (done ++ List.map released [] ++ rest) [] = s := by
      simp only [List.map_nil, List.append_nil, List.nil_append] at hc ⊢
      rw [afterPrepared, ← hc, setConnections_self]
      simp [tableRun]
    rw [this]
    simp
  | cons c pre ih =>
    intro done rest s hok hflag hc
    have hcok : (prepare c.id).ok = true := hok c (List.mem_cons_self _ _)
    obtain ⟨f1, f2, f3⟩ := tableRun_cons_flag _ _ _ hflag
    rw [List.cons_append, PrepareStatementsIn_step]
    simp only [hcok, Bool.true_eq_false, if_false, ASSERT, f1, if_true]
    rw [ih (done ++ [released c]) rest _ (fun x hx => hok x (List.mem_cons_of_mem _ hx))
      (by simpa using f2) (by cases type <;> simp [setConnections, connections, log])]
    congr 1
    · simp
    · cases type <;>
        simp [afterPrepared, setConnections, log, List.append_assoc] <;>
        exact (congrArg Prod.fst f3).symm

theorem PrepareStatementsIn_all (prepare : Nat → PrepareAnswer) (type : InternalIndex)
    (todo : List Connection) (s : DatabaseWorkerPool)
    (hok : ∀ c ∈ todo, (prepare c.id).ok = true)
    (hflag : (tableRun (todo.map (fun c => prepare c.id)) s.preparedStatementSize).2 = true)
    (hc : s.connections type = todo) :
    PrepareStatementsIn prepare type [] todo s =
      Outcome.returned none (afterPrepared prepare s type (todo.map released) todo) := by
  have h := PrepareStatementsIn_prefix prepare type todo [] [] s hok hflag (by simpa using hc)
  simp only [List.append_nil, List.nil_append] at h
  rw [h, PrepareStatementsIn]

theorem PrepareStatementsIn_fail (prepare : Nat → PrepareAnswer) (type : InternalIndex)
    (pre post : List Connection) (c : Connection) (s : DatabaseWorkerPool)
    (hok : ∀ x ∈ pre, (prepare x.id).ok = true)
    (hflag : (tableRun (pre.map (fun x => prepare x.id)) s.preparedStatementSize).2 = true)
    (hc : s.connections type = pre ++ c :: post) (hfail : (prepare c.id).ok = false) :
    ∃ s1, PrepareStatementsIn prepare type [] (pre ++ c :: post) s =
        Outcome.returned (some false) s1 ∧
      s1.async = [] ∧ s1.synch = [] ∧
      s1.trace = s.trace ++ (pre ++ [c]).flatMap (prepareCalls prepare) := by
  have h := PrepareStatementsIn_prefix prepare type pre [] (c :: post) s hok hflag
    (by simpa using hc)
  rw [h, PrepareStatementsIn_step]
  simp only [hfail, if_true]
  refine ⟨_, rfl, ?_, ?_, ?_⟩ <;>
    cases type <;> simp [Close, setConnections, log, afterPrepared]

theorem PrepareStatementsIn_returned (prepare : Nat → PrepareAnswer) (type : InternalIndex) :
    ∀ (todo done : List Connection) (s : DatabaseWorkerPool) (v : Option Bool)
      (s1 : DatabaseWorkerPool),
      PrepareStatementsIn prepare type done todo s = Outcome.returned v s1 →
      (v = none ∨ v = some false) ∧
      (v = none →
        (∀ c ∈ todo, (prepare c.id).ok = true) ∧
        (tableRun (todo.map (fun c => prepare c.id)) s.preparedStatementSize).2 = true) := by
  intro todo
  induction todo with
  | nil =>
    intro done s v s1 h
    simp only [PrepareStatementsIn, Outcome.returned.injEq] at h
    refine ⟨Or.inl h.1.symm, fun _ => ⟨by simp, rfl⟩⟩
  | cons c todo ih =>
    intro done s v s1 h
    rw [PrepareStatementsIn_step] at h
    by_cases hok : (prepare c.id).ok = false
    · simp only [hok, if_true, Outcome.returned.injEq] at h
      refine ⟨Or.inr h.1.symm, ?_⟩
      intro hv
      rw [hv] at h
      cases h.1
    · have hok2 : (prepare c.id).ok = true := by simpa using hok
      simp only [hok, if_false] at h
      by_cases hs : (tableStep s.preparedStatementSize (prepare c.id)).2 = true
      · simp only [ASSERT, hs, if_true] at h
        obtain ⟨i1, i2⟩ := ih _ _ _ _ h
        refine ⟨i1, ?_⟩
        intro hv
        obtain ⟨j1, j2⟩ := i2 hv
        have ht : ({ (s.setConnections type (done ++ released c :: todo)).log
            (prepareCalls prepare c) with
            preparedStatementSize := (tableStep s.preparedStatementSize (prepare c.id)).1 } :
              DatabaseWorkerPool).preparedStatementSize =
            (tableStep s.preparedStatementSize (prepare c.id)).1 := rfl
        rw [ht] at j2
        refine ⟨?_, ?_⟩
        · intro x hx
          rcases List.mem_cons.mp hx with rfl | hx
          · exact hok2
          · exact j1 x hx
        · simp only [List.map_cons, tableRun, hs, if_true]
          exact j2
      · simp only [ASSERT, hs, Bool.false_eq_true, if_false] at h
        cases h

theorem PrepareStatements_ok (prepare : Nat → PrepareAnswer) (s : DatabaseWorkerPool)
    (hok : ∀ c ∈ s.async ++ s.synch, (prepare c.id).ok = true)
    (hflag : (tableRun ((s.async ++ s.synch).map (fun c => prepare c.id))
      s.preparedStatementSize).2 = true) :
    PrepareStatements prepare s =
      Outcome.returned true
        { s with async := s.async.map released, synch := s.synch.map released,
                 trace := s.trace ++ (s.async ++ s.synch).flatMap (prepareCalls prepare),
                 preparedStatementSize :=
                  (tableRun ((s.async ++ s.synch).map (fun c => prepare c.id))
                    s.preparedStatementSize).1 } := by
  have hfa : (tableRun (s.async.map (fun c => prepare c.id)) s.preparedStatementSize).2 = true := by
    by_contra hcon
    rw [List.map_append] at hflag
    have : ∀ (xs ys : List PrepareAnswer) (t : List Nat), (tableRun (xs ++ ys) t).2 = true →
        (tableRun xs t).2 = true := by
      intro xs
      induction xs with
      | nil => intro _ _ _; rfl
      | cons a rest ih =>
        intro ys t h
        obtain ⟨g1, g2, _⟩ := tableRun_cons_flag a (rest ++ ys) t h
        simp only [tableRun, g1, if_true]
        exact ih ys _ g2
    exact hcon (this _ _ _ hflag)
  have happ := tableRun_append (s.async.map (fun c => prepare c.id))
    (s.synch.map (fun c => prepare c.id)) s.preparedStatementSize hfa
  rw [List.map_append, happ] at hflag
  rw [PrepareStatements, PrepareStatementsIn_all prepare .IDX_ASYNC s.async s
    (fun c hc => hok c (List.mem_append_left _ hc)) hfa rfl]
  simp only
  have hsy : (afterPrepared prepare s .IDX_ASYNC (s.async.map released) s.async).synch =
      s.synch := rfl
  rw [hsy, PrepareStatementsIn_all prepare .IDX_SYNCH _ _
    (fun c hc => hok c (List.mem_append_right _ hc)) (by simpa [afterPrepared] using hflag)
    (by simp [afterPrepared, setConnections, connections])]
  simp only [List.map_append, happ]
  simp [afterPrepared, setConnections, List.flatMap_append, List.append_assoc]

theorem PrepareStatements_true (prepare : Nat → PrepareAnswer) (s s1 : DatabaseWorkerPool)
    (h : PrepareStatements prepare s = Outcome.returned true s1) :
    (∀ c ∈ s.async ++ s.synch, (prepare c.id).ok = true) ∧
      (tableRun ((s.async ++ s.synch).map (fun c => prepare c.id))
        s.preparedStatementSize).2 = true := by
  rw [PrepareStatements] at h
  cases h1 : PrepareStatementsIn prepare .IDX_ASYNC [] s.async s with
  | fatal sA => rw [h1] at h; cases h
  | returned v sA =>
    rw [h1] at h
    obtain ⟨i1, i2⟩ := PrepareStatementsIn_returned prepare _ _ _ _ _ _ h1
    rcases i1 with hv | hv
    · subst hv
      obtain ⟨a1, a2⟩ := i2 rfl
      have hA := PrepareStatementsIn_all prepare .IDX_ASYNC s.async s a1 a2 rfl
      rw [h1] at hA
      injection hA with _ hsA
      subst hsA
      simp only at h
      have hsy : (afterPrepared prepare s .IDX_ASYNC (s.async.map released) s.async).synch =
          s.synch := rfl
      rw [hsy] at h
      cases h2 : PrepareStatementsIn prepare .IDX_SYNCH [] s.synch
          (afterPrepared prepare s .IDX_ASYNC (s.async.map released) s.async) with
      | fatal sB => rw [h2] at h; cases h
      | returned w sB =>
        rw [h2] at h
        obtain ⟨k1, k2⟩ := PrepareStatementsIn_returned prepare _ _ _ _ _ _ h2
        rcases k1 with hw | hw
        · subst hw
          obtain ⟨b1, b2⟩ := k2 rfl
          refine ⟨?_, ?_⟩
          · intro c hc
            rcases List.mem_append.mp hc with hc | hc
            · exact a1 c hc
            · exact b1 c hc
          · rw [List.map_append, tableRun_append _ _ _ a2]
            exact b2
        · subst hw
          simp only at h
          injection h with hb _
          cases hb
    · subst hv
      simp only at h
      injection h with hb _
      cases hb

theorem reported_of_some {stmts : List (Option Nat)} {i n : Nat}
    (h : stmts[i]? = some (some n)) : reported stmts i = n ∧ i < stmts.length := by
  refine ⟨by simp [reported, h], ?_⟩
  by_contra hcon
  rw [List.getElem?_eq_none (Nat.not_lt.mp hcon)] at h
  cases h

theorem reported_zero_of_forall {stmts : List (Option Nat)} {i : Nat}
    (h : ∀ m, stmts[i]? = some (some m) → m = 0) : reported stmts i = 0 := by
  unfold reported
  cases hs : stmts[i]? with
  | none => rfl
  | some o =>
    cases o with
    | none => rfl
    | some m => exact h m hs

theorem firstNonzero_agree (answers : List PrepareAnswer) (i cnt : Nat)
    (h : ∀ a ∈ answers, reported a.stmts i = 0 ∨ reported a.stmts i = cnt) :
    (firstNonzero answers i = 0 ∨ firstNonzero answers i = cnt) ∧
      ((∃ a ∈ answers, reported a.stmts i = cnt) → firstNonzero answers i = cnt) := by
  induction answers with
  | nil => exact ⟨Or.inl rfl, fun ⟨a, ha, _⟩ => by cases ha⟩
  | cons a rest ih =>
    obtain ⟨i1, i2⟩ := ih (fun b hb => h b (List.mem_cons_of_mem _ hb))
    have ha := h a (List.mem_cons_self _ _)
    by_cases hpos : reported a.stmts i > 0
    · have hc : reported a.stmts i = cnt := by omega
      simp only [firstNonzero, hpos, if_true]
      exact ⟨Or.inr hc, fun _ => hc⟩
    · have h0 : reported a.stmts i = 0 := by omega
      simp only [firstNonzero, hpos, if_false]
      refine ⟨i1, ?_⟩
      rintro ⟨b, hb, hbc⟩
      rcases List.mem_cons.mp hb with rfl | hb
      · have : cnt = 0 := by omega
        subst this
        rcases i1 with e | e <;> exact e
      · exact i2 ⟨b, hb, hbc⟩

theorem getElem?_of_getD {l : List Nat} {i : Nat} (hi : i < l.length) :
    l[i]? = some (l.getD i 0) := by
  simp [List.getD_eq_getElem?_getD, List.getElem?_eq_getElem hi]

theorem directCommitCalls_work (exec : Nat → Int) (id : Nat) :
    ∃ work, directCommitCalls exec id = work ++ [Event.Unlock id] ∧
      ∀ e ∈ work, worksOn e = some id ∨ e = Event.Cleanup := by
  obtain ⟨m, hm, _⟩ := DirectCommitRetry_range exec id 5 0
  by_cases e0 : exec 0 = 0
  · refine ⟨[Event.ExecuteTransaction id (exec 0)], by simp [directCommitCalls, e0], ?_⟩
    intro e he
    rw [List.mem_singleton.mp he]
    exact Or.inl rfl
  · by_cases e1 : exec 0 = ER_LOCK_DEADLOCK
    · refine ⟨Event.ExecuteTransaction id (exec 0) ::
        ((List.range m).map (fun t => Event.ExecuteTransaction id (exec (0 + 1 + t))) ++
          [Event.Cleanup]), ?_, ?_⟩
      · have hd : ¬ ER_LOCK_DEADLOCK = 0 := by decide
        simp only [directCommitCalls, e1, hd, if_true, if_false, hm]
        simp
      · intro e he
        rcases List.mem_cons.mp he with rfl | he
        · exact Or.inl rfl
        · rcases List.mem_append.mp he with he | he
          · obtain ⟨t, _, rfl⟩ := List.mem_map.mp he
            exact Or.inl rfl
          · exact Or.inr (List.mem_singleton.mp he)
    · refine ⟨[Event.ExecuteTransaction id (exec 0), Event.Cleanup],
        by simp [directCommitCalls, e0, e1], ?_⟩
      intro e he
      rcases List.mem_cons.mp he with rfl | he
      · exact Or.inl rfl
      · exact Or.inr (List.mem_singleton.mp he)

theorem DirectCommitTransaction_blocking (exec : Nat → Int) (fuel : Nat) (s : DatabaseWorkerPool)
    (hlen : s.synch.length < 2 ^ 8) (hidle : ∃ c ∈ s.synch, c.locked = false)
    (hfuel : s.synch.length ≤ fuel) :
    ∃ (c : Connection) (probes work : List Event),
      c ∈ s.synch ∧ (∀ e ∈ probes, ∃ id, e = Event.LockIfReady id false) ∧
      (∀ e ∈ work, worksOn e = some c.id ∨ e = Event.Cleanup) ∧
      DirectCommitTransaction exec fuel s = some (afterBlocking s probes c.id work) := by
  obtain ⟨p, c, probes, _, h2, _, h4, h5⟩ :=
    DirectCommitTransaction_idle exec fuel s hlen hidle hfuel
  obtain ⟨work, w1, w2⟩ := directCommitCalls_work exec c.id
  refine ⟨c, probes, work, List.getElem?_mem h2, h4, w2, ?_⟩
  rw [h5, w1, afterBlocking]

theorem guarded_keepAlive (l : List Connection) :
    guarded true [] (l.flatMap keepAliveCalls) = true := by
  induction l with
  | nil => rfl
  | cons c rest ih =>
    cases c with
    | mk id locked =>
      cases locked <;> simpa [keepAliveCalls, guarded, worksOn] using ih

theorem guarded_prepareCalls (prepare : Nat → PrepareAnswer) (l : List Connection) :
    guarded false [] (l.flatMap (prepareCalls prepare)) = true := by
  induction l with
  | nil => rfl
  | cons c rest ih =>
    simpa [prepareCalls, guarded, worksOn] using ih

theorem guarded_prepareCalls_idle (prepare : Nat → PrepareAnswer) (l : List Connection)
    (h : ∀ c ∈ l, c.locked = false) :
    guarded true [] (l.flatMap (prepareCalls prepare)) = true := by
  induction l with
  | nil => rfl
  | cons c rest ih =>
    have hc : c.locked = false := h c (List.mem_cons_self _ _)
    have ih2 := ih (fun x hx => h x (List.mem_cons_of_mem _ hx))
    simpa [prepareCalls, guarded, worksOn, hc] using ih2

theorem PrepareStatementsIn_visited (prepare : Nat → PrepareAnswer) (type : InternalIndex) :
    ∀ (todo done : List Connection) (s : DatabaseWorkerPool),
      ∃ visited : List Connection, visited <+: todo ∧
        (finalState (PrepareStatementsIn prepare type done todo s)).trace =
          s.trace ++ visited.flatMap (prepareCalls prepare) := by
  intro todo
  induction todo with
  | nil => intro done s; exact ⟨[], List.prefix_refl _, by simp [PrepareStatementsIn, finalState]⟩
  | cons c todo ih =>
    intro done s
    rw [PrepareStatementsIn_step]
    have htr : ((s.setConnections type (done ++ released c :: todo)).log
        (prepareCalls prepare c)).trace = s.trace ++ prepareCalls prepare c := by
      cases type <;> rfl
    have hone : [c] <+: c :: todo := ⟨todo, rfl⟩
    by_cases hok : (prepare c.id).ok = false
    · refine ⟨[c], hone, ?_⟩
      rw [if_pos hok]
      cases type <;> simp [finalState, Close, setConnections, log]
    · rw [if_neg hok]
      by_cases hs : (tableStep s.preparedStatementSize (prepare c.id)).2 = true
      · have key : ∀ S : DatabaseWorkerPool, S.trace = s.trace ++ prepareCalls prepare c →
            ∃ visited : List Connection, visited <+: c :: todo ∧
              (finalState (PrepareStatementsIn prepare type (done ++ [released c]) todo S)).trace =
                s.trace ++ visited.flatMap (prepareCalls prepare) := by
          intro S hS
          obtain ⟨visited, hp, hv⟩ := ih (done ++ [released c]) S
          exact ⟨c :: visited, (List.prefix_cons_inj c).mpr hp, by rw [hv, hS]; simp⟩
        unfold ASSERT
        rw [if_pos hs]
        exact key _ htr
      · refine ⟨[c], hone, ?_⟩
        unfold ASSERT
        rw [if_neg hs]
        show ((s.setConnections type (done ++ released c :: todo)).log
          (prepareCalls prepare c)).trace = _
        rw [htr]
        simp

theorem PrepareStatements_visited (prepare : Nat → PrepareAnswer) (s : DatabaseWorkerPool) :
    ∃ visited : List Connection, visited <+: s.async ++ s.synch ∧
      (finalState (PrepareStatements prepare s)).trace =
        s.trace ++ visited.flatMap (prepareCalls prepare) := by
  obtain ⟨v1, p1, h1⟩ := PrepareStatementsIn_visited prepare .IDX_ASYNC s.async [] s
  have p1' : v1 <+: s.async ++ s.synch := List.IsPrefix.trans p1 (List.prefix_append _ _)
  rw [PrepareStatements]
  cases hA : PrepareStatementsIn prepare .IDX_ASYNC [] s.async s with
  | fatal sA => rw [hA] at h1; exact ⟨v1, p1', h1⟩
  | returned v sA =>
    rw [hA] at h1
    cases v with
    | some b => exact ⟨v1, p1', h1⟩
    | none =>
      simp only
      obtain ⟨hok, hflag⟩ := (PrepareStatementsIn_returned prepare .IDX_ASYNC s.async [] s none sA
        hA).2 rfl
      have hall := PrepareStatementsIn_all prepare .IDX_ASYNC s.async s hok hflag rfl
      rw [hall] at hA
      injection hA with _ hsA
      have hsy : sA.synch = s.synch := by rw [← hsA]; rfl
      have htrA : sA.trace = s.trace ++ s.async.flatMap (prepareCalls prepare) := by
        rw [← hsA]; rfl
      obtain ⟨v2, p2, h2⟩ := PrepareStatementsIn_visited prepare .IDX_SYNCH sA.synch [] sA
      rw [hsy] at p2
      refine ⟨s.async ++ v2, (List.prefix_append_right_inj _).mpr p2, ?_⟩
      cases hB : PrepareStatementsIn prepare .IDX_SYNCH [] sA.synch sA with
      | fatal sB =>
        rw [hB] at h2
        simp only [finalState] at h2 ⊢
        rw [h2, htrA]; simp
      | returned w sB =>
        rw [hB] at h2
        cases w <;> simp only [finalState] at h2 ⊢ <;> rw [h2, htrA] <;> simp

theorem keepAlive_observed (l : List Connection) :
    pingCalls (l.flatMap keepAliveCalls) = (l.filter (fun c => !c.locked)).map (fun c => c.id) ∧
      unlockCalls (l.flatMap keepAliveCalls) =
        (l.filter (fun c => !c.locked)).map (fun c => c.id) := by
  induction l with
  | nil => exact ⟨rfl, rfl⟩
  | cons c rest ih =>
    obtain ⟨i1, i2⟩ := ih
    simp only [pingCalls, unlockCalls] at i1 i2 ⊢
    cases c with
    | mk id locked =>
      cases locked <;> simp [keepAliveCalls, List.filterMap_append, i1, i2]

/-! ### The task queue, the probe order and the retries -/

theorem IsFormatEmptyOrNull_iff (sql : Option String) :
    IsFormatEmptyOrNull sql = true ↔ sql = none ∨ sql = some "" := by
  cases sql with
  | none => simp [IsFormatEmptyOrNull]
  | some text => simp [IsFormatEmptyOrNull, String.isEmpty_iff]

theorem GetFreeConnectionLoop_step (n fuel i : Nat) (s : DatabaseWorkerPool)
    (hn : s.synch.length = n) (hpos : 0 < n) :
    ∃ c, s.synch[(i + 1) % 2 ^ 8 % n]? = some c ∧ (i + 1) % 2 ^ 8 % n < n ∧
      GetFreeConnectionLoop n (fuel + 1) i s =
        if c.locked then
          GetFreeConnectionLoop n fuel ((i + 1) % 2 ^ 8)
            { s with trace := s.trace ++ [Event.LockIfReady c.id false] }
        else
          some ({ type := .IDX_SYNCH, index := (i + 1) % 2 ^ 8 % n },
            { s with synch := s.synch.set ((i + 1) % 2 ^ 8 % n) { c with locked := true },
                     trace := s.trace ++ [Event.LockIfReady c.id true] }) := by
  have hlt : (i + 1) % 2 ^ 8 % n < s.synch.length := by rw [hn]; exact Nat.mod_lt _ hpos
  refine ⟨s.synch[(i + 1) % 2 ^ 8 % n], List.getElem?_eq_getElem hlt, Nat.mod_lt _ hpos, ?_⟩
  rw [GetFreeConnectionLoop]
  simp only
  rw [List.getElem?_eq_getElem hlt]
  simp only
  generalize (i + 1) % 2 ^ 8 % n = k at hlt ⊢
  generalize (i + 1) % 2 ^ 8 = i1
  cases hl : (s.synch[k]).locked with
  | false => simp [Connection.LockIfReady, hl]
  | true =>
    simp only [Connection.LockIfReady, hl, if_true, Bool.false_eq_true, if_false]
    rw [list_set_same _ _ _ (List.getElem?_eq_getElem hlt)]

theorem GetFreeConnectionLoop_first (n : Nat) (hpos : 0 < n) :
    ∀ (m fuel i : Nat) (s : DatabaseWorkerPool) (c : Connection),
      s.synch.length = n → i + m + 1 < 2 ^ 8 → m < fuel →
      (∀ j, i < j → j ≤ i + m → ∃ b, s.synch[j % n]? = some b ∧ b.locked = true) →
      s.synch[(i + m + 1) % n]? = some c → c.locked = false →
      GetFreeConnectionLoop n fuel i s =
        some ({ type := .IDX_SYNCH, index := (i + m + 1) % n },
          { s with synch := s.synch.set ((i + m + 1) % n) { c with locked := true },
                   trace := s.trace ++ failedProbes s (List.range' (i + 1) m) ++
                     [Event.LockIfReady c.id true] }) := by
  intro m
  induction m with
  | zero =>
    intro fuel i s c hn hi hf _ hc hl
    obtain ⟨f, rfl⟩ : ∃ f, fuel = f + 1 := ⟨fuel - 1, by omega⟩
    have hi1 : (i + 1) % 2 ^ 8 = i + 1 := Nat.mod_eq_of_lt (by omega)
    obtain ⟨c2, h1, _, h3⟩ := GetFreeConnectionLoop_step n f i s hn hpos
    rw [hi1] at h1 h3
    simp only [Nat.add_zero] at hc ⊢
    rw [hc] at h1
    injection h1 with h1
    subst h1
    rw [h3, hl]
    simp [failedProbes]
  | succ m ih =>
    intro fuel i s c hn hi hf hlocked hc hl
    obtain ⟨f, rfl⟩ : ∃ f, fuel = f + 1 := ⟨fuel - 1, by omega⟩
    have hi1 : (i + 1) % 2 ^ 8 = i + 1 := Nat.mod_eq_of_lt (by omega)
    obtain ⟨c2, h1, _, h3⟩ := GetFreeConnectionLoop_step n f i s hn hpos
    rw [hi1] at h1 h3
    obtain ⟨b, hb1, hb2⟩ := hlocked (i + 1) (by omega) (by omega)
    rw [hb1] at h1
    injection h1 with h1
    subst h1
    rw [h3, hb2]
    simp only [if_true]
    have e : i + (m + 1) + 1 = i + 1 + m + 1 := by omega
    rw [ih f (i + 1) { s with trace := s.trace ++ [Event.LockIfReady b.id false] } c hn
      (by omega) (by omega) (fun j hj1 hj2 => hlocked j (by omega) (by omega))
      (by rw [← e]; exact hc) hl]
    rw [e]
    simp [failedProbes, List.range'_succ, List.filterMap_cons, hn, hb1]

theorem GetFreeConnectionLoop_all_locked (n : Nat) :
    ∀ (fuel i : Nat) (s : DatabaseWorkerPool),
      (∀ c ∈ s.synch, c.locked = true) → GetFreeConnectionLoop n fuel i s = none := by
  intro fuel
  induction fuel with
  | zero => intro i s _; rfl
  | succ fuel ih =>
    intro i s h
    rw [GetFreeConnectionLoop]
    simp only
    cases hc : s.synch[(i + 1) % 2 ^ 8 % n]? with
    | none => rfl
    | some c =>
      simp only
      have hl := h c (List.getElem?_mem hc)
      simp only [Connection.LockIfReady, hl, if_true, Bool.false_eq_true, if_false]
      rw [list_set_same _ _ _ hc]
      exact ih _ _ h

theorem failedProbes_length (s : DatabaseWorkerPool) (hpos : 0 < s.synch.length)
    (cursors : List Nat) : (failedProbes s cursors).length = cursors.length := by
  induction cursors with
  | nil => rfl
  | cons j rest ih =>
    have hlt : j % s.synch.length < s.synch.length := Nat.mod_lt _ hpos
    simp only [failedProbes, List.filterMap_cons, List.getElem?_eq_getElem hlt, Option.map_some',
      List.length_cons]
    simp only [failedProbes] at ih
    rw [ih]

theorem DirectCommitRetry_first_success (exec : Nat → Int) (id j : Nat) (hj1 : 1 ≤ j) (hj5 : j ≤ 5)
    (hzero : exec j = 0) (hbefore : ∀ k, 1 ≤ k → k < j → exec k ≠ 0) :
    DirectCommitRetry exec id 5 0 [] =
      (List.range j).map (fun t => Event.ExecuteTransaction id (exec (0 + 1 + t))) := by
  obtain ⟨m, hm1, hm2, hm3, hm4⟩ := DirectCommitRetry_range exec id 5 0
  have hmpos : 0 < m := hm3 (by omega)
  have hmj : m = j := by
    rcases Nat.lt_trichotomy m j with h | h | h
    · have := (hm4 (m - 1) (by omega)).mpr
        ⟨by rw [show 0 + 1 + (m - 1) = m by omega]; exact hbefore m (by omega) h, by omega⟩
      omega
    · exact h
    · have := ((hm4 (j - 1) (by omega)).mp (by omega)).1
      rw [show 0 + 1 + (j - 1) = j by omega] at this
      exact absurd hzero this
  rw [hm1, hmj]

theorem DirectCommitRetry_attempts (exec : Nat → Int) (id : Nat) :
    ∀ (left i : Nat), ∀ e ∈ DirectCommitRetry exec id left i [],
      ∃ code, e = Event.ExecuteTransaction id code := by
  intro left i e he
  obtain ⟨m, hm1, _⟩ := DirectCommitRetry_range exec id left i
  rw [hm1] at he
  obtain ⟨t, _, rfl⟩ := List.mem_map.mp he
  exact ⟨_, rfl⟩

theorem GetFreeConnection_all_locked (fuel : Nat) (s : DatabaseWorkerPool)
    (h : ∀ c ∈ s.synch, c.locked = true) : GetFreeConnection fuel s = none := by
  unfold GetFreeConnection
  split
  · rfl
  · exact GetFreeConnectionLoop_all_locked _ _ _ _ h

theorem blocking_calls_got (fuel : Nat) (s : DatabaseWorkerPool) (p : ConnectionPtr)
    (s0 : DatabaseWorkerPool) (hg : GetFreeConnection fuel s = some (p, s0)) :
    ∃ (c : Connection) (probes : List Event),
      c ∈ s.synch ∧
      (∀ e ∈ probes, ∃ id, e = Event.LockIfReady id false) ∧
      (∀ (answer : Nat → Option String → Option ResultSet) (sql : Option String),
        Query answer fuel s sql none =
          some (queryResultOf (answer c.id sql),
            afterBlocking s probes c.id [Event.Query c.id sql])) ∧
      (∀ (answer : Nat → PreparedStatement → Option PreparedResultSet) (stmt : PreparedStatement),
        QueryPrepared answer fuel s stmt =
          some (preparedResultOf (answer c.id stmt),
            afterBlocking s probes c.id [Event.QueryPrepared c.id stmt])) ∧
      (∀ (sql : Option String), IsFormatEmptyOrNull sql = false →
        DirectExecute fuel s sql = some (afterBlocking s probes c.id [Event.Execute c.id sql])) ∧
      (∀ (stmt : PreparedStatement),
        DirectExecutePrepared fuel s stmt =
          some (afterBlocking s probes c.id [Event.ExecutePrepared c.id stmt])) ∧
      (∀ exec : Nat → Int, ∃ work : List Event,
        (∀ e ∈ work, worksOn e = some c.id ∨ e = Event.Cleanup) ∧
        DirectCommitTransaction exec fuel s = some (afterBlocking s probes c.id work)) := by
  have hloop : GetFreeConnectionLoop s.synch.length fuel 0 s = some (p, s0) := by
    unfold GetFreeConnection at hg
    split at hg
    · cases hg
    · exact hg
  obtain ⟨c, probes, h1, h2, h3, h4, h5⟩ := GetFreeConnectionLoop_result _ _ _ _ _ _ hloop
  rw [h5] at hg
  refine ⟨c, probes, List.getElem?_mem h2, h4, ?_⟩
  have hlt : p.index < s.synch.length := by
    by_contra hcon
    rw [List.getElem?_eq_none (Nat.not_lt.mp hcon)] at h2
    cases h2
  obtain ⟨pt, pi⟩ := p
  simp only at h1 h2 hlt
  subst h1
  have hunl : ({ id := c.id, locked := false } : Connection) = c := by
    cases c; simp_all
  have hset : s.synch.set pi c = s.synch := list_set_same _ _ _ h2
  refine ⟨?_, ?_, ?_, ?_, ?_⟩
  · intro answer sql
    simp only [Query, hg, deref, connections, List.getElem?_set_self hlt, unlockAt, log,
      setConnections, Connection.Unlock, List.set_set, hunl, hset, afterBlocking, queryResultOf]
    cases answer c.id sql with
    | none => simp
    | some r0 =>
      by_cases hb : (decide (r0.rowCount = 0) || !r0.nextRow) = true
      · simp only [hb, if_true]; simp
      · simp only [hb, if_false]; simp
  · intro answer stmt
    simp only [QueryPrepared, hg, deref, connections, List.getElem?_set_self hlt, unlockAt, log,
      setConnections, Connection.Unlock, List.set_set, hunl, hset, afterBlocking,
      preparedResultOf]
    cases answer c.id stmt with
    | none => simp
    | some r0 =>
      by_cases hb : r0.rowCount = 0
      · simp only [hb, if_true]; simp
      · simp only [hb, if_false]; simp
  · intro sql hsql
    simp [DirectExecute, hsql, hg, deref, connections, List.getElem?_set_self hlt, unlockAt, log,
      setConnections, Connection.Unlock, List.set_set, hunl, hset, afterBlocking]
  · intro stmt
    simp [DirectExecutePrepared, hg, deref, connections, List.getElem?_set_self hlt, unlockAt, log,
      setConnections, Connection.Unlock, List.set_set, hunl, hset, afterBlocking]
  · intro exec
    obtain ⟨work, w1, w2⟩ := directCommitCalls_work exec c.id
    refine ⟨work, w2, ?_⟩
    rw [afterBlocking, ← w1]
    simp only [DirectCommitTransaction, hg, deref, connections, List.getElem?_set_self hlt,
      unlockAt, log, setConnections, Connection.Unlock, List.set_set, directCommitCalls]
    have hd : ¬ ER_LOCK_DEADLOCK = 0 := by decide
    by_cases e0 : exec 0 = 0
    · simp [e0, hunl, hset]
    · by_cases e1 : exec 0 = ER_LOCK_DEADLOCK
      · simp only [e0, e1, if_true, if_false]
        rw [DirectCommitRetry_append]
        simp [hunl, hset, hd]
      · simp [e0, e1, hunl, hset]

theorem blocking_calls_guarded (fuel : Nat) (s : DatabaseWorkerPool) :
    (∀ (answer : Nat → Option String → Option ResultSet) (sql : Option String)
        (r : Option ResultSet) (s1 : DatabaseWorkerPool),
        Query answer fuel s sql none = some (r, s1) →
          guarded true [] (s1.trace.drop s.trace.length) = true) ∧
      (∀ (answer : Nat → PreparedStatement → Option PreparedResultSet) (stmt : PreparedStatement)
        (r : Option PreparedResultSet) (s1 : DatabaseWorkerPool),
        QueryPrepared answer fuel s stmt = some (r, s1) →
          guarded true [] (s1.trace.drop s.trace.length) = true) ∧
      (∀ (sql : Option String) (s1 : DatabaseWorkerPool),
        DirectExecute fuel s sql = some s1 →
          guarded true [] (s1.trace.drop s.trace.length) = true) ∧
      (∀ (stmt : PreparedStatement) (s1 : DatabaseWorkerPool),
        DirectExecutePrepared fuel s stmt = some s1 →
          guarded true [] (s1.trace.drop s.trace.length) = true) ∧
      (∀ (exec : Nat → Int) (s1 : DatabaseWorkerPool),
        DirectCommitTransaction exec fuel s = some s1 →
          guarded true [] (s1.trace.drop s.trace.length) = true) := by
  have one : ∀ (c : Connection) (e : Event), worksOn e = some c.id →
      ∀ x ∈ [e], worksOn x = some c.id ∨ x = Event.Cleanup := by
    intro c e he x hx
    rw [List.mem_singleton.mp hx]
    exact Or.inl he
  cases hg : GetFreeConnection fuel s with
  | none =>
    refine ⟨?_, ?_, ?_, ?_, ?_⟩
    · intro answer sql r s1 h
      simp [Query, hg] at h
    · intro answer stmt r s1 h
      simp [QueryPrepared, hg] at h
    · intro sql s1 h
      by_cases he : IsFormatEmptyOrNull sql = true
      · simp only [DirectExecute, he, if_true, Option.some.injEq] at h
        rw [← h]
        simp [guarded]
      · simp [DirectExecute, he, hg] at h
    · intro stmt s1 h
      simp [DirectExecutePrepared, hg] at h
    · intro exec s1 h
      simp [DirectCommitTransaction, hg] at h
  | some ps =>
    obtain ⟨p, s0⟩ := ps
    obtain ⟨c, probes, hc, hp, q1, q2, q3, q4, q5⟩ := blocking_calls_got fuel s p s0 hg
    refine ⟨?_, ?_, ?_, ?_, ?_⟩
    · intro answer sql r s1 h
      rw [q1] at h
      injection h with h
      injection h with _ h
      rw [← h]
      exact (afterBlocking_balanced s probes _ c hc hp (one c (Event.Query c.id sql) rfl)).2
    · intro answer stmt r s1 h
      rw [q2] at h
      injection h with h
      injection h with _ h
      rw [← h]
      exact (afterBlocking_balanced s probes _ c hc hp
        (one c (Event.QueryPrepared c.id stmt) rfl)).2
    · intro sql s1 h
      by_cases he : IsFormatEmptyOrNull sql = true
      · simp only [DirectExecute, he, if_true, Option.some.injEq] at h
        rw [← h]
        simp [guarded]
      · rw [q3 sql (by simpa using he)] at h
        injection h with h
        rw [← h]
        exact (afterBlocking_balanced s probes _ c hc hp (one c (Event.Execute c.id sql) rfl)).2
    · intro stmt s1 h
      rw [q4] at h
      injection h with h
      rw [← h]
      exact (afterBlocking_balanced s probes _ c hc hp
        (one c (Event.ExecutePrepared c.id stmt) rfl)).2
    · intro exec s1 h
      obtain ⟨work, w1, w2⟩ := q5 exec
      rw [w2] at h
      injection h with h
      rw [← h]
      exact (afterBlocking_balanced s probes work c hc hp w1).2

/-! ### The worker threads and the result channels -/

/-- C1: for 8-bit `asyncCount` and `syncCount` with `asyncCount + syncCount >= 1`, when `Open` is
called on a pool that holds no connection (after `SetConnectionInfo` with these counts) and returns
0, the asynchronous list holds exactly `asyncCount` connections and the synchronous list exactly
`syncCount`, so the number of live connections is `asyncCount + syncCount`. -/
theorem Open_success_connection_count (LIBMARIADB : Bool) (world : Nat → OpenAnswer)
    (s0 : DatabaseWorkerPool) (infoString : String) (asyncCount syncCount : Nat)
    (hA : asyncCount < 2 ^ 8) (hS : syncCount < 2 ^ 8) (_hpos : 1 ≤ asyncCount + syncCount)
    (hempty : s0.async = [] ∧ s0.synch = []) (s1 : DatabaseWorkerPool)
    (hopen : Open LIBMARIADB world (SetConnectionInfo s0 infoString asyncCount syncCount)
      = Outcome.returned 0 s1) :
    s1.async.length = asyncCount ∧ s1.synch.length = syncCount ∧
      s1.liveConnections = asyncCount + syncCount := by
  have hA2 : asyncCount % 2 ^ 8 = asyncCount := Nat.mod_eq_of_lt hA
  have hS2 : syncCount % 2 ^ 8 = syncCount := Nat.mod_eq_of_lt hS
  set s := SetConnectionInfo s0 infoString asyncCount syncCount with hs
  have ha : s.async_threads = asyncCount := by
    show asyncCount % 2 ^ 8 = asyncCount
    exact hA2
  have hb : s.synch_threads = syncCount := by
    show syncCount % 2 ^ 8 = syncCount
    exact hS2
  have hea : s.async = [] := by simp [hs, SetConnectionInfo, hempty.1]
  have hes : s.synch = [] := by simp [hs, SetConnectionInfo, hempty.2]
  have hinfo : s.connectionInfo.isSome = true := by simp [hs, SetConnectionInfo]
  rw [Open_of_info LIBMARIADB world s hinfo] at hopen
  by_cases h1 : (OpenConnections LIBMARIADB world .IDX_ASYNC s.async_threads s).1 = 0
  · have hacc := (OpenConnections_eq_zero_iff _ _ _ _ _).mp h1
    rw [OpenConnections_all_accepted _ _ _ _ _ hacc] at hopen
    simp only [ne_eq, not_true_eq_false, if_false] at hopen
    injection hopen with hv hst
    have hacc2 := (OpenConnections_eq_zero_iff _ _ _ _ _).mp hv
    rw [OpenConnections_all_accepted _ _ _ _ _ hacc2] at hst
    subst hst
    refine ⟨?_, ?_, ?_⟩ <;>
      simp [liveConnections, afterAccepted, setConnections, connections, hea, hes, ha, hb,
        Nat.add_comm]
  · simp only [ne_eq, h1, not_false_eq_true, if_true] at hopen
    injection hopen with hv hst
    exact absurd hv h1

/-- Witness of C1: two asynchronous connections and one synchronous connection, all accepted. -/
theorem Open_success_connection_count_witness :
    Open false (worldFrom []) (SetConnectionInfo init "world" 2 1) =
        Outcome.returned 0 threeOpened ∧
      threeOpened.async.length = 2 ∧ threeOpened.synch.length = 1 ∧
      threeOpened.liveConnections = 2 + 1 :=
  ⟨by decide,
    Open_success_connection_count false (worldFrom []) init "world" 2 1 (by decide)
      (by decide) (by decide) ⟨rfl, rfl⟩ threeOpened (by decide)⟩

/-- C2: on a pool whose connection info is set, `Open` returns 0 if and only if every one of the
`asyncCount + syncCount` connections, in the order of their construction, reports open status 0 and
a server version not below the minimum (50700 in the MySQL build; the comparison is `<`, so the
minimum itself is accepted).  Otherwise, with `k` the first connection that fails, `Open` returns
that connection's open status when it is nonzero and 1 when its version is too old, a nonzero
status in both cases; the connections constructed and opened are exactly those up to `k`, the first
`asyncCount` of them asynchronous, and when `k` is asynchronous the synchronous list is untouched. -/
theorem Open_status (LIBMARIADB : Bool) (world : Nat → OpenAnswer) (s : DatabaseWorkerPool)
    (hinfo : s.connectionInfo.isSome = true) :
    MIN_SERVER_VERSION false = 50700 ∧
    ((∃ s1, Open LIBMARIADB world s = Outcome.returned 0 s1) ↔
      ∀ j, j < s.async_threads + s.synch_threads →
        (world (s.created + j)).status = 0 ∧
          MIN_SERVER_VERSION LIBMARIADB ≤ (world (s.created + j)).serverVersion) ∧
    ∀ k, k < s.async_threads + s.synch_threads →
      (∀ j, j < k → (world (s.created + j)).status = 0 ∧
          MIN_SERVER_VERSION LIBMARIADB ≤ (world (s.created + j)).serverVersion) →
      ¬ ((world (s.created + k)).status = 0 ∧
          MIN_SERVER_VERSION LIBMARIADB ≤ (world (s.created + k)).serverVersion) →
      ∃ s1,
        Open LIBMARIADB world s =
          Outcome.returned
            (if (world (s.created + k)).status ≠ 0 then (world (s.created + k)).status else 1) s1 ∧
        (if (world (s.created + k)).status ≠ 0 then (world (s.created + k)).status else 1) ≠ 0 ∧
        s1.created = s.created + (k + 1) ∧
        s1.trace = s.trace ++ (List.range' s.created (k + 1)).flatMap (fun id =>
          [Event.Create
              (if id < s.created + s.async_threads then InternalIndex.IDX_ASYNC
                else InternalIndex.IDX_SYNCH) id,
            Event.Open id]) ∧
        (k < s.async_threads → s1.synch = s.synch) := by
  have hopen := Open_of_info LIBMARIADB world s hinfo
  refine ⟨by decide, ?_, ?_⟩
  · rw [hopen]
    constructor
    · rintro ⟨s1, h⟩
      by_cases h1 : (OpenConnections LIBMARIADB world .IDX_ASYNC s.async_threads s).1 = 0
      · have hacc := (OpenConnections_eq_zero_iff _ _ _ _ _).mp h1
        rw [OpenConnections_all_accepted _ _ _ _ _ hacc] at h
        simp only [ne_eq, not_true_eq_false, if_false] at h
        injection h with hv _
        have hacc2 := (OpenConnections_eq_zero_iff _ _ _ _ _).mp hv
        obtain ⟨_, _, e3, e4⟩ := afterAccepted_async s s.async_threads
        rw [e3, e4] at hacc2
        intro j hj
        rcases Nat.lt_or_ge j s.async_threads with hja | hja
        · exact hacc j hja
        · have := hacc2 (j - s.async_threads) (by omega)
          rwa [show s.created + s.async_threads + (j - s.async_threads) = s.created + j by omega]
            at this
      · simp only [ne_eq, h1, not_false_eq_true, if_true] at h
        injection h with hv _
        exact absurd hv h1
    · intro hall
      have hacc : ∀ j, j < s.async_threads → accepted LIBMARIADB (world (s.created + j)) :=
        fun j hj => hall j (by omega)
      rw [OpenConnections_all_accepted _ _ _ _ _ hacc]
      simp only [ne_eq, not_true_eq_false, if_false]
      obtain ⟨_, _, e3, e4⟩ := afterAccepted_async s s.async_threads
      have hacc2 : ∀ j, j < (afterAccepted s .IDX_ASYNC s.async_threads).synch_threads →
          accepted LIBMARIADB
            (world ((afterAccepted s .IDX_ASYNC s.async_threads).created + j)) := by
        rw [e3, e4]
        intro j hj
        have := hall (s.async_threads + j) (by omega)
        rwa [← Nat.add_assoc] at this
      rw [OpenConnections_all_accepted _ _ _ _ _ hacc2]
      exact ⟨_, rfl⟩
  · intro k hk hacc hrej
    rcases Nat.lt_or_ge k s.async_threads with hka | hka
    · obtain ⟨f1, f2, f3, f4⟩ :=
        OpenConnections_first_rejected_fields LIBMARIADB world .IDX_ASYNC s.async_threads k s hka
          hacc hrej
      have hne : (OpenConnections LIBMARIADB world .IDX_ASYNC s.async_threads s).1 ≠ 0 := by
        rw [f1]; exact rejected_status_ne_zero _
      rw [hopen, if_pos hne]
      refine ⟨_, by rw [f1], rejected_status_ne_zero _, f3, ?_, fun _ => f4 rfl⟩
      rw [f2, openTrace_async]
      intro id hid
      have := List.mem_range'_1.mp hid
      omega
    · have hacc1 : ∀ j, j < s.async_threads → accepted LIBMARIADB (world (s.created + j)) :=
        fun j hj => hacc j (by omega)
      obtain ⟨_, _, e3, e4⟩ := afterAccepted_async s s.async_threads
      have e5 : (afterAccepted s .IDX_ASYNC s.async_threads).trace =
          s.trace ++ (List.range' s.created s.async_threads).flatMap
            (fun id => [Event.Create InternalIndex.IDX_ASYNC id, Event.Open id]) := by
        simp [afterAccepted, setConnections]
      have hidx : s.created + s.async_threads + (k - s.async_threads) = s.created + k := by omega
      have hacc2 : ∀ j, j < k - s.async_threads → accepted LIBMARIADB
          (world ((afterAccepted s .IDX_ASYNC s.async_threads).created + j)) := by
        intro j hj
        rw [e4]
        have := hacc (s.async_threads + j) (by omega)
        rwa [← Nat.add_assoc] at this
      have hrej2 : ¬ accepted LIBMARIADB
          (world ((afterAccepted s .IDX_ASYNC s.async_threads).created + (k - s.async_threads))) := by
        rw [e4, hidx]; exact hrej
      obtain ⟨f1, f2, f3, _⟩ :=
        OpenConnections_first_rejected_fields LIBMARIADB world .IDX_SYNCH
          (afterAccepted s .IDX_ASYNC s.async_threads).synch_threads (k - s.async_threads)
          (afterAccepted s .IDX_ASYNC s.async_threads) (by rw [e3]; omega) hacc2 hrej2
      rw [e4, hidx] at f1
      rw [hopen, OpenConnections_all_accepted _ _ _ _ _ hacc1]
      simp only [ne_eq, not_true_eq_false, if_false]
      refine ⟨_, by rw [f1], rejected_status_ne_zero _, ?_, ?_, fun h => absurd h (by omega)⟩
      · rw [f3, e4]; omega
      · rw [f2, e5, e4, List.append_assoc]
        congr 1
        have hsplit : List.range' s.created (k + 1) =
            List.range' s.created s.async_threads ++
              List.range' (s.created + s.async_threads) (k - s.async_threads + 1) := by
          rw [List.range'_append_1]
          congr 1
          omega
        rw [hsplit, List.flatMap_append, openTrace_async, openTrace_synch]
        · intro id hid
          have := List.mem_range'_1.mp hid
          omega
        · intro id hid
          have := List.mem_range'_1.mp hid
          omega

/-- Witness of C2: two asynchronous connections and one synchronous connection; the synchronous one
reports the server version 50699. -/
theorem Open_status_witness :
    ∃ s1,
      Open false (worldFrom [⟨0, 50700⟩, ⟨0, 50701⟩, ⟨0, 50699⟩])
          (SetConnectionInfo init "world" 2 1) = Outcome.returned 1 s1 ∧
        s1.created = 3 ∧
        s1.trace = [Event.Create .IDX_ASYNC 0, Event.Open 0, Event.Create .IDX_ASYNC 1,
          Event.Open 1, Event.Create .IDX_SYNCH 2, Event.Open 2] := by
  obtain ⟨s1, h1, _, h3, h4, _⟩ :=
    (Open_status false (worldFrom [⟨0, 50700⟩, ⟨0, 50701⟩, ⟨0, 50699⟩])
      (SetConnectionInfo init "world" 2 1) rfl).2.2 2 (by decide) (by decide) (by decide)
  exact ⟨s1, h1, h3, h4⟩

/-- C3, the code at a failing input: with two asynchronous connections of which the second reports
the server version 50699, `Open` returns 1 and the first connection of the batch is still in the
asynchronous list. -/
theorem Open_old_version_keeps_batch :
    Open false (worldFrom [⟨0, 50700⟩, ⟨0, 50699⟩]) (SetConnectionInfo init "world" 2 0) =
        Outcome.returned 1
          { connectionInfo := some "world", async_threads := 2, synch_threads := 0,
            async := [{ id := 0, locked := false }], synch := [], created := 2,
            trace := [Event.Create .IDX_ASYNC 0, Event.Open 0, Event.Create .IDX_ASYNC 1,
              Event.Open 1] } := by
  decide

/-- C4: in a batch of either kind, when the first `k` connections are accepted and the open routine
of the next one returns a nonzero status, `OpenConnections` returns that status and leaves the
connection list of the batch empty. -/
theorem OpenConnections_failure_clears_batch (LIBMARIADB : Bool) (world : Nat → OpenAnswer)
    (type : InternalIndex) (numConnections k : Nat) (s : DatabaseWorkerPool)
    (hk : k < numConnections)
    (hacc : ∀ j, j < k → accepted LIBMARIADB (world (s.created + j)))
    (hfail : (world (s.created + k)).status ≠ 0) :
    (OpenConnections LIBMARIADB world type numConnections s).1 = (world (s.created + k)).status ∧
      (OpenConnections LIBMARIADB world type numConnections s).2.connections type = [] := by
  have hrej : ¬ accepted LIBMARIADB (world (s.created + k)) := fun h => hfail h.1
  rw [OpenConnections_first_rejected LIBMARIADB world type numConnections k s hk hacc hrej]
  simp only [hfail, ne_eq, not_false_eq_true, if_true, true_and]
  cases type <;> simp [setConnections, connections]

/-- Witness of C4: a batch of three asynchronous connections whose second open routine returns
2002. -/
theorem OpenConnections_failure_clears_batch_witness :
    (OpenConnections false (worldFrom [⟨0, 50700⟩, ⟨2002, 0⟩]) .IDX_ASYNC 3 init).1 = 2002 ∧
      (OpenConnections false (worldFrom [⟨0, 50700⟩, ⟨2002, 0⟩]) .IDX_ASYNC 3 init).2.connections
        .IDX_ASYNC = [] :=
  OpenConnections_failure_clears_batch false (worldFrom [⟨0, 50700⟩, ⟨2002, 0⟩]) .IDX_ASYNC 3 1
    init (by decide) (by decide) (by decide)

/-- Counterexample to C5 as stated: one asynchronous and one synchronous connection, the open
routine of the synchronous one returns 2002; `Open` returns 2002 and the asynchronous connection
is still live. -/
theorem Open_synch_failure_partial_pool :
    Open false (worldFrom [⟨0, 50700⟩, ⟨2002, 0⟩]) (SetConnectionInfo init "world" 1 1) =
        Outcome.returned 2002
          { connectionInfo := some "world", async_threads := 1, synch_threads := 1,
            async := [{ id := 0, locked := false }], synch := [], created := 2,
            trace := [Event.Create .IDX_ASYNC 0, Event.Open 0, Event.Create .IDX_SYNCH 1,
              Event.Open 1] } ∧
      liveConnections
          { connectionInfo := some "world", async_threads := 1, synch_threads := 1,
            async := [{ id := 0, locked := false }], synch := [], created := 2,
            trace := [Event.Create .IDX_ASYNC 0, Event.Open 0, Event.Create .IDX_SYNCH 1,
              Event.Open 1] } = 1 := by
  decide

/-- C5, as amended: when all `asyncCount >= 1` asynchronous connections are accepted, the first `k`
synchronous connections are accepted and the open routine of the next synchronous connection
returns a nonzero status, `Open` returns that status with an empty synchronous list, while the
asynchronous list still holds every connection it held before together with the `asyncCount`
connections just opened: only the batch that failed is discarded. -/
theorem Open_synch_failure_keeps_async (LIBMARIADB : Bool) (world : Nat → OpenAnswer)
    (s : DatabaseWorkerPool) (k : Nat) (hinfo : s.connectionInfo.isSome = true)
    (hasync1 : 1 ≤ s.async_threads)
    (hasync : ∀ j, j < s.async_threads → accepted LIBMARIADB (world (s.created + j)))
    (hk : k < s.synch_threads)
    (hsynch : ∀ j, j < k → accepted LIBMARIADB (world (s.created + s.async_threads + j)))
    (hfail : (world (s.created + s.async_threads + k)).status ≠ 0) :
    ∃ s1,
      Open LIBMARIADB world s =
        Outcome.returned (world (s.created + s.async_threads + k)).status s1 ∧
      s1.synch = [] ∧
      s1.async = s.async ++ (List.range' s.created s.async_threads).map
        (fun id => { id := id, locked := false }) ∧
      s1.liveConnections = s.async.length + s.async_threads ∧
      1 ≤ s1.liveConnections := by
  obtain ⟨e1, _, e3, e4⟩ := afterAccepted_async s s.async_threads
  have hacc2 : ∀ j, j < k → accepted LIBMARIADB
      (world ((afterAccepted s .IDX_ASYNC s.async_threads).created + j)) := by
    intro j hj; rw [e4]; exact hsynch j hj
  have hrej2 : ¬ accepted LIBMARIADB
      (world ((afterAccepted s .IDX_ASYNC s.async_threads).created + k)) := by
    rw [e4]; exact fun h => hfail h.1
  rw [Open_of_info LIBMARIADB world s hinfo, OpenConnections_all_accepted _ _ _ _ _ hasync]
  simp only [ne_eq, not_true_eq_false, if_false]
  rw [OpenConnections_first_rejected LIBMARIADB world .IDX_SYNCH _ k _ (by rw [e3]; exact hk)
    hacc2 hrej2, e4]
  simp only [hfail, ne_eq, not_false_eq_true, if_true]
  refine ⟨_, rfl, ?_, ?_, ?_, ?_⟩ <;>
    simp [liveConnections, attempted, afterAccepted, setConnections, connections]
  omega

/-- Witness of C5 as amended: two asynchronous connections accepted, the second of two synchronous
connections fails to open with status 1045. -/
theorem Open_synch_failure_keeps_async_witness :
    ∃ s1,
      Open false (worldFrom [⟨0, 50700⟩, ⟨0, 50700⟩, ⟨0, 50700⟩, ⟨1045, 0⟩])
          (SetConnectionInfo init "world" 2 2) = Outcome.returned 1045 s1 ∧
        s1.synch = [] ∧
        s1.async = [{ id := 0, locked := false }, { id := 1, locked := false }] ∧
        s1.liveConnections = 2 := by
  obtain ⟨s1, h1, h2, h3, h4, _⟩ :=
    Open_synch_failure_keeps_async false
      (worldFrom [⟨0, 50700⟩, ⟨0, 50700⟩, ⟨0, 50700⟩, ⟨1045, 0⟩])
      (SetConnectionInfo init "world" 2 2) 1 rfl (by decide) (by decide) (by decide) (by decide)
      (by decide)
  exact ⟨s1, h1, h2, h3, h4⟩

/-- C6: `Open` on a pool whose connection info is the null pointer ends in the fatal assertion in
the state it started in (no connection constructed or opened, no status returned); `Open` after
`SetConnectionInfo` always returns a status. -/
theorem Open_requires_connection_info :
    (∀ (LIBMARIADB : Bool) (world : Nat → OpenAnswer) (s : DatabaseWorkerPool),
        s.connectionInfo = none → Open LIBMARIADB world s = Outcome.fatal s) ∧
      (∀ (LIBMARIADB : Bool) (world : Nat → OpenAnswer) (s : DatabaseWorkerPool)
          (infoString : String) (asyncThreads synchThreads : Nat),
        ∃ (status : Nat) (s1 : DatabaseWorkerPool),
          Open LIBMARIADB world (SetConnectionInfo s infoString asyncThreads synchThreads) =
            Outcome.returned status s1) := by
  constructor
  · intro lib world s h
    simp [Open, WPFatal, h]
  · intro lib world s info a b
    rw [Open_of_info lib world _ (by simp [SetConnectionInfo])]
    split
    · exact ⟨_, _, rfl⟩
    · exact ⟨_, _, rfl⟩

/-- Witness of C6: `Open` on the pool as constructed. -/
theorem Open_requires_connection_info_witness :
    Open false (worldFrom []) init = Outcome.fatal init :=
  Open_requires_connection_info.1 false (worldFrom []) init rfl

/-! ## Blocking commit of a transaction -/

/-- C7: on a pool of fewer than 2^8 synchronous connections with at least one unlocked, when every
call of `ExecuteTransaction` returns `ER_LOCK_DEADLOCK`, `DirectCommitTransaction` returns after
exactly 6 calls of `ExecuteTransaction` (the one before the loop and 5 in the loop), all on the
connection that `GetFreeConnection` locked, followed by the transaction's `Cleanup` and the
`Unlock` of that connection. -/
theorem DirectCommitTransaction_deadlock_six_attempts (exec : Nat → Int) (fuel : Nat)
    (s : DatabaseWorkerPool) (hlen : s.synch.length < 2 ^ 8)
    (hidle : ∃ c ∈ s.synch, c.locked = false) (hfuel : s.synch.length ≤ fuel)
    (hexec : ∀ k, exec k = ER_LOCK_DEADLOCK) :
    ∃ c ∈ s.synch, ∃ (s2 : DatabaseWorkerPool) (probes : List Event),
      DirectCommitTransaction exec fuel s = some s2 ∧
      (∀ e ∈ probes, ∃ id, e = Event.LockIfReady id false) ∧
      s2.trace = s.trace ++ probes ++ [Event.LockIfReady c.id true] ++
        List.replicate 6 (Event.ExecuteTransaction c.id ER_LOCK_DEADLOCK) ++
        [Event.Cleanup, Event.Unlock c.id] ∧
      executeCalls (s2.trace.drop s.trace.length) = List.replicate 6 (c.id, ER_LOCK_DEADLOCK) := by
  obtain ⟨p, c, probes, h1, h2, h3, h4, h5⟩ :=
    DirectCommitTransaction_idle exec fuel s hlen hidle hfuel
  have hd : ¬ ER_LOCK_DEADLOCK = 0 := by decide
  have hcalls : directCommitCalls exec c.id =
      List.replicate 6 (Event.ExecuteTransaction c.id ER_LOCK_DEADLOCK) ++
        [Event.Cleanup, Event.Unlock c.id] := by
    simp [directCommitCalls, hexec, hd, DirectCommitRetry_deadlock exec c.id hexec, List.replicate]
  refine ⟨c, List.getElem?_mem h2, _, probes, h5, h4, ?_, ?_⟩
  · simp [hcalls]
  · simp only [drop_trace, hcalls, executeCalls_append, (probes_executeCalls probes h4).1]
    simp [executeCalls, List.replicate]

/-- Witness of C7: two synchronous connections, the one probed first is locked. -/
theorem DirectCommitTransaction_deadlock_six_attempts_witness :
    ∃ c ∈ secondBusy.synch, ∃ (s2 : DatabaseWorkerPool) (probes : List Event),
      DirectCommitTransaction (fun _ => ER_LOCK_DEADLOCK) 2 secondBusy = some s2 ∧
      (∀ e ∈ probes, ∃ id, e = Event.LockIfReady id false) ∧
      s2.trace = secondBusy.trace ++ probes ++ [Event.LockIfReady c.id true] ++
        List.replicate 6 (Event.ExecuteTransaction c.id ER_LOCK_DEADLOCK) ++
        [Event.Cleanup, Event.Unlock c.id] ∧
      executeCalls (s2.trace.drop secondBusy.trace.length) =
        List.replicate 6 (c.id, ER_LOCK_DEADLOCK) :=
  DirectCommitTransaction_deadlock_six_attempts (fun _ => ER_LOCK_DEADLOCK) 2 secondBusy
    (by decide) ⟨{ id := 0, locked := false }, by decide, rfl⟩ (by decide) (fun _ => rfl)

/-- C8: on a pool of fewer than 2^8 synchronous connections with at least one unlocked, when the
first call of `ExecuteTransaction` returns a nonzero code other than `ER_LOCK_DEADLOCK`,
`DirectCommitTransaction` returns after exactly one call of `ExecuteTransaction`, one call of the
transaction's `Cleanup` and one `Unlock`, of the connection it locked. -/
theorem DirectCommitTransaction_other_error_no_retry (exec : Nat → Int) (fuel : Nat)
    (s : DatabaseWorkerPool) (hlen : s.synch.length < 2 ^ 8)
    (hidle : ∃ c ∈ s.synch, c.locked = false) (hfuel : s.synch.length ≤ fuel)
    (hfail : exec 0 ≠ 0) (hother : exec 0 ≠ ER_LOCK_DEADLOCK) :
    ∃ c ∈ s.synch, ∃ (s2 : DatabaseWorkerPool) (probes : List Event),
      DirectCommitTransaction exec fuel s = some s2 ∧
      (∀ e ∈ probes, ∃ id, e = Event.LockIfReady id false) ∧
      s2.trace = s.trace ++ probes ++
        [Event.LockIfReady c.id true, Event.ExecuteTransaction c.id (exec 0), Event.Cleanup,
          Event.Unlock c.id] ∧
      executeCalls (s2.trace.drop s.trace.length) = [(c.id, exec 0)] ∧
      cleanupCalls (s2.trace.drop s.trace.length) = 1 ∧
      unlockCalls (s2.trace.drop s.trace.length) = [c.id] := by
  obtain ⟨p, c, probes, h1, h2, h3, h4, h5⟩ :=
    DirectCommitTransaction_idle exec fuel s hlen hidle hfuel
  have hcalls : directCommitCalls exec c.id =
      [Event.ExecuteTransaction c.id (exec 0), Event.Cleanup, Event.Unlock c.id] := by
    simp [directCommitCalls, hfail, hother]
  obtain ⟨p1, p2, p3, _⟩ := probes_executeCalls probes h4
  simp only [executeCalls, cleanupCalls, unlockCalls] at p1 p2 p3
  refine ⟨c, List.getElem?_mem h2, _, probes, h5, h4, ?_, ?_, ?_, ?_⟩
  · simp [hcalls]
  · simp [drop_trace, hcalls, executeCalls, List.filterMap_append, p1]
  · simp [drop_trace, hcalls, cleanupCalls, List.count_append, p2]
  · simp [drop_trace, hcalls, unlockCalls, List.filterMap_append, p3]

/-- Witness of C8: the first call returns 1205. -/
theorem DirectCommitTransaction_other_error_no_retry_witness :
    ∃ c ∈ secondBusy.synch, ∃ (s2 : DatabaseWorkerPool) (probes : List Event),
      DirectCommitTransaction (fun _ => 1205) 2 secondBusy = some s2 ∧
      (∀ e ∈ probes, ∃ id, e = Event.LockIfReady id false) ∧
      s2.trace = secondBusy.trace ++ probes ++
        [Event.LockIfReady c.id true, Event.ExecuteTransaction c.id 1205, Event.Cleanup,
          Event.Unlock c.id] ∧
      executeCalls (s2.trace.drop secondBusy.trace.length) = [(c.id, 1205)] ∧
      cleanupCalls (s2.trace.drop secondBusy.trace.length) = 1 ∧
      unlockCalls (s2.trace.drop secondBusy.trace.length) = [c.id] :=
  DirectCommitTransaction_other_error_no_retry (fun _ => 1205) 2 secondBusy
    (by decide) ⟨{ id := 0, locked := false }, by decide, rfl⟩ (by decide) (by decide)
    (by decide)

/-- Counterexample to C9 as stated: the first call returns the deadlock code, the retry after it
returns 1205, a nonzero code other than the deadlock code, and is followed by another call. -/
theorem DirectCommitTransaction_retries_after_other_error :
    (DirectCommitTransaction deadlockThenTimeout 1 oneIdle).map (fun s => executeCalls s.trace) =
        some [(0, 1213), (0, 1205), (0, 0)] ∧
      (1205 : Int) ≠ 0 ∧ (1205 : Int) ≠ ER_LOCK_DEADLOCK := by
  decide

/-- C9, as amended: on a pool of fewer than 2^8 synchronous connections with at least one unlocked,
`DirectCommitTransaction` returns, call number `k` of `ExecuteTransaction` is made on the connection
it locked and returns `exec k`, and a call is followed by another one exactly when it is the first
call and returned `ER_LOCK_DEADLOCK`, or it is one of the first four retries and returned a nonzero
code, whichever.  So a first call returning a nonzero code other than the deadlock code is never
followed by another call, while a retry returning such a code is, up to the fifth retry. -/
theorem DirectCommitTransaction_retry_policy (exec : Nat → Int) (fuel : Nat)
    (s : DatabaseWorkerPool) (hlen : s.synch.length < 2 ^ 8)
    (hidle : ∃ c ∈ s.synch, c.locked = false) (hfuel : s.synch.length ≤ fuel) :
    ∃ c ∈ s.synch, ∃ (s2 : DatabaseWorkerPool) (calls : List (Nat × Int)),
      DirectCommitTransaction exec fuel s = some s2 ∧
      calls = executeCalls (s2.trace.drop s.trace.length) ∧
      1 ≤ calls.length ∧
      ∀ k, k < calls.length →
        calls[k]? = some (c.id, exec k) ∧
        (k + 1 < calls.length ↔
          (k = 0 ∧ exec 0 = ER_LOCK_DEADLOCK) ∨ (0 < k ∧ k < 5 ∧ exec k ≠ 0)) := by
  obtain ⟨p, c, probes, h1, h2, h3, h4, h5⟩ :=
    DirectCommitTransaction_idle exec fuel s hlen hidle hfuel
  obtain ⟨m, hm1, hm2, hm3, hm4⟩ := DirectCommitRetry_range exec c.id 5 0
  have hd : ¬ ER_LOCK_DEADLOCK = 0 := by decide
  have hp := (probes_executeCalls probes h4).1
  refine ⟨c, List.getElem?_mem h2, _, _, h5, rfl, ?_⟩
  simp only [drop_trace, executeCalls_append, hp, List.nil_append]
  by_cases e1 : exec 0 = ER_LOCK_DEADLOCK
  · have e0 : ¬ exec 0 = 0 := by rw [e1]; exact hd
    have hcalls : executeCalls (Event.LockIfReady c.id true :: directCommitCalls exec c.id) =
        (c.id, exec 0) :: (List.range m).map (fun t => (c.id, exec (0 + 1 + t))) := by
      rw [← executeCalls_retry_range, ← hm1]
      simp only [directCommitCalls, e1, hd, if_true, if_false]
      simp [executeCalls, List.filterMap_append]
    rw [hcalls]
    have hmpos : 0 < m := hm3 (by omega)
    refine ⟨by simp, ?_⟩
    intro k hk
    simp only [List.length_cons, List.length_map, List.length_range] at hk ⊢
    rcases Nat.eq_zero_or_pos k with hk0 | hk0
    · subst hk0
      simp [e1, hmpos]
    · obtain ⟨t, rfl⟩ : ∃ t, k = t + 1 := ⟨k - 1, by omega⟩
      have ht : t < m := by omega
      have := hm4 t ht
      constructor
      · simp [ht, Nat.add_comm]
      · constructor
        · intro h
          have := this.mp (by omega)
          right
          refine ⟨by omega, by omega, ?_⟩
          have e : 0 + 1 + t = t + 1 := by omega
          rw [e] at this
          exact this.1
        · intro h
          rcases h with h | h
          · omega
          · have e : 0 + 1 + t = t + 1 := by omega
            rw [e] at this
            have := this.mpr ⟨h.2.2, by omega⟩
            omega
  · have hcalls : executeCalls (Event.LockIfReady c.id true :: directCommitCalls exec c.id) =
        [(c.id, exec 0)] := by
      by_cases e0 : exec 0 = 0
      · simp [directCommitCalls, e0, executeCalls]
      · simp [directCommitCalls, e0, e1, executeCalls]
    rw [hcalls]
    refine ⟨by simp, ?_⟩
    intro k hk
    simp only [List.length_singleton] at hk ⊢
    have : k = 0 := by omega
    subst this
    simp [e1]

/-- Witness of C9 as amended: the answers of the counterexample. -/
theorem DirectCommitTransaction_retry_policy_witness :
    ∃ c ∈ oneIdle.synch, ∃ (s2 : DatabaseWorkerPool) (calls : List (Nat × Int)),
      DirectCommitTransaction deadlockThenTimeout 1 oneIdle = some s2 ∧
      calls = executeCalls (s2.trace.drop oneIdle.trace.length) ∧
      1 ≤ calls.length ∧
      ∀ k, k < calls.length →
        calls[k]? = some (c.id, deadlockThenTimeout k) ∧
        (k + 1 < calls.length ↔
          (k = 0 ∧ deadlockThenTimeout 0 = ER_LOCK_DEADLOCK) ∨
            (0 < k ∧ k < 5 ∧ deadlockThenTimeout k ≠ 0)) :=
  DirectCommitTransaction_retry_policy deadlockThenTimeout 1 oneIdle (by decide)
    ⟨{ id := 0, locked := false }, by decide, rfl⟩ (by decide)

/-! ## Selection of a synchronous connection -/

/-- Counterexample to C10 as stated: two synchronous connections, both unlocked, and two sequential
calls of `Query`; both calls select the connection 1, the connection 0 of the pool is never
selected. -/
theorem QuerySequence_never_selects_first :
    (QuerySequence oneRow 1 [some "SELECT 1", some "SELECT 2"] twoIdle).map
        (fun r => selected r.2.trace) = some [1, 1] ∧
      twoIdle.synch.map (fun c => c.id) = [0, 1] ∧
      twoIdle.synch.map (fun c => c.locked) = [false, false] := by
  decide

/-- C10, as amended: with `C >= 1` synchronous connections, all unlocked, any number of sequential
calls of `Query` (each unlocks its connection before the next starts) all return, leave the
connections as they were, and every one of them selects the connection at position `1 % C`, the
first position `GetFreeConnection` probes.  The connections selected cover the pool only when
`C = 1`. -/
theorem QuerySequence_selects_index_one (answer : Nat → Option String → Option ResultSet)
    (fuel : Nat) (s : DatabaseWorkerPool) (sqls : List (Option String))
    (hC : 1 ≤ s.synch.length) (hidle : ∀ c ∈ s.synch, c.locked = false) (hfuel : 1 ≤ fuel) :
    ∃ (c : Connection) (rs : List (Option ResultSet)) (s1 : DatabaseWorkerPool),
      s.synch[1 % s.synch.length]? = some c ∧
      QuerySequence answer fuel sqls s = some (rs, s1) ∧
      rs.length = sqls.length ∧ s1.synch = s.synch ∧
      s1.trace = s.trace ++ sqls.flatMap (fun sql =>
        [Event.LockIfReady c.id true, Event.Query c.id sql, Event.Unlock c.id]) ∧
      selected (s1.trace.drop s.trace.length) = List.replicate sqls.length c.id := by
  have hlt : 1 % s.synch.length < s.synch.length := Nat.mod_lt _ (by omega)
  obtain ⟨f, rfl⟩ : ∃ f, fuel = f + 1 := ⟨fuel - 1, by omega⟩
  refine ⟨s.synch[1 % s.synch.length], ?_⟩
  have hc := List.getElem?_eq_getElem hlt
  have hl := hidle _ (List.getElem_mem hlt)
  generalize s.synch[1 % s.synch.length] = c at hc hl
  clear hlt hC hfuel
  induction sqls generalizing s with
  | nil => exact ⟨[], s, hc, rfl, rfl, rfl, by simp, by simp [selected]⟩
  | cons sql rest ih =>
    obtain ⟨r, hr⟩ := Query_idle answer f s sql c hc hl
    obtain ⟨rs, s1, _, g2, g3, g4, g5, g6⟩ :=
      ih { s with trace := s.trace ++
        [Event.LockIfReady c.id true, Event.Query c.id sql, Event.Unlock c.id] } hidle hc
    refine ⟨r :: rs, s1, hc, ?_, by simp [g3], g4, ?_, ?_⟩
    · simp only [QuerySequence, hr, g2]
    · rw [g5]; simp
    · rw [g5]
      simp only [List.append_assoc, drop_trace]
      exact selected_queries c.id (sql :: rest)

/-- Witness of C10 as amended: three connections and three calls. -/
theorem QuerySequence_selects_index_one_witness :
    ∃ (c : Connection) (rs : List (Option ResultSet)) (s1 : DatabaseWorkerPool),
      threeIdle.synch[1 % threeIdle.synch.length]? = some c ∧
      QuerySequence oneRow 1 [some "SELECT 1", some "SELECT 2", none] threeIdle =
        some (rs, s1) ∧
      rs.length = [some "SELECT 1", some "SELECT 2", none].length ∧
      s1.synch = threeIdle.synch ∧
      s1.trace = threeIdle.trace ++ [some "SELECT 1", some "SELECT 2", none].flatMap (fun sql =>
        [Event.LockIfReady c.id true, Event.Query c.id sql, Event.Unlock c.id]) ∧
      selected (s1.trace.drop threeIdle.trace.length) =
        List.replicate [some "SELECT 1", some "SELECT 2", none].length c.id :=
  QuerySequence_selects_index_one oneRow 1 threeIdle [some "SELECT 1", some "SELECT 2", none]
    (by decide) (by decide) (by decide)

/-! ## Committing a transaction to the queue -/

/-- Counterexample to C11 as stated: in a build without `TRINITY_DEBUG`, committing the transaction
that `BeginTransaction` returned, with no statement appended, pushes one operation to the queue. -/
theorem CommitTransaction_empty_enqueued_in_release :
    CommitTransaction false init BeginTransaction =
        { init with queue := [SQLOperation.TransactionTask { queries := [] }] } ∧
      BeginTransaction.GetSize = 0 ∧
      (CommitTransaction false init BeginTransaction).QueueSize = init.QueueSize + 1 := by
  decide
/-- C11, as amended: in a build with `TRINITY_DEBUG`, committing a transaction from
`BeginTransaction` to which no statement was appended leaves the pool, and so the task queue, as
it was; in a build without it the same call appends one `TransactionTask` holding the empty
transaction to the tail of the queue.  In both builds the call makes no call on a connection and
leaves both connection lists alone. -/
theorem CommitTransaction_empty (s : DatabaseWorkerPool) :
    CommitTransaction true s BeginTransaction = s ∧
      CommitTransaction false s BeginTransaction =
        { s with queue := s.queue ++ [SQLOperation.TransactionTask BeginTransaction] } ∧
      ∀ TRINITY_DEBUG : Bool,
        (CommitTransaction TRINITY_DEBUG s BeginTransaction).trace = s.trace ∧
        (CommitTransaction TRINITY_DEBUG s BeginTransaction).async = s.async ∧
        (CommitTransaction TRINITY_DEBUG s BeginTransaction).synch = s.synch := by
  refine ⟨rfl, rfl, ?_⟩
  intro dbg
  cases dbg <;> simp [CommitTransaction, Enqueue, BeginTransaction, Transaction.GetSize]
/-! ## Prepared statements -/

/-- Counterexample to C12 as stated: two asynchronous connections and an empty table; the first
holds at index 0 a statement without parameters, the second a statement with 3 parameters.
`PrepareStatements` returns true and the table records 3 at index 0, not the count 0 of the first
connection that holds a statement there. -/
theorem PrepareStatements_later_count_replaces_zero :
    PrepareStatements zeroThenThree twoAsync =
        Outcome.returned true
          { twoAsync with
            trace := [Event.LockIfReady 0 true, Event.PrepareStatements 0 true, Event.Unlock 0,
              Event.LockIfReady 1 true, Event.PrepareStatements 1 true, Event.Unlock 1],
            preparedStatementSize := [3] } ∧
      (zeroThenThree 0).stmts[0]? = some (some 0) := by
  decide
/-- C12, as amended: after `PrepareStatements` returned true on a pool whose table was empty, the
value recorded at index `i` is the parameter count of the first connection, in iteration order (the
asynchronous list, then the synchronous list), that holds at index `i` a statement with at least
one parameter, whatever later connections report; it is 0 when no connection holds such a
statement.  A count of 0 does not keep a later connection from recording its count. -/
theorem PrepareStatements_first_nonzero_wins (prepare : Nat → PrepareAnswer)
    (s s1 : DatabaseWorkerPool) (i : Nat) (hempty : s.preparedStatementSize = [])
    (h : PrepareStatements prepare s = Outcome.returned true s1) :
    (∀ (pre post : List Connection) (c : Connection) (n : Nat),
        s.async ++ s.synch = pre ++ c :: post →
        (prepare c.id).stmts[i]? = some (some n) → 0 < n →
        (∀ x ∈ pre, ∀ m, (prepare x.id).stmts[i]? = some (some m) → m = 0) →
        s1.preparedStatementSize[i]? = some n) ∧
      ((∀ x ∈ s.async ++ s.synch, ∀ m, (prepare x.id).stmts[i]? = some (some m) → m = 0) →
        s1.preparedStatementSize.getD i 0 = 0) := by
  obtain ⟨hok, hflag⟩ := PrepareStatements_true prepare s s1 h
  have hs1 := PrepareStatements_ok prepare s hok hflag
  rw [h] at hs1
  injection hs1 with _ hs1
  have htab : s1.preparedStatementSize =
      (tableRun ((s.async ++ s.synch).map (fun c => prepare c.id)) s.preparedStatementSize).1 := by
    rw [hs1]
  obtain ⟨_, t2, t3⟩ := tableRun_spec _ _ hflag
  have hget : s1.preparedStatementSize.getD i 0 =
      firstNonzero ((s.async ++ s.synch).map (fun c => prepare c.id)) i := by
    rw [htab, t3 i, hempty]
    simp
  constructor
  · intro pre post c n hsplit hc hn hpre
    obtain ⟨r1, r2⟩ := reported_of_some hc
    have hlen : i < s1.preparedStatementSize.length := by
      rw [htab]
      have := t2 (prepare c.id) (by rw [hsplit]; simp)
      omega
    rw [getElem?_of_getD hlen, hget, hsplit, List.map_append, List.map_cons,
      firstNonzero_first _ _ _ _ _ (by rw [r1]; exact hn), r1]
    intro b hb
    obtain ⟨x, hx, rfl⟩ := List.mem_map.mp hb
    exact reported_zero_of_forall (hpre x hx)
  · intro hall
    rw [hget]
    apply firstNonzero_zero
    intro b hb
    obtain ⟨x, hx, rfl⟩ := List.mem_map.mp hb
    exact reported_zero_of_forall (hall x hx)
/-- Witness of C12 as amended: the answers of the counterexample; the count 3 of the second
connection is the one recorded. -/
theorem PrepareStatements_first_nonzero_wins_witness :
    twoAsyncPrepared.preparedStatementSize[0]? = some 3 :=
  (PrepareStatements_first_nonzero_wins zeroThenThree twoAsync twoAsyncPrepared 0 rfl
    (by decide)).1 [{ id := 0, locked := false }] [] { id := 1, locked := false } 3 rfl
    (by decide) (by decide)
    (by
      intro x hx m hm
      rw [List.mem_singleton.mp hx] at hm
      simp [zeroThenThree] at hm
      exact hm.symm)

/-- C13, the code at a failing input: one connection that holds a statement with 255 parameters;
`PrepareStatements` ends in the fatal assertion, although 255 fits in 8 bits.  On an entry not set
before, the loop stores every count below 255 unchanged and refuses every other count. -/
theorem PrepareStatements_refuses_255 :
    PrepareStatements (fun _ => { ok := true, stmts := [some 255] }) oneIdle =
        Outcome.fatal
          { oneIdle with
            trace := [Event.LockIfReady 0 true, Event.PrepareStatements 0 true, Event.Unlock 0],
            preparedStatementSize := [0] } ∧
      ∀ n, recordParameterCounts [some n] 0 [0] = if n < 255 then ([n], true) else ([0], false) := by
  refine ⟨by decide, ?_⟩
  intro n
  by_cases h : n < 255
  · have h2 : n % 256 = n := Nat.mod_eq_of_lt (by omega)
    simp [recordParameterCounts, h, h2]
  · simp [recordParameterCounts, h]
/-- C14: when the entry `i` of the table is not set before the call, some connection holds a
prepared statement at index `i`, and every connection that holds one there reports the same
parameter count `cnt`, then after `PrepareStatements` returned true, `i` is a position of the table
and `GetPreparedStatement(i)` yields a statement with `cnt` parameters. -/
theorem GetPreparedStatement_parameter_count (prepare : Nat → PrepareAnswer)
    (s s1 : DatabaseWorkerPool) (i cnt : Nat) (_hcnt : cnt < 2 ^ 8)
    (hunset : s.preparedStatementSize.getD i 0 = 0)
    (hholder : ∃ c ∈ s.async ++ s.synch, (prepare c.id).stmts[i]? = some (some cnt))
    (hagree : ∀ c ∈ s.async ++ s.synch, ∀ n,
      (prepare c.id).stmts[i]? = some (some n) → n = cnt)
    (h : PrepareStatements prepare s = Outcome.returned true s1) :
    GetPreparedStatement s1 i = some { index := i, parameterCount := cnt } ∧
      i < s1.preparedStatementSize.length := by
  obtain ⟨hok, hflag⟩ := PrepareStatements_true prepare s s1 h
  have hs1 := PrepareStatements_ok prepare s hok hflag
  rw [h] at hs1
  injection hs1 with _ hs1
  have htab : s1.preparedStatementSize =
      (tableRun ((s.async ++ s.synch).map (fun c => prepare c.id)) s.preparedStatementSize).1 := by
    rw [hs1]
  obtain ⟨_, t2, t3⟩ := tableRun_spec _ _ hflag
  obtain ⟨c, hc, hci⟩ := hholder
  obtain ⟨r1, r2⟩ := reported_of_some hci
  have hlen : i < s1.preparedStatementSize.length := by
    rw [htab]
    have := t2 (prepare c.id) (List.mem_map.mpr ⟨c, hc, rfl⟩)
    omega
  have hagree2 : ∀ a ∈ (s.async ++ s.synch).map (fun c => prepare c.id),
      reported a.stmts i = 0 ∨ reported a.stmts i = cnt := by
    intro a ha
    obtain ⟨x, hx, rfl⟩ := List.mem_map.mp ha
    unfold reported
    cases hs : (prepare x.id).stmts[i]? with
    | none => exact Or.inl rfl
    | some o =>
      cases o with
      | none => exact Or.inl rfl
      | some m => exact Or.inr (hagree x hx m hs)
  have hfirst := (firstNonzero_agree _ i cnt hagree2).2
    ⟨prepare c.id, List.mem_map.mpr ⟨c, hc, rfl⟩, r1⟩
  have hget : s1.preparedStatementSize.getD i 0 = cnt := by
    rw [htab, t3 i, hunset, hfirst]
    simp
  refine ⟨?_, hlen⟩
  rw [GetPreparedStatement, getElem?_of_getD hlen, hget]
/-- Witness of C14: one asynchronous and two synchronous connections that all hold a statement
with 2 parameters at index 1. -/
theorem GetPreparedStatement_parameter_count_witness :
    GetPreparedStatement mixedPrepared 1 = some { index := 1, parameterCount := 2 } ∧
      1 < mixedPrepared.preparedStatementSize.length :=
  GetPreparedStatement_parameter_count twoParameters mixedPool mixedPrepared 1 2 (by decide)
    (by decide) ⟨{ id := 0, locked := false }, by decide, rfl⟩
    (by
      intro c _ n hn
      simp [twoParameters] at hn
      exact hn.symm)
    (by decide)

/-- Counterexample to C15 as stated: the only connection prepares successfully and holds a
statement with 300 parameters; `PrepareStatements` does not return true, it ends in the fatal
assertion. -/
theorem PrepareStatements_asserts_after_success :
    PrepareStatements (fun _ => { ok := true, stmts := [some 300] }) oneIdle =
      Outcome.fatal
        { oneIdle with
          trace := [Event.LockIfReady 0 true, Event.PrepareStatements 0 true, Event.Unlock 0],
          preparedStatementSize := [0] } := by
  decide
/-- C15, as amended: as long as the connections visited hold no parameter count of 255 or more
(which would end the run in the fatal assertion), the first connection, in iteration order, whose
`PrepareStatements` returns false makes the pool return false; the calls made are the
`LockIfReady`, `PrepareStatements` and `Unlock` of each connection up to and including the failing
one, so the failing connection has been unlocked and no later connection is asked, and both
connection lists are empty afterwards.  When every connection prepares successfully the pool
returns true and both lists hold the same connections as before, each one unlocked. -/
theorem PrepareStatements_failure_closes_pool (prepare : Nat → PrepareAnswer)
    (s : DatabaseWorkerPool) :
    (∀ (pre post : List Connection) (c : Connection),
        s.async = pre ++ c :: post →
        (∀ x ∈ pre, (prepare x.id).ok = true ∧ ∀ n, some n ∈ (prepare x.id).stmts → n < 255) →
        (prepare c.id).ok = false →
        ∃ s1, PrepareStatements prepare s = Outcome.returned false s1 ∧
          s1.async = [] ∧ s1.synch = [] ∧
          s1.trace = s.trace ++ (pre ++ [c]).flatMap (fun x =>
            [Event.LockIfReady x.id (!x.locked), Event.PrepareStatements x.id (prepare x.id).ok,
              Event.Unlock x.id])) ∧
    (∀ (pre post : List Connection) (c : Connection),
        s.synch = pre ++ c :: post →
        (∀ x ∈ s.async ++ pre,
          (prepare x.id).ok = true ∧ ∀ n, some n ∈ (prepare x.id).stmts → n < 255) →
        (prepare c.id).ok = false →
        ∃ s1, PrepareStatements prepare s = Outcome.returned false s1 ∧
          s1.async = [] ∧ s1.synch = [] ∧
          s1.trace = s.trace ++ (s.async ++ pre ++ [c]).flatMap (fun x =>
            [Event.LockIfReady x.id (!x.locked), Event.PrepareStatements x.id (prepare x.id).ok,
              Event.Unlock x.id])) ∧
    ((∀ x ∈ s.async ++ s.synch,
          (prepare x.id).ok = true ∧ ∀ n, some n ∈ (prepare x.id).stmts → n < 255) →
        ∃ s1, PrepareStatements prepare s = Outcome.returned true s1 ∧
          s1.async = s.async.map (fun x => { id := x.id, locked := false }) ∧
          s1.synch = s.synch.map (fun x => { id := x.id, locked := false }) ∧
          s1.trace = s.trace ++ (s.async ++ s.synch).flatMap (fun x =>
            [Event.LockIfReady x.id (!x.locked), Event.PrepareStatements x.id (prepare x.id).ok,
              Event.Unlock x.id])) := by
  have hflagOf : ∀ (l : List Connection) (t : List Nat),
      (∀ x ∈ l, (prepare x.id).ok = true ∧ ∀ n, some n ∈ (prepare x.id).stmts → n < 255) →
      (tableRun (l.map (fun x => prepare x.id)) t).2 = true := by
    intro l t hl
    apply tableRun_flag
    intro a ha n hn
    obtain ⟨x, hx, rfl⟩ := List.mem_map.mp ha
    exact (hl x hx).2 n hn
  refine ⟨?_, ?_, ?_⟩
  · intro pre post c hsplit hpre hfail
    obtain ⟨s1, e1, e2, e3, e4⟩ := PrepareStatementsIn_fail prepare .IDX_ASYNC pre post c s
      (fun x hx => (hpre x hx).1) (hflagOf pre _ hpre) hsplit hfail
    refine ⟨s1, ?_, e2, e3, e4⟩
    rw [PrepareStatements, hsplit, e1]
  · intro pre post c hsplit hpre hfail
    have hA := PrepareStatementsIn_all prepare .IDX_ASYNC s.async s
      (fun x hx => (hpre x (List.mem_append_left _ hx)).1)
      (hflagOf s.async _ (fun x hx => hpre x (List.mem_append_left _ hx))) rfl
    obtain ⟨s1, e1, e2, e3, e4⟩ := PrepareStatementsIn_fail prepare .IDX_SYNCH pre post c
      (afterPrepared prepare s .IDX_ASYNC (s.async.map released) s.async)
      (fun x hx => (hpre x (List.mem_append_right _ hx)).1)
      (hflagOf pre _ (fun x hx => hpre x (List.mem_append_right _ hx))) hsplit hfail
    refine ⟨s1, ?_, e2, e3, ?_⟩
    · rw [PrepareStatements, hA]
      simp only
      have hsy : (afterPrepared prepare s .IDX_ASYNC (s.async.map released) s.async).synch =
          pre ++ c :: post := hsplit
      rw [hsy, e1]
    · rw [e4]
      simp only [afterPrepared, List.flatMap_append, List.append_assoc]
      rfl
  · intro hall
    have := PrepareStatements_ok prepare s (fun x hx => (hall x hx).1) (hflagOf _ _ hall)
    exact ⟨_, this, rfl, rfl, rfl⟩
/-- Witness of C15 as amended: the second of two asynchronous connections fails to prepare. -/
theorem PrepareStatements_failure_closes_pool_witness :
    ∃ s1, PrepareStatements secondFails twoAsync = Outcome.returned false s1 ∧
      s1.async = [] ∧ s1.synch = [] ∧
      s1.trace = twoAsync.trace ++
        ([{ id := 0, locked := false }] ++ [{ id := 1, locked := false }] :
          List Connection).flatMap
          (fun x : Connection =>
            [Event.LockIfReady x.id (!x.locked),
              Event.PrepareStatements x.id (secondFails x.id).ok, Event.Unlock x.id]) :=
  (PrepareStatements_failure_closes_pool secondFails twoAsync).1
    [{ id := 0, locked := false }] [] { id := 1, locked := false } rfl
    (by
      intro x hx
      rw [List.mem_singleton.mp hx]
      refine ⟨rfl, ?_⟩
      intro n hn
      simp [secondFails] at hn
      omega)
    rfl

/-! ## The blocking calls and the locks -/

/-- C16: on a pool of fewer than 2^8 synchronous connections with at least one unlocked,
`Query(sql)` returns, and with `c` the connection it locked its result is null exactly when the
query of `c` produced no result set, a result set of zero rows, or a result set whose first
`NextRow()` fails; in every other case the result is the very result set the connection produced
(its first `NextRow()` has succeeded).  A query that failed and a query without rows give the same
result.  The same holds on a connection supplied by the caller. -/
theorem Query_null_result (fuel : Nat) (s : DatabaseWorkerPool) (sql : Option String)
    (hlen : s.synch.length < 2 ^ 8) (hidle : ∃ c ∈ s.synch, c.locked = false)
    (hfuel : s.synch.length ≤ fuel) :
    ∃ c ∈ s.synch,
      (∀ answer : Nat → Option String → Option ResultSet,
        ∃ (r : Option ResultSet) (s1 : DatabaseWorkerPool),
          Query answer fuel s sql none = some (r, s1) ∧
          (r = none ↔
            (answer c.id sql = none ∨
              ∃ rs, answer c.id sql = some rs ∧ (rs.rowCount = 0 ∨ rs.nextRow = false))) ∧
          (r ≠ none → r = answer c.id sql)) ∧
      (∀ (answer1 answer2 : Nat → Option String → Option ResultSet) (fetched : Bool),
        answer1 c.id sql = none →
        answer2 c.id sql = some { rowCount := 0, nextRow := fetched } →
        (Query answer1 fuel s sql none).map Prod.fst =
          (Query answer2 fuel s sql none).map Prod.fst) ∧
      (∀ (answer : Nat → Option String → Option ResultSet) (p : ConnectionPtr)
          (supplied : Connection), s.deref p = some supplied →
        ∃ (r : Option ResultSet) (s1 : DatabaseWorkerPool),
          Query answer fuel s sql (some p) = some (r, s1) ∧
          (r = none ↔
            (answer supplied.id sql = none ∨
              ∃ rs, answer supplied.id sql = some rs ∧
                (rs.rowCount = 0 ∨ rs.nextRow = false))) ∧
          (r ≠ none → r = answer supplied.id sql)) := by
  obtain ⟨c, probes, hc, _, _, hq, _⟩ := blocking_calls_idle fuel s hlen hidle hfuel
  refine ⟨c, hc, ?_, ?_, ?_⟩
  · intro answer
    exact ⟨_, _, hq answer sql, queryResultOf_eq_none _, queryResultOf_ne_none _⟩
  · intro a1 a2 fetched h1 h2
    rw [hq a1 sql, hq a2 sql, h1, h2]
    simp [queryResultOf]
  · intro answer p supplied hp
    exact ⟨_, _, Query_supplied answer fuel s sql p supplied hp, queryResultOf_eq_none _,
      queryResultOf_ne_none _⟩

/-- Witness of C16: two synchronous connections, the one probed first is locked. -/
theorem Query_null_result_witness :
    ∃ c ∈ secondBusy.synch,
      ∃ (r : Option ResultSet) (s1 : DatabaseWorkerPool),
        Query oneRow 2 secondBusy (some "SELECT 1") none = some (r, s1) ∧
        (r = none ↔
          (oneRow c.id (some "SELECT 1") = none ∨
            ∃ rs, oneRow c.id (some "SELECT 1") = some rs ∧
              (rs.rowCount = 0 ∨ rs.nextRow = false))) ∧
        (r ≠ none → r = oneRow c.id (some "SELECT 1")) := by
  obtain ⟨c, hc, h, _⟩ := Query_null_result 2 secondBusy (some "SELECT 1") (by decide)
    ⟨{ id := 0, locked := false }, by decide, rfl⟩ (by decide)
  exact ⟨c, hc, h oneRow⟩

/-- C17: on a pool of fewer than 2^8 synchronous connections with at least one unlocked, each of
`Query(sql)` without a connection supplied, `Query(stmt)`, `DirectExecute(sql)` on a text that is
neither null nor empty, `DirectExecute(stmt)` and `DirectCommitTransaction` returns, and the calls
it made select exactly one synchronous connection, make every working call on that connection and
unlock it exactly once, whatever the connection answers; the synchronous connections and their
locks are afterwards as they were before. -/
theorem blocking_calls_lock_balance (fuel : Nat) (s : DatabaseWorkerPool)
    (hlen : s.synch.length < 2 ^ 8) (hidle : ∃ c ∈ s.synch, c.locked = false)
    (hfuel : s.synch.length ≤ fuel) :
    (∀ (answer : Nat → Option String → Option ResultSet) (sql : Option String),
        ∃ r s1, Query answer fuel s sql none = some (r, s1) ∧ lockBalanced s s1) ∧
    (∀ (answer : Nat → PreparedStatement → Option PreparedResultSet) (stmt : PreparedStatement),
        ∃ r s1, QueryPrepared answer fuel s stmt = some (r, s1) ∧ lockBalanced s s1) ∧
    (∀ sql : Option String, IsFormatEmptyOrNull sql = false →
        ∃ s1, DirectExecute fuel s sql = some s1 ∧ lockBalanced s s1) ∧
    (∀ stmt : PreparedStatement,
        ∃ s1, DirectExecutePrepared fuel s stmt = some s1 ∧ lockBalanced s s1) ∧
    (∀ exec : Nat → Int,
        ∃ s1, DirectCommitTransaction exec fuel s = some s1 ∧ lockBalanced s s1) := by
  obtain ⟨c, probes, hc, _, hp, q1, q2, q3, q4⟩ := blocking_calls_idle fuel s hlen hidle hfuel
  have one : ∀ e : Event, worksOn e = some c.id →
      ∀ x ∈ [e], worksOn x = some c.id ∨ x = Event.Cleanup := by
    intro e he x hx
    rw [List.mem_singleton.mp hx]
    exact Or.inl he
  refine ⟨?_, ?_, ?_, ?_, ?_⟩
  · intro answer sql
    exact ⟨_, _, q1 answer sql,
      (afterBlocking_balanced s probes _ c hc hp (one (Event.Query c.id sql) rfl)).1⟩
  · intro answer stmt
    exact ⟨_, _, q2 answer stmt,
      (afterBlocking_balanced s probes _ c hc hp (one (Event.QueryPrepared c.id stmt) rfl)).1⟩
  · intro sql hsql
    exact ⟨_, q3 sql hsql,
      (afterBlocking_balanced s probes _ c hc hp (one (Event.Execute c.id sql) rfl)).1⟩
  · intro stmt
    exact ⟨_, q4 stmt,
      (afterBlocking_balanced s probes _ c hc hp (one (Event.ExecutePrepared c.id stmt) rfl)).1⟩
  · intro exec
    obtain ⟨c2, probes2, work, d1, d2, d3, d4⟩ :=
      DirectCommitTransaction_blocking exec fuel s hlen hidle hfuel
    exact ⟨_, d4, (afterBlocking_balanced s probes2 work c2 d1 d2 d3).1⟩
/-- Witness of C17: two synchronous connections, the one probed first is locked; a commit whose
first attempt deadlocks. -/
theorem blocking_calls_lock_balance_witness :
    ∃ s1, DirectCommitTransaction deadlockThenTimeout 2 secondBusy = some s1 ∧
      lockBalanced secondBusy s1 :=
  (blocking_calls_lock_balance 2 secondBusy (by decide)
    ⟨{ id := 0, locked := false }, by decide, rfl⟩ (by decide)).2.2.2.2 deadlockThenTimeout

/-- Counterexample to C18 as stated, on a pool whose first synchronous connection is held by
another holder: `EscapeString` on a text of one character calls `EscapeString` of that connection
without any `LockIfReady`, and `PrepareStatements` calls its `PrepareStatements` after a
`LockIfReady` that failed. -/
theorem held_connection_used :
    (EscapeString (fun _ text length => (length, text)) firstBusy (some none) (some "a") 1).map
        (fun r => r.2.2.trace) = some [Event.EscapeString 0 "a" 1] ∧
      firstBusy.synch.head? = some { id := 0, locked := true } ∧
      guarded true [] [Event.EscapeString 0 "a" 1] = false ∧
      (finalState (PrepareStatements twoParameters firstBusy)).trace =
        [Event.LockIfReady 0 false, Event.PrepareStatements 0 true, Event.Unlock 0,
          Event.LockIfReady 1 true, Event.PrepareStatements 1 true, Event.Unlock 1] ∧
      guarded true [] (finalState (PrepareStatements twoParameters firstBusy)).trace = false := by
  decide
/-- C18, as amended: in `Query(sql)` without a connection supplied, `Query(stmt)`,
`DirectExecute(sql)`, `DirectExecute(stmt)`, `DirectCommitTransaction` and `KeepAlive`, every
working call on a synchronous connection (`Query`, `Execute`, `ExecuteTransaction`, `Ping`) is
made after a `LockIfReady` on that connection succeeded in the same operation and before the
`Unlock` that follows it: the five blocking calls return on a pool of fewer than 2^8 synchronous
connections with one unlocked, on any pool the calls made by one that returns obey this, and when
every synchronous connection is held they get no connection, however many iterations are
followed.  `PrepareStatements` visits the connections
in order and calls `LockIfReady`, `PrepareStatements` and `Unlock` on each one visited: the
working call is between a `LockIfReady` call on that connection and the `Unlock` that follows, the
`LockIfReady` succeeded exactly when the connection was not held, and on a pool none of whose
connections is held every working call follows a `LockIfReady` that succeeded.  `EscapeString` on
a non-empty input calls `EscapeString` of the first synchronous connection and makes no other
call: it takes no lock. -/
theorem working_calls_between_lock_and_unlock (s : DatabaseWorkerPool) :
    (∀ fuel : Nat, s.synch.length < 2 ^ 8 → (∃ c ∈ s.synch, c.locked = false) →
      s.synch.length ≤ fuel →
        (∀ (answer : Nat → Option String → Option ResultSet) (sql : Option String),
          ∃ r s1, Query answer fuel s sql none = some (r, s1) ∧
            guarded true [] (s1.trace.drop s.trace.length) = true) ∧
        (∀ (answer : Nat → PreparedStatement → Option PreparedResultSet)
            (stmt : PreparedStatement),
          ∃ r s1, QueryPrepared answer fuel s stmt = some (r, s1) ∧
            guarded true [] (s1.trace.drop s.trace.length) = true) ∧
        (∀ sql : Option String, IsFormatEmptyOrNull sql = false →
          ∃ s1, DirectExecute fuel s sql = some s1 ∧
            guarded true [] (s1.trace.drop s.trace.length) = true) ∧
        (∀ stmt : PreparedStatement,
          ∃ s1, DirectExecutePrepared fuel s stmt = some s1 ∧
            guarded true [] (s1.trace.drop s.trace.length) = true) ∧
        (∀ exec : Nat → Int,
          ∃ s1, DirectCommitTransaction exec fuel s = some s1 ∧
            guarded true [] (s1.trace.drop s.trace.length) = true)) ∧
    (∀ fuel : Nat,
        (∀ (answer : Nat → Option String → Option ResultSet) (sql : Option String)
            (r : Option ResultSet) (s1 : DatabaseWorkerPool),
            Query answer fuel s sql none = some (r, s1) →
              guarded true [] (s1.trace.drop s.trace.length) = true) ∧
          (∀ (answer : Nat → PreparedStatement → Option PreparedResultSet) (stmt : PreparedStatement)
            (r : Option PreparedResultSet) (s1 : DatabaseWorkerPool),
            QueryPrepared answer fuel s stmt = some (r, s1) →
              guarded true [] (s1.trace.drop s.trace.length) = true) ∧
          (∀ (sql : Option String) (s1 : DatabaseWorkerPool),
            DirectExecute fuel s sql = some s1 →
              guarded true [] (s1.trace.drop s.trace.length) = true) ∧
          (∀ (stmt : PreparedStatement) (s1 : DatabaseWorkerPool),
            DirectExecutePrepared fuel s stmt = some s1 →
              guarded true [] (s1.trace.drop s.trace.length) = true) ∧
          (∀ (exec : Nat → Int) (s1 : DatabaseWorkerPool),
            DirectCommitTransaction exec fuel s = some s1 →
              guarded true [] (s1.trace.drop s.trace.length) = true)) ∧
    ((∀ c ∈ s.synch, c.locked = true) → ∀ fuel : Nat,
        (∀ (answer : Nat → Option String → Option ResultSet) (sql : Option String),
          Query answer fuel s sql none = none) ∧
        (∀ (answer : Nat → PreparedStatement → Option PreparedResultSet)
            (stmt : PreparedStatement), QueryPrepared answer fuel s stmt = none) ∧
        (∀ sql : Option String, IsFormatEmptyOrNull sql = false →
          DirectExecute fuel s sql = none) ∧
        (∀ stmt : PreparedStatement, DirectExecutePrepared fuel s stmt = none) ∧
        (∀ exec : Nat → Int, DirectCommitTransaction exec fuel s = none)) ∧
    (∀ fuel : Nat, s.async.length ≤ 255 → s.async.length < fuel →
        ∃ s1, KeepAlive fuel s = some s1 ∧
          s1.trace = s.trace ++ s.synch.flatMap keepAliveCalls ∧
          guarded true [] (s1.trace.drop s.trace.length) = true) ∧
    (∀ prepare : Nat → PrepareAnswer,
        ∃ visited : List Connection, visited <+: s.async ++ s.synch ∧
          (finalState (PrepareStatements prepare s)).trace =
            s.trace ++ visited.flatMap (fun c =>
              [Event.LockIfReady c.id (!c.locked),
                Event.PrepareStatements c.id (prepare c.id).ok, Event.Unlock c.id]) ∧
          guarded false []
            ((finalState (PrepareStatements prepare s)).trace.drop s.trace.length) = true ∧
          ((∀ c ∈ s.async ++ s.synch, c.locked = false) →
            guarded true []
              ((finalState (PrepareStatements prepare s)).trace.drop s.trace.length) = true)) ∧
    (∀ (escape : Nat → String → Nat → Nat × String) (buffer : Option String) (text : String)
        (length : Nat) (c : Connection) (rest : List Connection),
        length ≠ 0 → s.synch = c :: rest →
        ∃ r, EscapeString escape s (some buffer) (some text) length = some r ∧
          r.2.2.trace.drop s.trace.length = [Event.EscapeString c.id text length]) := by
  refine ⟨?_, fun fuel => blocking_calls_guarded fuel s, ?_, ?_, ?_, ?_⟩
  · intro fuel hlen hidle hfuel
    obtain ⟨c, probes, hc, _, hp, q1, q2, q3, q4⟩ := blocking_calls_idle fuel s hlen hidle hfuel
    have one : ∀ e : Event, worksOn e = some c.id →
        ∀ x ∈ [e], worksOn x = some c.id ∨ x = Event.Cleanup := by
      intro e he x hx
      rw [List.mem_singleton.mp hx]
      exact Or.inl he
    refine ⟨?_, ?_, ?_, ?_, ?_⟩
    · intro answer sql
      exact ⟨_, _, q1 answer sql,
        (afterBlocking_balanced s probes _ c hc hp (one (Event.Query c.id sql) rfl)).2⟩
    · intro answer stmt
      exact ⟨_, _, q2 answer stmt,
        (afterBlocking_balanced s probes _ c hc hp (one (Event.QueryPrepared c.id stmt) rfl)).2⟩
    · intro sql hsql
      exact ⟨_, q3 sql hsql,
        (afterBlocking_balanced s probes _ c hc hp (one (Event.Execute c.id sql) rfl)).2⟩
    · intro stmt
      exact ⟨_, q4 stmt,
        (afterBlocking_balanced s probes _ c hc hp (one (Event.ExecutePrepared c.id stmt) rfl)).2⟩
    · intro exec
      obtain ⟨c2, probes2, work, d1, d2, d3, d4⟩ :=
        DirectCommitTransaction_blocking exec fuel s hlen hidle hfuel
      exact ⟨_, d4, (afterBlocking_balanced s probes2 work c2 d1 d2 d3).2⟩
  · intro hall fuel
    have hg := GetFreeConnection_all_locked fuel s hall
    refine ⟨?_, ?_, ?_, ?_, ?_⟩
    · intro answer sql
      simp [Query, hg]
    · intro answer stmt
      simp [QueryPrepared, hg]
    · intro sql hsql
      simp [DirectExecute, hsql, hg]
    · intro stmt
      simp [DirectExecutePrepared, hg]
    · intro exec
      simp [DirectCommitTransaction, hg]
  · intro fuel hA hf
    refine ⟨{ s with trace := s.trace ++ s.synch.flatMap keepAliveCalls,
                     queue := s.queue ++
                      List.replicate s.async.length SQLOperation.PingOperation }, ?_, rfl, ?_⟩
    · simp only [KeepAlive, KeepAliveSynch_eq]
      rw [KeepAliveEnqueue_eq _ (by norm_num; omega) fuel 0 _ (Nat.zero_le _)
        (by simpa using hf)]
      rfl
    · simp only [drop_trace]
      exact guarded_keepAlive _
  · intro prepare
    obtain ⟨visited, hpre, hv⟩ := PrepareStatements_visited prepare s
    refine ⟨visited, hpre, hv, ?_, ?_⟩
    · rw [hv, drop_trace]
      exact guarded_prepareCalls prepare visited
    · intro hall
      rw [hv, drop_trace]
      exact guarded_prepareCalls_idle prepare visited
        (fun c hc => hall c (List.IsPrefix.subset hpre hc))
  · intro escape buffer text length c2 rest hl hs
    refine ⟨_, by simp [EscapeString, hl, hs]; rfl, ?_⟩
    simp [log]
/-- Witness of C18 as amended: a commit whose first attempt deadlocks, on a pool with an unlocked
and a locked synchronous connection. -/
theorem working_calls_between_lock_and_unlock_witness :
    ∃ s1, DirectCommitTransaction deadlockThenTimeout 2 secondBusy = some s1 ∧
      guarded true [] (s1.trace.drop secondBusy.trace.length) = true :=
  ((working_calls_between_lock_and_unlock secondBusy).1 2 (by decide)
    ⟨{ id := 0, locked := false }, by decide, rfl⟩ (by decide)).2.2.2.2 deadlockThenTimeout

/-! ## Escaping and keep-alive -/

/-- C19: `EscapeString(str)` on the empty string returns the string unchanged and leaves the pool,
trace included, as it was; `EscapeString(to, from, length)` returns 0 in an unchanged pool whenever
`to` is null, `from` is null or `length` is 0; on any other input, with a first synchronous
connection, it returns what `EscapeString` of that connection returns. -/
theorem EscapeString_empty_input (escape : Nat → String → Nat → Nat × String)
    (s : DatabaseWorkerPool) :
    EscapeStringInPlace escape s "" = some ("", s) ∧
      (∀ (dest : Option (Option String)) (source : Option String) (length : Nat),
        dest = none ∨ source = none ∨ length = 0 →
          EscapeString escape s dest source length = some (0, dest, s)) ∧
      (∀ (buffer : Option String) (text : String) (length : Nat) (c : Connection)
          (rest : List Connection),
        length ≠ 0 → s.synch = c :: rest →
          EscapeString escape s (some buffer) (some text) length =
            some ((escape c.id text length).1, some (some (escape c.id text length).2),
              s.log [Event.EscapeString c.id text length])) := by
  refine ⟨rfl, ?_, ?_⟩
  · intro dest source length h
    cases dest with
    | none => cases source <;> rfl
    | some b =>
      cases source with
      | none => rfl
      | some t =>
        rcases h with h | h | h
        · cases h
        · cases h
        · subst h; rfl
  · intro buffer text length c rest hl hs
    simp [EscapeString, hl, hs]
/-- Witness of C19: a null buffer. -/
theorem EscapeString_empty_input_witness :
    EscapeString (fun _ text length => (length, text)) oneIdle none (some "a") 1 =
      some (0, none, oneIdle) :=
  (EscapeString_empty_input (fun _ text length => (length, text)) oneIdle).2.1 none (some "a") 1
    (Or.inl rfl)

/-- C20: with at most 255 asynchronous connections `KeepAlive` returns; it appends one
`PingOperation` per asynchronous connection to the tail of the queue; on each synchronous
connection, in order, it calls `LockIfReady`, and when that succeeds `Ping` and `Unlock`, so the
connections pinged and those unlocked are exactly the ones that were unlocked; both connection
lists, locks included, are afterwards as they were. -/
theorem KeepAlive_pings (fuel : Nat) (s : DatabaseWorkerPool)
    (hA : s.async.length ≤ 255) (hfuel : s.async.length < fuel) :
    ∃ s1, KeepAlive fuel s = some s1 ∧
      s1.queue = s.queue ++ List.replicate s.async.length SQLOperation.PingOperation ∧
      s1.trace = s.trace ++ s.synch.flatMap (fun c =>
        if c.locked then [Event.LockIfReady c.id false]
        else [Event.LockIfReady c.id true, Event.Ping c.id, Event.Unlock c.id]) ∧
      s1.synch = s.synch ∧ s1.async = s.async ∧
      pingCalls (s1.trace.drop s.trace.length) =
        (s.synch.filter (fun c => !c.locked)).map (fun c => c.id) ∧
      unlockCalls (s1.trace.drop s.trace.length) =
        (s.synch.filter (fun c => !c.locked)).map (fun c => c.id) := by
  refine ⟨{ s with trace := s.trace ++ s.synch.flatMap keepAliveCalls,
                   queue := s.queue ++ List.replicate s.async.length SQLOperation.PingOperation },
    ?_, rfl, rfl, rfl, rfl, ?_, ?_⟩
  · simp only [KeepAlive, KeepAliveSynch_eq]
    rw [KeepAliveEnqueue_eq _ (by norm_num; omega) fuel 0 _ (Nat.zero_le _)
      (by simpa using hfuel)]
    rfl
  · simp only [drop_trace]
    exact (keepAlive_observed s.synch).1
  · simp only [drop_trace]
    exact (keepAlive_observed s.synch).2
/-- Witness of C20: one asynchronous connection, an unlocked and a locked synchronous
connection. -/
theorem KeepAlive_pings_witness :
    ∃ s1, KeepAlive 2 mixedPool = some s1 ∧
      s1.queue = mixedPool.queue ++ List.replicate mixedPool.async.length SQLOperation.PingOperation ∧
      s1.trace = mixedPool.trace ++ mixedPool.synch.flatMap (fun c =>
        if c.locked then [Event.LockIfReady c.id false]
        else [Event.LockIfReady c.id true, Event.Ping c.id, Event.Unlock c.id]) ∧
      s1.synch = mixedPool.synch ∧ s1.async = mixedPool.async ∧
      pingCalls (s1.trace.drop mixedPool.trace.length) =
        (mixedPool.synch.filter (fun c => !c.locked)).map (fun c => c.id) ∧
      unlockCalls (s1.trace.drop mixedPool.trace.length) =
        (mixedPool.synch.filter (fun c => !c.locked)).map (fun c => c.id) :=
  KeepAlive_pings 2 mixedPool (by decide) (by decide)

/-! ## The non-blocking calls -/

/-- C21: `Execute(sql)` leaves the pool, and so the task queue, as it was when the text is null or
empty; for every other text it appends exactly one `BasicStatementTask` that carries the text and
has no result channel to the tail of the queue.  In both cases it makes no call on a connection
and leaves both connection lists, locks included, as they were. -/
theorem Execute_enqueues_statement (s : DatabaseWorkerPool) (sql : Option String) :
    (sql = none ∨ sql = some "" → Execute s sql = s) ∧
      (sql ≠ none → sql ≠ some "" →
        Execute s sql = { s with queue := s.queue ++ [SQLOperation.BasicStatementTask sql none] } ∧
        (SQLOperation.BasicStatementTask sql none).GetFuture = none ∧
        (Execute s sql).QueueSize = s.QueueSize + 1) ∧
      (Execute s sql).trace = s.trace ∧ (Execute s sql).synch = s.synch ∧
      (Execute s sql).async = s.async := by
  by_cases h : IsFormatEmptyOrNull sql = true
  · have h2 := (IsFormatEmptyOrNull_iff sql).mp h
    refine ⟨fun _ => by simp [Execute, h], ?_, by simp [Execute, h], by simp [Execute, h],
      by simp [Execute, h]⟩
    intro h3 h4
    rcases h2 with h2 | h2
    · exact absurd h2 h3
    · exact absurd h2 h4
  · have h2 : ¬ (sql = none ∨ sql = some "") := fun hc => h ((IsFormatEmptyOrNull_iff sql).mpr hc)
    refine ⟨fun hc => absurd hc h2, ?_, by simp [Execute, h, Enqueue],
      by simp [Execute, h, Enqueue], by simp [Execute, h, Enqueue]⟩
    intro _ _
    simp [Execute, h, Enqueue, QueueSize, SQLOperation.GetFuture]
/-- Witness of C21: a text that is neither null nor empty. -/
theorem Execute_enqueues_statement_witness :
    Execute oneIdle (some "DELETE FROM t") =
        { oneIdle with queue := oneIdle.queue ++
            [SQLOperation.BasicStatementTask (some "DELETE FROM t") none] } ∧
      (SQLOperation.BasicStatementTask (some "DELETE FROM t") none).GetFuture = none ∧
      (Execute oneIdle (some "DELETE FROM t")).QueueSize = oneIdle.QueueSize + 1 :=
  (Execute_enqueues_statement oneIdle (some "DELETE FROM t")).2.1 (by decide) (by decide)

/-- C22: with a null transaction handle `ExecuteOrAppend` does what `Execute` does on the same
argument, and the handle stays null; with a handle that is not null it appends the statement as
the last element of the transaction, which grows by exactly one and keeps its earlier statements
in order, and the pool, task queue included, is left as it was.  Both for a raw text and for a
prepared statement. -/
theorem ExecuteOrAppend_transaction_agnostic (s : DatabaseWorkerPool) :
    (∀ sql : Option String, ExecuteOrAppend s none sql = some (none, Execute s sql)) ∧
      (∀ stmt : PreparedStatement,
        ExecuteOrAppendPrepared s none stmt = (none, ExecutePrepared s stmt)) ∧
      (∀ (transaction : Transaction) (text : String),
        ExecuteOrAppend s (some transaction) (some text) =
            some (some { queries := transaction.queries ++ [SQLElement.raw text] }, s) ∧
          (transaction.Append (SQLElement.raw text)).GetSize = transaction.GetSize + 1) ∧
      (∀ (transaction : Transaction) (stmt : PreparedStatement),
        ExecuteOrAppendPrepared s (some transaction) stmt =
            (some { queries := transaction.queries ++ [SQLElement.prepared stmt] }, s) ∧
          (transaction.Append (SQLElement.prepared stmt)).GetSize = transaction.GetSize + 1) := by
  refine ⟨fun _ => rfl, fun _ => rfl, fun _ _ => ⟨rfl, ?_⟩, fun _ _ => ⟨rfl, ?_⟩⟩ <;>
    simp [Transaction.Append, Transaction.GetSize]

/-- C25: with `n` synchronous connections, `1 ≤ n ≤ 255`.  When one of them is unlocked, let `j`
be the first cursor value among 1, 2, ..., n whose position `j % n` holds an unlocked connection
(the positions come in the order 1, 2, ..., n-1, 0): `GetFreeConnection` returns after exactly `j`
calls of `LockIfReady`, the first `j - 1` of which fail, with a pointer to that connection, and
only this connection has changed: it is locked.  When all of them are locked it does not return,
however many iterations are followed.  In every iteration, from whatever value of the 8-bit cursor
(255 included, after which the cursor is 0), the position probed is below `n` and holds a
connection. -/
theorem GetFreeConnection_cyclic_probe (s : DatabaseWorkerPool)
    (h1 : 1 ≤ s.synch.length) (h255 : s.synch.length ≤ 255) :
    ((∃ c ∈ s.synch, c.locked = false) →
      ∃ (j : Nat) (c : Connection),
        1 ≤ j ∧ j ≤ s.synch.length ∧
        s.synch[j % s.synch.length]? = some c ∧ c.locked = false ∧
        (∀ k, 1 ≤ k → k < j → ∃ b, s.synch[k % s.synch.length]? = some b ∧ b.locked = true) ∧
        (failedProbes s (List.range' 1 (j - 1))).length = j - 1 ∧
        ∀ fuel, j ≤ fuel →
          GetFreeConnection fuel s =
            some ({ type := .IDX_SYNCH, index := j % s.synch.length },
              { s with synch := s.synch.set (j % s.synch.length) { c with locked := true },
                       trace := s.trace ++ failedProbes s (List.range' 1 (j - 1)) ++
                         [Event.LockIfReady c.id true] })) ∧
    ((∀ c ∈ s.synch, c.locked = true) → ∀ fuel, GetFreeConnection fuel s = none) ∧
    (∀ (fuel i : Nat) (t : DatabaseWorkerPool), t.synch.length = s.synch.length →
      ∃ c, t.synch[(i + 1) % 2 ^ 8 % s.synch.length]? = some c ∧
        (i + 1) % 2 ^ 8 % s.synch.length < s.synch.length ∧
        GetFreeConnectionLoop s.synch.length (fuel + 1) i t =
          if c.locked then
            GetFreeConnectionLoop s.synch.length fuel ((i + 1) % 2 ^ 8)
              { t with trace := t.trace ++ [Event.LockIfReady c.id false] }
          else
            some ({ type := .IDX_SYNCH, index := (i + 1) % 2 ^ 8 % s.synch.length },
              { t with
                synch := t.synch.set ((i + 1) % 2 ^ 8 % s.synch.length) { c with locked := true },
                trace := t.trace ++ [Event.LockIfReady c.id true] })) := by
  have hpos : 0 < s.synch.length := h1
  have hne : ¬ s.synch.length = 0 := by omega
  refine ⟨?_, ?_, ?_⟩
  · rintro ⟨c0, hc0, hl0⟩
    obtain ⟨k0, hk0, hk0e⟩ := List.getElem_of_mem hc0
    have hex : ∃ j, 1 ≤ j ∧ ∃ c, s.synch[j % s.synch.length]? = some c ∧ c.locked = false := by
      rcases Nat.eq_zero_or_pos k0 with h0 | h0
      · subst h0
        exact ⟨s.synch.length, h1, c0, by rw [Nat.mod_self, List.getElem?_eq_getElem hk0, hk0e], hl0⟩
      · exact ⟨k0, h0, c0, by rw [Nat.mod_eq_of_lt hk0, List.getElem?_eq_getElem hk0, hk0e], hl0⟩
    obtain ⟨J, ⟨hj1, c, hc, hl⟩, hmin⟩ : ∃ J,
        (1 ≤ J ∧ ∃ c, s.synch[J % s.synch.length]? = some c ∧ c.locked = false) ∧
        ∀ k, k < J →
          ¬ (1 ≤ k ∧ ∃ c, s.synch[k % s.synch.length]? = some c ∧ c.locked = false) := by
      classical
      exact ⟨Nat.find hex, Nat.find_spec hex, fun k hk => Nat.find_min hex hk⟩
    have hjn : J ≤ s.synch.length := by
      by_contra hcon
      obtain ⟨j0, hj0, hP⟩ : ∃ j, j ≤ s.synch.length ∧
          (1 ≤ j ∧ ∃ c, s.synch[j % s.synch.length]? = some c ∧ c.locked = false) := by
        rcases Nat.eq_zero_or_pos k0 with h0 | h0
        · subst h0
          exact ⟨s.synch.length, Nat.le_refl _, h1, c0,
            by rw [Nat.mod_self, List.getElem?_eq_getElem hk0, hk0e], hl0⟩
        · exact ⟨k0, Nat.le_of_lt hk0, h0, c0,
            by rw [Nat.mod_eq_of_lt hk0, List.getElem?_eq_getElem hk0, hk0e], hl0⟩
      exact hmin j0 (by omega) hP
    have hbefore : ∀ k, 1 ≤ k → k < J →
        ∃ b, s.synch[k % s.synch.length]? = some b ∧ b.locked = true := by
      intro k hk1 hk2
      have hlt : k % s.synch.length < s.synch.length := Nat.mod_lt _ hpos
      refine ⟨s.synch[k % s.synch.length], List.getElem?_eq_getElem hlt, ?_⟩
      by_contra hcon
      have hfalse : (s.synch[k % s.synch.length]).locked = false := by
        cases hb : (s.synch[k % s.synch.length]).locked with
        | false => rfl
        | true => exact absurd hb hcon
      exact hmin k hk2 ⟨hk1, _, List.getElem?_eq_getElem hlt, hfalse⟩
    refine ⟨J, c, hj1, hjn, hc, hl, hbefore, ?_, ?_⟩
    · rw [failedProbes_length s hpos, List.length_range']
    · intro fuel hfuel
      have hj : 0 + (J - 1) + 1 = J := by omega
      have := GetFreeConnectionLoop_first s.synch.length hpos (J - 1) fuel 0 s c rfl
        (by norm_num; omega) (by omega)
        (fun k hk1 hk2 => hbefore k (by omega) (by omega))
        (by rw [hj]; exact hc) hl
      rw [hj] at this
      simp only [GetFreeConnection, hne, if_false]
      rw [this]
  · intro hall fuel
    simp only [GetFreeConnection, hne, if_false]
    exact GetFreeConnectionLoop_all_locked _ _ _ _ hall
  · intro fuel i t ht
    exact GetFreeConnectionLoop_step s.synch.length fuel i t ht hpos
/-- Witness of C25: two synchronous connections, the one probed first is locked. -/
theorem GetFreeConnection_cyclic_probe_witness :
    ∃ (j : Nat) (c : Connection),
      1 ≤ j ∧ j ≤ secondBusy.synch.length ∧
      secondBusy.synch[j % secondBusy.synch.length]? = some c ∧ c.locked = false ∧
      (∀ k, 1 ≤ k → k < j →
        ∃ b, secondBusy.synch[k % secondBusy.synch.length]? = some b ∧ b.locked = true) ∧
      (failedProbes secondBusy (List.range' 1 (j - 1))).length = j - 1 ∧
      ∀ fuel, j ≤ fuel →
        GetFreeConnection fuel secondBusy =
          some ({ type := .IDX_SYNCH, index := j % secondBusy.synch.length },
            { secondBusy with
              synch := secondBusy.synch.set (j % secondBusy.synch.length) { c with locked := true },
              trace := secondBusy.trace ++ failedProbes secondBusy (List.range' 1 (j - 1)) ++
                [Event.LockIfReady c.id true] }) :=
  (GetFreeConnection_cyclic_probe secondBusy (by decide) (by decide)).1
    ⟨{ id := 0, locked := false }, by decide, rfl⟩

/-- C26: in both builds `AsyncCommitTransaction` appends exactly one `TransactionWithResultTask`
holding the transaction to the tail of the queue and returns the handle made of the future of that
task, for every transaction; so also for the transaction of `BeginTransaction`, which holds no
statement and which `CommitTransaction` skips in a build with `TRINITY_DEBUG`.  It makes no call
on a connection. -/
theorem AsyncCommitTransaction_always_enqueues (TRINITY_DEBUG : Bool) (s : DatabaseWorkerPool)
    (transaction : Transaction) :
    AsyncCommitTransaction TRINITY_DEBUG s transaction =
        ({ future := some s.promises },
          { s with
            queue := s.queue ++ [SQLOperation.TransactionWithResultTask transaction s.promises],
            promises := s.promises + 1 }) ∧
      (SQLOperation.TransactionWithResultTask transaction s.promises).GetFuture =
        (AsyncCommitTransaction TRINITY_DEBUG s transaction).1.future ∧
      (AsyncCommitTransaction TRINITY_DEBUG s transaction).2.QueueSize = s.QueueSize + 1 ∧
      (AsyncCommitTransaction TRINITY_DEBUG s BeginTransaction).2.queue =
        s.queue ++ [SQLOperation.TransactionWithResultTask { queries := [] } s.promises] ∧
      (AsyncCommitTransaction TRINITY_DEBUG s transaction).2.trace = s.trace ∧
      CommitTransaction true s BeginTransaction = s := by
  have key : ∀ t : Transaction, AsyncCommitTransaction TRINITY_DEBUG s t =
      ({ future := some s.promises },
        { s with queue := s.queue ++ [SQLOperation.TransactionWithResultTask t s.promises],
                 promises := s.promises + 1 }) := by
    intro t
    unfold AsyncCommitTransaction
    cases TRINITY_DEBUG with
    | false => rfl
    | true =>
      simp only [if_true]
      split <;> rfl
  rw [key, key]
  exact ⟨rfl, rfl, by simp [QueueSize], rfl, rfl, rfl⟩

/-- C27: on a pool of fewer than 2^8 synchronous connections with at least one unlocked,
`DirectCommitTransaction` returns, and it calls the transaction's `Cleanup` exactly when the first
`ExecuteTransaction` returned a nonzero code: after a first code 0 the calls are the lock, that one
attempt and the `Unlock`; after a nonzero first code `Cleanup` is called exactly once, after the
last attempt and before the `Unlock`.  When the first attempt returned `ER_LOCK_DEADLOCK` and
retry `j` (`1 ≤ j ≤ 5`) is the first retry that returns 0, exactly `1 + j` attempts are made, and
`Cleanup` follows them although the last one succeeded. -/
theorem DirectCommitTransaction_cleanup (exec : Nat → Int) (fuel : Nat)
    (s : DatabaseWorkerPool) (hlen : s.synch.length < 2 ^ 8)
    (hidle : ∃ c ∈ s.synch, c.locked = false) (hfuel : s.synch.length ≤ fuel) :
    ∃ c ∈ s.synch, ∃ (s2 : DatabaseWorkerPool) (probes : List Event),
      DirectCommitTransaction exec fuel s = some s2 ∧
      (∀ e ∈ probes, ∃ id, e = Event.LockIfReady id false) ∧
      (0 < cleanupCalls (s2.trace.drop s.trace.length) ↔ exec 0 ≠ 0) ∧
      (exec 0 = 0 →
        s2.trace = s.trace ++ probes ++
          [Event.LockIfReady c.id true, Event.ExecuteTransaction c.id 0, Event.Unlock c.id]) ∧
      (exec 0 ≠ 0 →
        cleanupCalls (s2.trace.drop s.trace.length) = 1 ∧
        ∃ retries : List Event,
          (∀ e ∈ retries, ∃ code, e = Event.ExecuteTransaction c.id code) ∧
          s2.trace = s.trace ++ probes ++
            [Event.LockIfReady c.id true, Event.ExecuteTransaction c.id (exec 0)] ++ retries ++
            [Event.Cleanup, Event.Unlock c.id]) ∧
      (exec 0 = ER_LOCK_DEADLOCK →
        ∀ j, 1 ≤ j → j ≤ 5 → exec j = 0 → (∀ k, 1 ≤ k → k < j → exec k ≠ 0) →
          executeCalls (s2.trace.drop s.trace.length) =
              (List.range (1 + j)).map (fun k => (c.id, exec k)) ∧
            s2.trace = s.trace ++ probes ++ [Event.LockIfReady c.id true] ++
              (List.range (1 + j)).map (fun k => Event.ExecuteTransaction c.id (exec k)) ++
              [Event.Cleanup, Event.Unlock c.id]) := by
  obtain ⟨p, c, probes, h1, h2, h3, h4, h5⟩ :=
    DirectCommitTransaction_idle exec fuel s hlen hidle hfuel
  have hd : ¬ ER_LOCK_DEADLOCK = 0 := by decide
  obtain ⟨p1, p2, _, _⟩ := probes_executeCalls probes h4
  simp only [cleanupCalls] at p2
  refine ⟨c, List.getElem?_mem h2, _, probes, h5, h4, ?_, ?_, ?_, ?_⟩
  · simp only [drop_trace]
    by_cases e0 : exec 0 = 0
    · simp [directCommitCalls, e0, cleanupCalls, List.count_append, p2]
    · simp [directCommitCalls, e0, cleanupCalls, List.count_append, p2]
  · intro e0
    simp [directCommitCalls, e0]
  · intro e0
    have hretry : ∀ l : List Event, (∀ e ∈ l, ∃ code, e = Event.ExecuteTransaction c.id code) →
        List.count Event.Cleanup l = 0 := by
      intro l hl
      rw [List.count_eq_zero]
      intro hmem
      obtain ⟨code, hcode⟩ := hl _ hmem
      cases hcode
    constructor
    · simp only [drop_trace]
      by_cases e1 : exec 0 = ER_LOCK_DEADLOCK
      · have := hretry _ (DirectCommitRetry_attempts exec c.id 5 0)
        simp [directCommitCalls, e0, e1, hd, cleanupCalls, List.count_append, p2, this]
      · simp [directCommitCalls, e0, e1, cleanupCalls, List.count_append, p2]
    · by_cases e1 : exec 0 = ER_LOCK_DEADLOCK
      · refine ⟨DirectCommitRetry exec c.id 5 0 [], DirectCommitRetry_attempts exec c.id 5 0, ?_⟩
        simp [directCommitCalls, e0, e1, hd]
      · exact ⟨[], by simp, by simp [directCommitCalls, e0, e1]⟩
  · intro e1 j hj1 hj5 hzero hbefore
    have hr := DirectCommitRetry_first_success exec c.id j hj1 hj5 hzero hbefore
    have hrange : ∀ {β : Type} (f : Nat → β),
        (List.range (1 + j)).map f = f 0 :: (List.range j).map (fun t => f (0 + 1 + t)) := by
      intro β f
      rw [Nat.add_comm 1 j, List.range_succ_eq_map]
      simp [Function.comp_def, Nat.add_comm]
    constructor
    · simp only [drop_trace, executeCalls_append, p1, List.nil_append]
      rw [hrange, ← executeCalls_retry_range]
      simp only [directCommitCalls, e1, hd, if_true, if_false, hr]
      simp [executeCalls, List.filterMap_append]
    · rw [hrange]
      simp only [directCommitCalls, e1, hd, if_true, if_false, hr]
      simp
/-- Witness of C27: the first attempt deadlocks, the first retry returns 1205, the second 0. -/
theorem DirectCommitTransaction_cleanup_witness :
    ∃ c ∈ oneIdle.synch, ∃ (s2 : DatabaseWorkerPool) (probes : List Event),
      DirectCommitTransaction deadlockThenTimeout 1 oneIdle = some s2 ∧
      executeCalls (s2.trace.drop oneIdle.trace.length) =
          (List.range (1 + 2)).map (fun k => (c.id, deadlockThenTimeout k)) ∧
        s2.trace = oneIdle.trace ++ probes ++ [Event.LockIfReady c.id true] ++
          (List.range (1 + 2)).map (fun k => Event.ExecuteTransaction c.id (deadlockThenTimeout k)) ++
          [Event.Cleanup, Event.Unlock c.id] := by
  obtain ⟨c, hc, s2, probes, h1, _, _, _, _, h6⟩ :=
    DirectCommitTransaction_cleanup deadlockThenTimeout 1 oneIdle (by decide)
      ⟨{ id := 0, locked := false }, by decide, rfl⟩ (by decide)
  exact ⟨c, hc, s2, probes, h1, h6 (by decide) 2 (by decide) (by decide) (by decide)
    (by
      intro k hk1 hk2
      have : k = 1 := by omega
      subst this
      decide)⟩

end DatabaseWorkerPool

/-! ## Loading the spell damage modifiers -/

namespace SpellDamageModifier

theorem find_append {F : Type} (table : Table F) (key : Nat) (info : ModSpellInfo F) (spellId : Nat) :
    find (table ++ [(key, info)]) spellId =
      match find table spellId with
      | some found => some found
      | none => if key = spellId then some info else none := by
  induction table with
  | nil => simp [find]
  | cons e rest ih =>
    obtain ⟨k, v⟩ := e
    by_cases h : k = spellId
    · simp [find, h]
    · simp only [List.cons_append, find, h, if_false]
      exact ih

theorem find_none_iff {F : Type} (table : Table F) (spellId : Nat) :
    find table spellId = none ↔ spellId ∉ table.map Prod.fst := by
  induction table with
  | nil => simp [find]
  | cons e rest ih =>
    obtain ⟨k, v⟩ := e
    by_cases h : k = spellId
    · simp [find, h]
    · simp only [find, h, if_false, List.map_cons, List.mem_cons, not_or]
      rw [ih]
      exact ⟨fun hr => ⟨fun hc => h hc.symm, hr⟩, fun hr => hr.2⟩

theorem LoadRows_spec {F : Type} (negative : F → Bool) (rows : List (Row F)) :
    ∀ table : Table F,
      (table.map Prod.fst).Nodup →
      (∀ e ∈ table, negative e.2.PlayerModifier = false ∧ negative e.2.CreatureModifier = false ∧
        negative e.2.HealingModifier = false) →
      ((LoadRows negative rows table).map Prod.fst).Nodup ∧
      (∀ e ∈ LoadRows negative rows table, negative e.2.PlayerModifier = false ∧
        negative e.2.CreatureModifier = false ∧ negative e.2.HealingModifier = false) ∧
      ∀ spellId, find (LoadRows negative rows table) spellId =
        match find table spellId with
        | some found => some found
        | none => (firstAcceptable negative rows spellId).map infoOf := by
  induction rows with
  | nil =>
    intro table hnd hok
    refine ⟨hnd, hok, ?_⟩
    intro spellId
    simp only [LoadRows]
    cases find table spellId <;> simp [firstAcceptable]
  | cons row rest ih =>
    intro table hnd hok
    by_cases h1 : (find table row.SpellID).isSome = true
    · obtain ⟨i1, i2, i3⟩ := ih table hnd hok
      simp only [LoadRows, h1, if_true]
      refine ⟨i1, i2, ?_⟩
      intro spellId
      rw [i3]
      cases hf : find table spellId with
      | some found => rfl
      | none =>
        have hne : row.SpellID ≠ spellId := by
          intro hc
          rw [hc, hf] at h1
          cases h1
        simp [firstAcceptable, List.find?_cons, hne]
    · by_cases h2 : (negative (infoOf row).CreatureModifier || negative (infoOf row).PlayerModifier ||
          negative (infoOf row).HealingModifier) = true
      · obtain ⟨i1, i2, i3⟩ := ih table hnd hok
        simp only [LoadRows, h1, h2, if_true, if_false, Bool.false_eq_true]
        refine ⟨i1, i2, ?_⟩
        intro spellId
        rw [i3]
        cases hf : find table spellId with
        | some found => rfl
        | none =>
          have h2b : acceptable negative row = false := by
            simp only [infoOf] at h2
            simp [acceptable, h2]
          simp [firstAcceptable, List.find?_cons, h2b]
      · have hnone : find table row.SpellID = none := by
          cases hf : find table row.SpellID with
          | none => rfl
          | some v => rw [hf] at h1; exact absurd rfl h1
        have hemp : emplace table row.SpellID (infoOf row) = table ++ [(row.SpellID, infoOf row)] := by
          simp [emplace, hnone]
        have h2c : negative row.CreatureModifier = false ∧ negative row.PlayerModifier = false ∧
            negative row.HealingModifier = false := by
          simp only [infoOf] at h2
          have h3 : (negative row.CreatureModifier = false ∧ negative row.PlayerModifier = false) ∧
              negative row.HealingModifier = false := by simpa [not_or] using h2
          exact ⟨h3.1.1, h3.1.2, h3.2⟩
        have h2b : acceptable negative row = true := by
          simp [acceptable, h2c]
        obtain ⟨i1, i2, i3⟩ := ih (table ++ [(row.SpellID, infoOf row)])
          (by
            rw [List.map_append, List.nodup_append]
            refine ⟨hnd, by simp, ?_⟩
            intro a ha hb
            simp only [List.map_cons, List.map_nil, List.mem_singleton] at hb
            subst hb
            exact (find_none_iff table _).mp hnone ha)
          (by
            intro e he
            rcases List.mem_append.mp he with he | he
            · exact hok e he
            · rw [List.mem_singleton.mp he]
              exact ⟨h2c.2.1, h2c.1, h2c.2.2⟩)
        simp only [LoadRows, h1, h2, if_false, hemp, Bool.false_eq_true]
        refine ⟨i1, i2, ?_⟩
        intro spellId
        rw [i3, find_append]
        cases hf : find table spellId with
        | some found => rfl
        | none =>
          by_cases hid : row.SpellID = spellId
          · simp [hid, firstAcceptable, List.find?_cons, h2b]
          · simp [hid, firstAcceptable, List.find?_cons]

theorem mem_iff_find {F : Type} (table : Table F) (h : (table.map Prod.fst).Nodup)
    (spellId : Nat) (info : ModSpellInfo F) :
    (spellId, info) ∈ table ↔ find table spellId = some info := by
  induction table with
  | nil => simp [find]
  | cons e rest ih =>
    obtain ⟨k, v⟩ := e
    simp only [List.map_cons, List.nodup_cons] at h
    by_cases hk : k = spellId
    · subst hk
      simp only [find, if_true, List.mem_cons, Prod.mk.injEq, true_and, Option.some.injEq]
      constructor
      · rintro (h1 | h1)
        · exact h1.symm
        · exact absurd (List.mem_map.mpr ⟨(k, info), h1, rfl⟩) h.1
      · intro h1
        exact Or.inl h1.symm
    · simp only [find, hk, if_false, List.mem_cons, Prod.mk.injEq]
      rw [← ih h.2]
      constructor
      · rintro (h1 | h1)
        · exact absurd h1.1.symm hk
        · exact h1
      · intro h1
        exact Or.inr h1

/-- C28: whatever the table held before, after `Load` the table holds for each spell id exactly
the first row, in result order, with that id none of whose three modifiers is negative, and
nothing for an id without such a row: a row with a negative modifier is not stored and does not
keep a later row with the same id from being stored.  No stored modifier is negative, every spell
id occurs at most once, and a null result leaves the table empty. -/
theorem Load_first_acceptable_row {F : Type} (negative : F → Bool) (res : List (Row F))
    (previous : Table F) :
    (∀ spellId, find (Load negative res previous) spellId =
        (firstAcceptable negative res spellId).map infoOf) ∧
      (∀ spellId info, (spellId, info) ∈ Load negative res previous ↔
        (firstAcceptable negative res spellId).map infoOf = some info) ∧
      (∀ e ∈ Load negative res previous,
        negative e.2.PlayerModifier = false ∧ negative e.2.CreatureModifier = false ∧
          negative e.2.HealingModifier = false) ∧
      ((Load negative res previous).map Prod.fst).Nodup ∧
      Load negative [] previous = [] ∧
      Load negative res previous = Load negative res [] := by
  have hload : Load negative res previous = LoadRows negative res [] := by
    cases res <;> rfl
  obtain ⟨i1, i2, i3⟩ := LoadRows_spec negative res [] (by simp) (by simp)
  have hfind : ∀ spellId, find (Load negative res previous) spellId =
      (firstAcceptable negative res spellId).map infoOf := by
    intro spellId
    rw [hload, i3]
    rfl
  refine ⟨hfind, ?_, by rw [hload]; exact i2, by rw [hload]; exact i1, rfl, ?_⟩
  · intro spellId info
    rw [mem_iff_find _ (by rw [hload]; exact i1), hfind]
  · cases res <;> rfl
/-- Witness of C28: the spell 7 comes three times, first with a negative modifier; the second
row is the one stored, and the entry the table held before is gone. -/
theorem Load_first_acceptable_row_witness :
    find (Load (fun x : Int => decide (x < 0)) threeRows
        [(7, { PlayerModifier := 1, CreatureModifier := 1, HealingModifier := 1, Comment := "" })])
        7 =
      some { PlayerModifier := 50, CreatureModifier := 100, HealingModifier := 100, Comment := "b" } := by
  rw [(Load_first_acceptable_row (fun x : Int => decide (x < 0)) threeRows _).1 7]
  decide

end SpellDamageModifier

/-! ## Applying an update file -/

namespace DBUpdater

theorem isEmpty_eq_decide (s : String) : s.isEmpty = decide (s = "") := by
  by_cases h : s = ""
  · rw [(String.isEmpty_iff s).mpr h]
    simp [h]
  · have : s.isEmpty = false := by
      cases hs : s.isEmpty with
      | false => rfl
      | true => exact absurd ((String.isEmpty_iff s).mp hs) h
    rw [this]
    simp [h]

/-- C29: in a build without `_WIN32` the arguments `ApplyFile` passes to `StartProcess` are, in
this order: `-h` with the host, `-u` with the user, `-p` with the password unless it is empty,
then `-P` with `port_or_socket` when its first character is a decimal digit and otherwise (also
for the empty string) `-P0`, `--protocol=SOCKET` and `-S` with `port_or_socket`, then the character
set and the packet size, the SSL flag of the build exactly when `ssl` is `"ssl"`, `-e`, the
`BEGIN; SOURCE path; COMMIT;` text, and the database name unless it is empty.  `UpdateException`
is thrown exactly when the exit code is not `EXIT_SUCCESS`. -/
theorem ApplyFile_arguments (MARIADB_VERSION_ID : Option Nat) (MYSQL_VERSION_ID : Nat)
    (executable : String) (StartProcess : String → List String → Int)
    (host user password port_or_socket database ssl path : String) :
    ApplyFileArgs false MARIADB_VERSION_ID MYSQL_VERSION_ID host user password port_or_socket
        database ssl path =
      ["-h" ++ host, "-u" ++ user] ++ (if password = "" then [] else ["-p" ++ password]) ++
        (if isdigitFirst port_or_socket then ["-P" ++ port_or_socket]
          else ["-P0", "--protocol=SOCKET", "-S" ++ port_or_socket]) ++
        ["--default-character-set=utf8mb4", "--max-allowed-packet=1GB"] ++
        (if ssl = "ssl" then [sslFlag MARIADB_VERSION_ID MYSQL_VERSION_ID] else []) ++
        ["-e", "BEGIN; SOURCE " ++ path ++ "; COMMIT;"] ++
        (if database = "" then [] else [database]) ∧
      (ApplyFile false MARIADB_VERSION_ID MYSQL_VERSION_ID executable StartProcess host user
          password port_or_socket database ssl path).1 =
        (executable, ApplyFileArgs false MARIADB_VERSION_ID MYSQL_VERSION_ID host user password
          port_or_socket database ssl path) ∧
      ((ApplyFile false MARIADB_VERSION_ID MYSQL_VERSION_ID executable StartProcess host user
          password port_or_socket database ssl path).2 = Except.error "update failed" ↔
        StartProcess executable (ApplyFileArgs false MARIADB_VERSION_ID MYSQL_VERSION_ID host user
          password port_or_socket database ssl path) ≠ EXIT_SUCCESS) ∧
      ((ApplyFile false MARIADB_VERSION_ID MYSQL_VERSION_ID executable StartProcess host user
          password port_or_socket database ssl path).2 = Except.ok () ↔
        StartProcess executable (ApplyFileArgs false MARIADB_VERSION_ID MYSQL_VERSION_ID host user
          password port_or_socket database ssl path) = EXIT_SUCCESS) ∧
      isdigitFirst "" = false ∧
      (isdigitFirst port_or_socket = true ↔
        ∃ (c : Char) (rest : List Char), port_or_socket.data = c :: rest ∧ '0' ≤ c ∧ c ≤ '9') := by
  refine ⟨?_, ?_, ?_, ?_, rfl, ?_⟩
  · simp only [ApplyFileArgs, sslFlag, isEmpty_eq_decide]
    by_cases hp : password = "" <;> by_cases hd : isdigitFirst port_or_socket = true <;>
      by_cases hs : ssl = "ssl" <;> by_cases hb : database = "" <;>
      by_cases hv : (MARIADB_VERSION_ID.isNone && decide (MYSQL_VERSION_ID ≥ 80000)) = true <;>
      simp [hp, hd, hs, hb, hv]
  · unfold ApplyFile
    simp only
    split <;> rfl
  · unfold ApplyFile
    simp only
    split
    · next h => simp [h]
    · next h => simp [h]
  · unfold ApplyFile
    simp only
    split
    · next h => simp [h]
    · next h => simpa using h
  · unfold isdigitFirst
    cases hdat : port_or_socket.data with
    | nil => simp
    | cons c rest =>
      simp only [Char.isDigit, List.cons.injEq, Bool.and_eq_true, decide_eq_true_eq]
      constructor
      · intro h
        exact ⟨c, rest, ⟨rfl, rfl⟩, h.1, h.2⟩
      · rintro ⟨c2, rest2, ⟨rfl, _⟩, h1, h2⟩
        exact ⟨h1, h2⟩
/-- Witness of C29: a socket path, no password, SSL asked for. -/
theorem ApplyFile_arguments_witness :
    ApplyFileArgs false none 80000 "localhost" "trinity" "" "/run/mysqld.sock" "world" "ssl"
        "/sql/a.sql" =
      ["-hlocalhost", "-utrinity", "-P0", "--protocol=SOCKET", "-S/run/mysqld.sock",
        "--default-character-set=utf8mb4", "--max-allowed-packet=1GB", "--ssl-mode=REQUIRED", "-e",
        "BEGIN; SOURCE /sql/a.sql; COMMIT;", "world"] := by
  have := (ApplyFile_arguments none 80000 "mysql" (fun _ _ => 0) "localhost" "trinity" ""
    "/run/mysqld.sock" "world" "ssl" "/sql/a.sql").1
  rw [this]
  decide

end DBUpdater

/-! ## The lava gout counter of the Onyx Flamecaller -/

namespace npc_onyx_flamecaller

theorem handleEvent_bound (eventId : Nat) (st : State) (h : st.lavaGoutCount ≤ 3) :
    (handleEvent eventId st).lavaGoutCount ≤ 3 := by
  unfold handleEvent
  split
  · exact h
  · split
    · split
      · simp
      · next h3 =>
        simp only
        have : st.lavaGoutCount + 1 < 2 ^ 8 := by norm_num; omega
        rw [Nat.mod_eq_of_lt this]
        omega
    · exact h

theorem executeEvents_bound (due : List Nat) :
    ∀ st : State, st.lavaGoutCount ≤ 3 → (executeEvents due st).lavaGoutCount ≤ 3 := by
  induction due with
  | nil => intro st h; exact h
  | cons e rest ih =>
    intro st h
    simp only [executeEvents]
    split
    · exact h
    · exact ih _ (handleEvent_bound e st h)

theorem run_bound (actions : List Action) :
    ∀ st : State, st.lavaGoutCount ≤ 3 → (run actions st).lavaGoutCount ≤ 3 := by
  induction actions with
  | nil => intro st h; exact h
  | cons a rest ih =>
    intro st h
    cases a with
    | Reset => exact ih _ (by simp [Reset])
    | JustEngagedWith => exact ih _ (by simpa [JustEngagedWith] using h)
    | UpdateAI u c due =>
      apply ih
      unfold UpdateAI
      split
      · exact h
      · split
        · exact h
        · exact executeEvents_bound due st h

theorem handleEvent_count (eventId : Nat) (st : State) (h : st.lavaGoutCount ≤ 3) :
    (handleEvent eventId st).lavaGoutCount =
      if eventId = EVENT_LAVA_GOUT then (st.lavaGoutCount + 1) % 4 else st.lavaGoutCount := by
  have hbl : ¬ EVENT_BLAST_NOVA = EVENT_LAVA_GOUT := by decide
  have hlb : ¬ EVENT_LAVA_GOUT = EVENT_BLAST_NOVA := by decide
  unfold handleEvent
  by_cases hb : eventId = EVENT_BLAST_NOVA
  · subst hb
    simp only [if_true, hbl, if_false]
  · by_cases hl : eventId = EVENT_LAVA_GOUT
    · subst hl
      by_cases h3 : st.lavaGoutCount ≥ 3
      · have : st.lavaGoutCount = 3 := by omega
        simp [hlb, this]
      · have h256 : st.lavaGoutCount + 1 < 2 ^ 8 := by norm_num; omega
        have h4 : st.lavaGoutCount + 1 < 4 := by omega
        simp only [hlb, if_false, if_true, h3, Nat.mod_eq_of_lt h256, Nat.mod_eq_of_lt h4]
    · simp only [hb, hl, if_false]

theorem executeEvents_count (due : List Nat) :
    ∀ st : State, st.lavaGoutCount ≤ 3 → 0 ∉ due →
      (executeEvents due st).lavaGoutCount =
        (st.lavaGoutCount + due.count EVENT_LAVA_GOUT) % 4 := by
  induction due with
  | nil =>
    intro st h _
    simp only [executeEvents, List.count_nil, Nat.add_zero]
    omega
  | cons e rest ih =>
    intro st h hz
    have he : ¬ e = 0 := fun hc => hz (by simp [hc])
    have hrest : 0 ∉ rest := fun hc => hz (List.mem_cons_of_mem _ hc)
    simp only [executeEvents, he, if_false]
    rw [ih _ (handleEvent_bound e st h) hrest, handleEvent_count e st h, List.count_cons]
    by_cases hl : e = EVENT_LAVA_GOUT
    · simp only [hl, if_true, beq_self_eq_true]
      omega
    · have hb : (e == EVENT_LAVA_GOUT) = false := by simpa using hl
      simp only [hl, if_false, hb, Bool.false_eq_true]
      omega

theorem UpdateAI_lavaGout (st : State) :
    UpdateAI true false [EVENT_LAVA_GOUT] st =
      { lavaGoutCount := (handleEvent EVENT_LAVA_GOUT st).lavaGoutCount,
        calls := (handleEvent EVENT_LAVA_GOUT st).calls ++ [Call.DoMeleeAttackIfReady] } := by
  have h : ¬ EVENT_LAVA_GOUT = 0 := by decide
  simp [UpdateAI, executeEvents, h]

theorem updated_count (st : State) (h0 : st.lavaGoutCount = 0) :
    ∀ k, (updated k st).lavaGoutCount = k % 4 := by
  intro k
  induction k with
  | zero => simpa [updated] using h0
  | succ k ih =>
    have hk : k % 4 < 4 := Nat.mod_lt _ (by norm_num)
    rw [updated, UpdateAI_lavaGout]
    simp only
    rw [handleEvent_count _ _ (by omega), ih]
    simp only [if_true]
    omega

/-- C30: after any sequence of calls of `Reset`, `JustEngagedWith` and `UpdateAI` on a new script
object the counter `_lavaGoutCount` is at most 3, and `Reset` sets it to 0 whatever it was.
`UpdateAI` leaves the object alone when the creature has no victim or is casting; otherwise it
handles the events that are due, and the counter afterwards is the counter before plus the number
of `EVENT_LAVA_GOUT` among them, modulo 4.  From a state with the counter at 0, so after `Reset`,
after `k` calls of `UpdateAI` in each of which `EVENT_LAVA_GOUT` fires the counter is `k % 4`; the
next such call calls `DoCastVictim(SPELL_LAVA_GOUT)`, adds one to the counter and repeats the event
after 1000 ms when `k % 4 < 3`, and makes no cast, sets the counter to 0 and repeats the event
after 8000 ms when `k % 4 = 3`. -/
theorem lavaGout_cycle (actions : List Action) (any : State) (k : Nat) :
    (run actions init).lavaGoutCount ≤ 3 ∧
      (Reset any).lavaGoutCount = 0 ∧
      (∀ (casting : Bool) (due : List Nat),
        UpdateAI false casting due any = any ∧ UpdateAI true true due any = any) ∧
      (∀ (st : State) (due : List Nat), st.lavaGoutCount ≤ 3 → 0 ∉ due →
        (UpdateAI true false due st).lavaGoutCount =
          (st.lavaGoutCount + due.count EVENT_LAVA_GOUT) % 4) ∧
      (∀ st : State, st.lavaGoutCount = 0 →
        (updated k st).lavaGoutCount = k % 4 ∧
        (k % 4 < 3 →
          UpdateAI true false [EVENT_LAVA_GOUT] (updated k st) =
            { lavaGoutCount := k % 4 + 1,
              calls := (updated k st).calls ++
                [Call.DoCastVictim SPELL_LAVA_GOUT, Call.Repeat 1000,
                  Call.DoMeleeAttackIfReady] }) ∧
        (k % 4 = 3 →
          UpdateAI true false [EVENT_LAVA_GOUT] (updated k st) =
            { lavaGoutCount := 0,
              calls := (updated k st).calls ++ [Call.Repeat 8000, Call.DoMeleeAttackIfReady] })) ∧
      (updated k (Reset any)).lavaGoutCount = k % 4 := by
  refine ⟨run_bound actions init (by simp [init]), rfl, ?_, ?_, ?_, updated_count _ rfl k⟩
  · intro casting due
    constructor
    · simp [UpdateAI]
    · simp [UpdateAI]
  · intro st due hst hdue
    have : (UpdateAI true false due st).lavaGoutCount = (executeEvents due st).lavaGoutCount := by
      simp [UpdateAI]
    rw [this, executeEvents_count due st hst hdue]
  · intro st h0
    have hk := updated_count st h0 k
    refine ⟨hk, ?_, ?_⟩
    · intro h
      rw [UpdateAI_lavaGout]
      simp only [handleEvent, EVENT_LAVA_GOUT, EVENT_BLAST_NOVA, hk]
      have h3 : ¬ k % 4 ≥ 3 := by omega
      have : k % 4 + 1 < 256 := by omega
      simp [h3, Nat.mod_eq_of_lt this]
    · intro h
      rw [UpdateAI_lavaGout]
      simp only [handleEvent, EVENT_LAVA_GOUT, EVENT_BLAST_NOVA, hk]
      simp [h]
/-- Witness of C30: the fourth firing after `Reset`. -/
theorem lavaGout_cycle_witness :
    UpdateAI true false [EVENT_LAVA_GOUT] (updated 3 (Reset init)) =
      { lavaGoutCount := 0,
        calls := (updated 3 (Reset init)).calls ++ [Call.Repeat 8000, Call.DoMeleeAttackIfReady] } :=
  ((lavaGout_cycle [] init 3).2.2.2.2.1 (Reset init) rfl).2.2 (by decide)

end npc_onyx_flamecaller

end Trinity
